import Mathlib

/-!
# GPDB writable formatter: shallow embedding of `gpdbwritableformatter.c`

The C file serialises a tuple into the GPDBWritable wire format
(`gpdbwritableformatter_export`) and parses such records back
(`gpdbwritableformatter_import`).

Conventions of the embedding

* a byte is a `Fin 256`; a buffer (`StringInfo`, `char *` with a known number of
  valid bytes) is a `List Byte`;
* C integers (`int`, `int16`, `int8`, `AttrNumber`) are `Int`; every conversion to a
  narrower or unsigned type that the C code performs is an explicit wrap
  (`toInt8`, `toInt16`, `toInt32`, `byteOfInt`);
* a read outside the valid bytes of the data buffer has no defined value in C; the
  decoder model stops with `Abort.outOfBuffer` there;
* `ereport` at level `ERROR` or `PANIC` never returns; it is an `Abort.ereport`;
* the type specific conversion functions (`SendFunctionCall`, `OutputFunctionCall`,
  `ReceiveFunctionCall`, `InputFunctionCall`) are parameters (`IoFunctions`).
-/

namespace GpdbWritable

/-! ## Bytes and fixed width integers -/

abbrev Byte := Fin 256

/-- A `StringInfo` restricted to its `len` valid bytes. -/
abbrev StringInfo := List Byte

/-- Conversion of a C integer to `uint8` (`unsigned char`). -/
def byteOfInt (v : Int) : Byte := Fin.ofNat (v % 256).toNat

/-- Conversion of an unsigned value to `int8`. -/
def toInt8 (n : Int) : Int := if n % 256 < 128 then n % 256 else n % 256 - 256

/-- Conversion of an unsigned value to `int16`. -/
def toInt16 (n : Int) : Int := if n % 65536 < 32768 then n % 65536 else n % 65536 - 65536

/-- Conversion of an unsigned value to `int` (32 bit). -/
def toInt32 (n : Int) : Int :=
  if n % 4294967296 < 2147483648 then n % 4294967296 else n % 4294967296 - 4294967296

/-! ## Catalog constants and tuple descriptors

The type OIDs come from the catalog header `pg_type.h`, which is not part of the
source file; the values below are the ones of the PostgreSQL catalog. -/

abbrev Oid := Nat

/-- Modelled from the spec: catalog constant of `pg_type.h`, the logical type bool. -/
def BOOLOID : Oid := 16
/-- Modelled from the spec: catalog constant of `pg_type.h`, the opaque binary type. -/
def BYTEAOID : Oid := 17
/-- Modelled from the spec: catalog constant of `pg_type.h`, the logical type int64. -/
def INT8OID : Oid := 20
/-- Modelled from the spec: catalog constant of `pg_type.h`, the logical type int16. -/
def INT2OID : Oid := 21
/-- Modelled from the spec: catalog constant of `pg_type.h`, the logical type int32. -/
def INT4OID : Oid := 23
/-- Modelled from the spec: catalog constant of `pg_type.h`, the text type. -/
def TEXTOID : Oid := 25
/-- Modelled from the spec: catalog constant of `pg_type.h`, the logical type float32. -/
def FLOAT4OID : Oid := 700
/-- Modelled from the spec: catalog constant of `pg_type.h`, the logical type float64. -/
def FLOAT8OID : Oid := 701

/-- The fields of `Form_pg_attribute` that the formatter reads. -/
structure FormData_pg_attribute where
  attname : String
  atttypid : Oid
  attlen : Int
  attalign : Char
  attisdropped : Bool
  deriving DecidableEq, Repr

/-- A tuple descriptor: `natts` is the length, `attrs[i]` the i-th element. -/
abbrev TupleDesc := List FormData_pg_attribute

/-- Modelled from the spec: the size of the length word of a `bytea`, a constant of
`postgres.h`; the emitted buffer is 4 bytes longer than the record. -/
def VARHDRSZ : Int := 4
def ERR_COL_OFFSET : Int := 9
def FIRST_LINE_NUM : Int := 1
def GPDBWRITABLE_VERSION : Int := 2
def GPDBWRITABLE_PREV_VERSION : Int := 1

/-! ## Alignment -/

/-- Modelled from the spec: the macro `TYPEALIGN` of `c.h` is not part of the source
file; `alignUp(offset, n)` rounds `offset` up to the next multiple of `n` and is the
identity when `offset` is already aligned. -/
def TYPEALIGN (alignval : Int) (len : Int) : Int := (len + (alignval - 1)) / alignval * alignval

def SHORTALIGN (len : Int) : Int := TYPEALIGN 2 len
def INTALIGN (len : Int) : Int := TYPEALIGN 4 len
def DOUBLEALIGN (len : Int) : Int := TYPEALIGN 8 len

/-- Modelled from the spec: the macro `att_align_nominal` of `tupmacs.h` is not part
of the source file; a fixed-length column aligns to its alignment class, `c` for 1,
`s` for 2, `i` for 4 and `d` for 8 bytes. -/
def att_align_nominal (cur_offset : Int) (attalign : Char) : Int :=
  if attalign = 'i' then INTALIGN cur_offset
  else if attalign = 'c' then cur_offset
  else if attalign = 'd' then DOUBLEALIGN cur_offset
  else SHORTALIGN cur_offset

/-- The number of bytes of the alignment class of `attalign`. -/
def alignBytes (attalign : Char) : Int :=
  if attalign = 'i' then 4
  else if attalign = 'c' then 1
  else if attalign = 'd' then 8
  else 2

/-! ## Buffer writers and readers -/

def appendBinaryStringInfo (str : StringInfo) (data : List Byte) (datalen : Int) : StringInfo :=
  str ++ data.take datalen.toNat

def appendStringInfoFill (str : StringInfo) (occurrences : Int) (ch : Byte) : StringInfo :=
  if (str.length : Int) + occurrences ≤ str.length then str
  else str ++ List.replicate occurrences.toNat ch

/-- The four bytes of `htonl((uint32) val)`. -/
def htonl (val : Int) : List Byte :=
  [byteOfInt (val % 4294967296 / 16777216), byteOfInt (val % 4294967296 / 65536),
   byteOfInt (val % 4294967296 / 256), byteOfInt (val % 4294967296)]

/-- The two bytes of `htons((uint16) val)`. -/
def htons (val : Int) : List Byte :=
  [byteOfInt (val % 65536 / 256), byteOfInt (val % 65536)]

def appendIntToBuffer (buf : StringInfo) (val : Int) : StringInfo :=
  appendBinaryStringInfo buf (htonl val) 4

def appendInt2ToBuffer (buf : StringInfo) (val : Int) : StringInfo :=
  appendBinaryStringInfo buf (htons val) 2

def appendInt1ToBuffer (buf : StringInfo) (val : Int) : StringInfo :=
  appendBinaryStringInfo buf [byteOfInt val] 1

/-- The two `elog` levels the formatter reports at. -/
inductive ErrLevel where
  | ERROR
  | PANIC
  deriving DecidableEq, Repr

/-- The conditions the decoder reports through `ereport`. -/
inductive ErrKind where
  | UnexpectedEOF
  | UnsupportedVersion (version : Int)
  | RemoteErrorSignaled (msg : List Byte)
  | ColumnCountMismatch (ncolumns_remote : Int)
  | UnknownTypeOrdinal (enumType : Int)
  | TypeMismatch (columns : List (String × Oid × Oid))
  | LengthOverflow (column : Nat)
  | FramingMismatch (tuplelen bufidx data_cur : Int)
  | ConversionFailed (column : Nat)
  deriving DecidableEq, Repr

/-- The ways control leaves a routine of the decoder early. -/
inductive Abort where
  | needMoreData
  | ereport (level : ErrLevel) (kind : ErrKind)
  | outOfBuffer
  deriving DecidableEq, Repr

instance instDecidableEqExcept {ε α : Type} [DecidableEq ε] [DecidableEq α] :
    DecidableEq (Except ε α)
  | .ok a, .ok b =>
    if h : a = b then isTrue (by rw [h]) else isFalse (fun h1 => h (Except.ok.inj h1))
  | .error a, .error b =>
    if h : a = b then isTrue (by rw [h]) else isFalse (fun h1 => h (Except.error.inj h1))
  | .ok _, .error _ => isFalse (fun h => Except.noConfusion h)
  | .error _, .ok _ => isFalse (fun h => Except.noConfusion h)

/-- The `n` bytes of `buffer` that start at `offset`, when they all lie inside it. -/
def readBytes (buffer : List Byte) (offset : Int) (n : Nat) : Except Abort (List Byte) :=
  if 0 ≤ offset ∧ offset + n ≤ buffer.length then
    .ok ((buffer.drop offset.toNat).take n)
  else .error .outOfBuffer

/-- The value of a big-endian byte sequence. -/
def beValue : List Byte → Int
  | [] => 0
  | b :: bs => (b.val : Int) * 256 ^ bs.length + beValue bs

/-- The returned pair is the value and the increased offset. -/
def readIntFromBuffer (buffer : List Byte) (offset : Int) : Except Abort (Int × Int) :=
  match readBytes buffer offset 4 with
  | .ok bs => .ok (toInt32 (beValue bs), offset + 4)
  | .error e => .error e

/-- The returned pair is the `uint16` value and the increased offset. -/
def readInt2FromBuffer (buffer : List Byte) (offset : Int) : Except Abort (Int × Int) :=
  match readBytes buffer offset 2 with
  | .ok bs => .ok (beValue bs, offset + 2)
  | .error e => .error e

/-- The returned pair is the `uint8` value and the increased offset. -/
def readInt1FromBuffer (buffer : List Byte) (offset : Int) : Except Abort (Int × Int) :=
  match readBytes buffer offset 1 with
  | .ok bs => .ok (beValue bs, offset + 1)
  | .error e => .error e

/-- The characters of the C string that starts at the head of `s`: the bytes before
the first NUL. -/
def cstring (s : List Byte) : List Byte := s.takeWhile (fun b => b != 0)

/-- The C string stored at `offset`; it has to end inside the buffer. -/
def readCString (buffer : List Byte) (offset : Int) : Except Abort (List Byte) :=
  if 0 ≤ offset ∧ offset ≤ buffer.length then
    if (0 : Byte) ∈ buffer.drop offset.toNat then .ok (cstring (buffer.drop offset.toNat))
    else .error .outOfBuffer
  else .error .outOfBuffer

/-! ## Type tags -/

def isBinaryFormatType (typeid : Oid) : Bool :=
  typeid == BOOLOID || typeid == BYTEAOID || typeid == FLOAT4OID || typeid == FLOAT8OID ||
  typeid == INT2OID || typeid == INT4OID || typeid == INT8OID

def isVariableLength (typeid : Oid) : Bool :=
  typeid == BYTEAOID || !isBinaryFormatType typeid

def getJavaEnumOrdinal (typeid : Oid) : Int :=
  if typeid = INT8OID then 0
  else if typeid = BOOLOID then 1
  else if typeid = FLOAT8OID then 2
  else if typeid = INT4OID then 3
  else if typeid = FLOAT4OID then 4
  else if typeid = INT2OID then 5
  else if typeid = BYTEAOID then 6
  else 7

/-- The argument is the `int8` value of the tag byte. -/
def getTypeOidFromJavaEnumOrdinal (enumType : Int) : Except Abort Oid :=
  if enumType = 0 then .ok INT8OID
  else if enumType = 1 then .ok BOOLOID
  else if enumType = 2 then .ok FLOAT8OID
  else if enumType = 3 then .ok INT4OID
  else if enumType = 4 then .ok FLOAT4OID
  else if enumType = 5 then .ok INT2OID
  else if enumType = 6 then .ok BYTEAOID
  else if enumType = 7 then .ok TEXTOID
  else .error (.ereport .ERROR (.UnknownTypeOrdinal enumType))

/-! ## Null bitmap -/

/-- C division and remainder truncate towards zero. -/
def getNullByteArraySize (colCnt : Int) : Int :=
  Int.tdiv colCnt 8 + (if Int.tmod colCnt 8 ≠ 0 then 1 else 0)

/-- The loop of `boolArrayToByteArray`: `j` is the byte index and `k` the bit index;
`k--` followed by the test `k < 0` is the case distinction on `k = 0`. -/
def boolArrayToByteArrayLoop : TupleDesc → List Bool → List Byte → Nat → Nat → List Byte
  | attr :: attrs, d :: data, result, j, k =>
    if attr.attisdropped then boolArrayToByteArrayLoop attrs data result j k
    else
      let result1 := result.set j
        (Fin.ofNat ((result.getD j 0).val ||| ((if d then 1 else 0) <<< k)))
      if k = 0 then boolArrayToByteArrayLoop attrs data result1 (j + 1) 7
      else boolArrayToByteArrayLoop attrs data result1 j (k - 1)
  | _, _, result, _, _ => result

/-- The array `data` has one flag per attribute of `tupdesc`; the result has `*outlen`
bytes. -/
def boolArrayToByteArray (data : List Bool) (validlen : Int) (tupdesc : TupleDesc) : List Byte :=
  boolArrayToByteArrayLoop tupdesc data
    (List.replicate (getNullByteArraySize validlen).toNat 0) 0 7

/-- The loop of `byteArrayToBoolArray`; `data` are the bytes the pointer `data` points
to. -/
def byteArrayToBoolArrayLoop (data : List Byte) : TupleDesc → Nat → Nat → Except Abort (List Bool)
  | [], _, _ => .ok []
  | attr :: attrs, j, k =>
    if attr.attisdropped then
      match byteArrayToBoolArrayLoop data attrs j k with
      | .ok rest => .ok (true :: rest)
      | .error e => .error e
    else
      match data[j]? with
      | none => .error .outOfBuffer
      | some b =>
        let flag := ((b.val >>> k) &&& 1) == 1
        match (if k = 0 then byteArrayToBoolArrayLoop data attrs (j + 1) 7
               else byteArrayToBoolArrayLoop data attrs j (k - 1)) with
        | .ok rest => .ok (flag :: rest)
        | .error e => .error e

/-- The result is the array `*booldata`, one flag per attribute of `tupdesc`
(`boollen` is `natts` at the only call site). -/
def byteArrayToBoolArray (data : List Byte) (tupdesc : TupleDesc) : Except Abort (List Bool) :=
  byteArrayToBoolArrayLoop data tupdesc 0 7

/-- The entries of a per-attribute array that belong to the attributes that are not
dropped, in schema order; for the null flags these are the flags the bitmap has a bit
for. -/
def validOnly {α : Type} : TupleDesc → List α → List α
  | attr :: attrs, d :: data =>
    if attr.attisdropped then validOnly attrs data else d :: validOnly attrs data
  | _, _ => []

/-- Bit `p` of a byte array, counted from the most significant bit of byte 0: bit
`7 - p % 8` of byte `p / 8`. -/
def bitAt (bytes : List Byte) (p : Nat) : Bool :=
  (bytes.getD (p / 8) 0).val.testBit (7 - p % 8)

/-! ## Conversion callbacks and tuples -/

/-- The type specific conversion functions of a column, resolved from the attribute.
`OutputFunctionCall` returns the memory its `char *` result points to; the string it
denotes ends at the first NUL. The receiving functions may raise an error (`none`). -/
structure IoFunctions (Datum : Type) where
  SendFunctionCall : FormData_pg_attribute → Datum → List Byte
  OutputFunctionCall : FormData_pg_attribute → Datum → List Byte
  ReceiveFunctionCall : FormData_pg_attribute → List Byte → Option Datum
  InputFunctionCall : FormData_pg_attribute → List Byte → Option Datum

/-- A heap tuple as a list of attribute values: `none` is a null attribute. The pair of
arrays `values`/`nulls` of the C code is a list of this type as well. -/
abbrev HeapTuple (Datum : Type) := List (Option Datum)

/-- Attributes that the tuple does not store are read as null. -/
def heap_deform_tuple {Datum : Type} : TupleDesc → HeapTuple Datum → List (Option Datum)
  | [], _ => []
  | _ :: attrs, [] => none :: heap_deform_tuple attrs []
  | _ :: attrs, v :: vs => v :: heap_deform_tuple attrs vs

/-- The number of attributes that are not dropped. -/
def countValidColumns (tupdesc : TupleDesc) : Int :=
  (tupdesc.countP (fun attr => !attr.attisdropped) : Nat)

/-! ## Encoder -/

/-- The entries `outval[i]`, `outlen[i]` and `outpadlen[i]` of the export context. -/
structure OutColumn where
  outval : List Byte
  outlen : Int
  outpadlen : Int
  deriving DecidableEq, Repr

instance : Inhabited OutColumn := ⟨⟨[], 0, 0⟩⟩

/-- The body of the measuring loop for an attribute that is not dropped; the result is
the column's entry and the new `datlen`. -/
def measureColumn {Datum : Type} (io : IoFunctions Datum) (attr : FormData_pg_attribute)
    (val : Option Datum) (datlen : Int) : OutColumn × Int :=
  match val with
  | none => (⟨[], 0, 0⟩, datlen + 0)
  | some v =>
    let outval : List Byte :=
      if isBinaryFormatType attr.atttypid then io.SendFunctionCall attr v
      else cstring (io.OutputFunctionCall attr v) ++ [0]
    let outlen : Int := outval.length
    if isVariableLength attr.atttypid then
      let alignpadlen := INTALIGN datlen - datlen
      (⟨outval, outlen, alignpadlen⟩, datlen + 4 + alignpadlen + outlen)
    else
      let alignpadlen := att_align_nominal datlen attr.attalign - datlen
      (⟨outval, outlen, alignpadlen⟩, datlen + alignpadlen + outlen)

/-- The measuring loop: one entry per attribute and the final `datlen`. -/
def measureColumns {Datum : Type} (io : IoFunctions Datum) :
    TupleDesc → List (Option Datum) → Int → List OutColumn × Int
  | attr :: attrs, val :: vals, datlen =>
    if attr.attisdropped then
      let r := measureColumns io attrs vals datlen
      (default :: r.1, r.2)
    else
      let c := measureColumn io attr val datlen
      let r := measureColumns io attrs vals c.2
      (c.1 :: r.1, r.2)
  | _, _, datlen => ([], datlen)

/-- The loop that writes the type tag of every attribute that is not dropped. -/
def appendColTypes : TupleDesc → StringInfo → StringInfo
  | [], buf => buf
  | attr :: attrs, buf =>
    if !attr.attisdropped then
      appendColTypes attrs (appendInt1ToBuffer buf (getJavaEnumOrdinal attr.atttypid))
    else appendColTypes attrs buf

/-- The loop that writes the column values. -/
def appendColValues {Datum : Type} :
    TupleDesc → List (Option Datum) → List OutColumn → StringInfo → StringInfo
  | attr :: attrs, val :: vals, c :: cols, buf =>
    if !attr.attisdropped && !val.isNone then
      let buf1 := appendStringInfoFill buf c.outpadlen 0
      let buf2 := if isVariableLength attr.atttypid then appendIntToBuffer buf1 c.outlen else buf1
      appendColValues attrs vals cols (appendBinaryStringInfo buf2 c.outval c.outlen)
    else appendColValues attrs vals cols buf
  | _, _, _, buf => buf

/-- The value of `datlen` before the end padding is added, with the entries of the
measuring loop. -/
def exportMeasure {Datum : Type} (io : IoFunctions Datum) (tupdesc : TupleDesc)
    (rec : HeapTuple Datum) : List OutColumn × Int :=
  let nvalidcolumns := countValidColumns tupdesc
  measureColumns io tupdesc (heap_deform_tuple tupdesc rec)
    (4 + 2 + 1 + 2 + nvalidcolumns + getNullByteArraySize nvalidcolumns)

def exportEndpadding {Datum : Type} (io : IoFunctions Datum) (tupdesc : TupleDesc)
    (rec : HeapTuple Datum) : Int :=
  DOUBLEALIGN (exportMeasure io tupdesc rec).2 - (exportMeasure io tupdesc rec).2

/-- The final value of `datlen`. -/
def exportDatlen {Datum : Type} (io : IoFunctions Datum) (tupdesc : TupleDesc)
    (rec : HeapTuple Datum) : Int :=
  (exportMeasure io tupdesc rec).2 + exportEndpadding io tupdesc rec

/-- The buffer `export_format_tuple` when the function reaches its final assertion:
`VARHDRSZ` reserved bytes followed by the record. -/
def gpdbwritableformatter_export {Datum : Type} (io : IoFunctions Datum) (tupdesc : TupleDesc)
    (rec : HeapTuple Datum) : StringInfo :=
  let nvalidcolumns := countValidColumns tupdesc
  let vals := heap_deform_tuple tupdesc rec
  let buf := appendStringInfoFill [] VARHDRSZ 0
  let buf := appendIntToBuffer buf (exportDatlen io tupdesc rec)
  let buf := appendInt2ToBuffer buf GPDBWRITABLE_VERSION
  let buf := appendInt1ToBuffer buf 0
  let buf := appendInt2ToBuffer buf nvalidcolumns
  let buf := appendColTypes tupdesc buf
  let nullBit := boolArrayToByteArray (vals.map Option.isNone) nvalidcolumns tupdesc
  let buf := appendBinaryStringInfo buf nullBit (getNullByteArraySize nvalidcolumns)
  let buf := appendColValues tupdesc vals (exportMeasure io tupdesc rec).1 buf
  appendStringInfoFill buf (exportEndpadding io tupdesc rec) 0

/-- The payload of the returned `bytea` (`VARDATA`): the record that goes on the
wire. -/
def exportRecord {Datum : Type} (io : IoFunctions Datum) (tupdesc : TupleDesc)
    (rec : HeapTuple Datum) : List Byte :=
  (gpdbwritableformatter_export io tupdesc rec).drop VARHDRSZ.toNat

/-! ## Layout of a record

The bytes the loops of the encoder append, named piece by piece. -/

/-- The type tags the tag loop appends. -/
def tagBytes (tupdesc : TupleDesc) : List Byte :=
  (tupdesc.filter (fun attr => !attr.attisdropped)).map
    (fun attr => byteOfInt (getJavaEnumOrdinal attr.atttypid))

/-- The bytes the value loop appends for one attribute: padding, length prefix of a
variable length type, value. -/
def columnChunk {Datum : Type} (attr : FormData_pg_attribute) (val : Option Datum)
    (c : OutColumn) : List Byte :=
  if !attr.attisdropped && !val.isNone then
    List.replicate c.outpadlen.toNat 0 ++
      ((if isVariableLength attr.atttypid then htonl c.outlen else []) ++
        c.outval.take c.outlen.toNat)
  else []

/-- The piece of every attribute, in schema order. -/
def columnChunks {Datum : Type} :
    TupleDesc → List (Option Datum) → List OutColumn → List (List Byte)
  | attr :: attrs, val :: vals, c :: cols => columnChunk attr val c :: columnChunks attrs vals cols
  | _, _, _ => []

/-- The pieces of the column values of an exported record. -/
def exportChunks {Datum : Type} (io : IoFunctions Datum) (tupdesc : TupleDesc)
    (rec : HeapTuple Datum) : List (List Byte) :=
  columnChunks tupdesc (heap_deform_tuple tupdesc rec) (exportMeasure io tupdesc rec).1

/-- The null bitmap of an exported record. -/
def exportNullBits {Datum : Type} (tupdesc : TupleDesc) (rec : HeapTuple Datum) : List Byte :=
  boolArrayToByteArray ((heap_deform_tuple tupdesc rec).map Option.isNone)
    (countValidColumns tupdesc) tupdesc

/-- The value bytes of a column that is not null: the result of the send function for
a binary format type, the printed string with its terminating NUL otherwise. -/
def columnPayload {Datum : Type} (io : IoFunctions Datum) (attr : FormData_pg_attribute)
    (v : Datum) : List Byte :=
  if isBinaryFormatType attr.atttypid then io.SendFunctionCall attr v
  else cstring (io.OutputFunctionCall attr v) ++ [0]

/-- The alignment a column value is padded to: 4 for a variable length type, which
starts with its length prefix, the alignment class of the type otherwise. -/
def columnAlign (attr : FormData_pg_attribute) : Int :=
  if isVariableLength attr.atttypid then 4 else alignBytes attr.attalign

/-- The bytes of an exported record before the column values: length field, version,
error flag, column count, type tags and null bitmap. -/
def exportHeader {Datum : Type} (io : IoFunctions Datum) (tupdesc : TupleDesc)
    (rec : HeapTuple Datum) : List Byte :=
  htonl (exportDatlen io tupdesc rec) ++ (htons GPDBWRITABLE_VERSION ++ ([byteOfInt 0] ++
    (htons (countValidColumns tupdesc) ++ (tagBytes tupdesc ++ exportNullBits tupdesc rec))))

/-- What the round trip assumes of a column and its value: a dropped slot is null, and
for a value that is not null the receiving callback inverts the sending one; the send
function of a fixed length type produces `attlen` bytes. The printed form of a text
value is the C string of the output function, which ends at its first NUL. -/
def columnRoundTrips {Datum : Type} (io : IoFunctions Datum) (attr : FormData_pg_attribute) :
    Option Datum → Prop
  | none => True
  | some v =>
    attr.attisdropped = false ∧
      if isBinaryFormatType attr.atttypid then
        io.ReceiveFunctionCall attr (io.SendFunctionCall attr v) = some v ∧
          (isVariableLength attr.atttypid = false →
            ((io.SendFunctionCall attr v).length : Int) = attr.attlen)
      else io.InputFunctionCall attr (cstring (io.OutputFunctionCall attr v)) = some v

/-! ## The scenario of the specification -/

/-- The values of the scenario row. -/
inductive ScenarioDatum where
  | int4 (n : Int)
  | text (s : List Byte)
  | bool (b : Bool)
  deriving DecidableEq, Repr

/-- Modelled from the spec: the conversion callbacks are collaborators outside the
source file; for the scenario an `int32` is sent as its four big-endian bytes, a `bool`
as one byte, and a text value is its characters. -/
def scenarioIo : IoFunctions ScenarioDatum where
  SendFunctionCall := fun _ v =>
    match v with
    | .int4 n => htonl n
    | .bool b => [if b then 1 else 0]
    | .text s => s
  OutputFunctionCall := fun _ v =>
    match v with
    | .text s => s
    | .int4 _ => []
    | .bool _ => []
  ReceiveFunctionCall := fun attr bytes =>
    if attr.atttypid = INT4OID then
      if bytes.length = 4 then some (.int4 (toInt32 (beValue bytes))) else none
    else if attr.atttypid = BOOLOID then
      if bytes.length = 1 then some (.bool (bytes != [0])) else none
    else some (.text bytes)
  InputFunctionCall := fun _ s => some (.text s)

/-- The schema `{int32 a, text b, bool c}`. -/
def scenarioDesc : TupleDesc :=
  [⟨"a", INT4OID, 4, 'i', false⟩, ⟨"b", TEXTOID, -1, 'i', false⟩, ⟨"c", BOOLOID, 1, 'c', false⟩]

/-- The row `{a=42, b="hi", c=null}`. -/
def scenarioRow : HeapTuple ScenarioDatum :=
  [some (.int4 42), some (.text [0x68, 0x69]), none]

/-- A schema with a dropped middle column. -/
def droppedDesc : TupleDesc :=
  [⟨"a", INT4OID, 4, 'i', false⟩, ⟨"x", INT8OID, 8, 'd', true⟩, ⟨"b", TEXTOID, -1, 'i', false⟩]

/-- A row of `droppedDesc`; the dropped slot is null. -/
def droppedRow : HeapTuple ScenarioDatum :=
  [some (.int4 42), none, some (.text [0x68, 0x69])]

/-- The scenario record with the first type tag replaced by 9, which is no ordinal. -/
def unknownTagRecord : List Byte :=
  [0x00, 0x00, 0x00, 0x20, 0x00, 0x02, 0x00, 0x00, 0x03, 0x09, 0x07, 0x01, 0x20, 0x00, 0x00, 0x00,
   0x00, 0x00, 0x00, 0x2A, 0x00, 0x00, 0x00, 0x03, 0x68, 0x69, 0x00,
   0x00, 0x00, 0x00, 0x00, 0x00]

/-! ## Decoder -/

/-- The fields of the import context that outlive a call. The counter `lineno` is an
`int` in the source; here it is an integer that `lineno++` increases by one, which is
what the source does as long as the counter is below the maximum of `int`. Statements
about the counter over a sequence of calls carry that bound. -/
structure format_t where
  lineno : Int
  formatter_error_level : ErrLevel
  deriving DecidableEq, Repr

/-- The formatter arguments are key/value pairs. -/
def parse_params (args : List (String × String)) (myData : format_t) : format_t :=
  args.foldl (fun m kv =>
    if kv.1 = "dump_core_on_error" ∧ kv.2 = "1" then { m with formatter_error_level := .PANIC }
    else m) myData

/-- The import context a stream starts with. -/
def initImportContext (args : List (String × String)) : format_t :=
  parse_params args { lineno := FIRST_LINE_NUM, formatter_error_level := .ERROR }

/-- Modelled from the spec: the macros `FORMATTER_*` of `formatter.h` are not part of
the source. The input of a call is what they read and write: the valid bytes of the data
buffer (`data_len` is their number), the data cursor, the end-of-input flag and the bad
row data recorded so far (offset and length). `FORMATTER_SET_BAD_ROW_DATA` captures the
bytes of the offending record and hands them to the format manager, and
`FORMATTER_SET_DATACURSOR` sets the data cursor. -/
structure FormatterData where
  databuf : List Byte
  datacursor : Int
  saw_eof : Bool
  badrow : Option (Int × Int)
  deriving DecidableEq, Repr

/-- The error flag is read only when the version carries one; the result is
`error_flag` (an `int8`, initially 0) and the new `bufidx`. -/
def readErrorFlag (version : Int) (data_buf : List Byte) (bufidx : Int) : Except Abort (Int × Int) :=
  if version = GPDBWRITABLE_VERSION then
    match readInt1FromBuffer data_buf bufidx with
    | .error e => .error e
    | .ok (f, b) => .ok (toInt8 f, b)
  else .ok (0, bufidx)

/-- The version, error flag and column count of the header; the result is
`ncolumns_remote` and the new `bufidx`. -/
def importHeader (data_buf : List Byte) (bufidx : Int) : Except Abort (Int × Int) :=
  match readInt2FromBuffer data_buf bufidx with
  | .error e => .error e
  | .ok (v, bufidx1) =>
    let version := toInt16 v
    if version ≠ GPDBWRITABLE_VERSION ∧ version ≠ GPDBWRITABLE_PREV_VERSION then
      .error (.ereport .ERROR (.UnsupportedVersion version))
    else
      match readErrorFlag version data_buf bufidx1 with
      | .error e => .error e
      | .ok (error_flag, bufidx2) =>
        if error_flag ≠ 0 then
          match readCString data_buf (bufidx2 + ERR_COL_OFFSET) with
          | .error e => .error e
          | .ok msg => .error (.ereport .ERROR (.RemoteErrorSignaled msg))
        else
          match readInt2FromBuffer data_buf bufidx2 with
          | .error e => .error e
          | .ok (n, bufidx3) => .ok (toInt16 n, bufidx3)

/-- The loop of `verifyExternalTableDefinition`; `errMsg` collects, for every
mismatching column, its name, its defined type and its input type. -/
def verifyLoop (data_buf : List Byte) :
    TupleDesc → Int → List (String × Oid × Oid) → Except Abort (Int × List (String × Oid × Oid))
  | [], bufidx, errMsg => .ok (bufidx, errMsg)
  | attr :: attrs, bufidx, errMsg =>
    if attr.attisdropped then verifyLoop data_buf attrs bufidx errMsg
    else
      let defined_type := attr.atttypid
      match readInt1FromBuffer data_buf bufidx with
      | .error e => .error e
      | .ok (t, bufidx1) =>
        match getTypeOidFromJavaEnumOrdinal (toInt8 t) with
        | .error e => .error e
        | .ok input_type =>
          if (isBinaryFormatType defined_type || isBinaryFormatType input_type) &&
              input_type != defined_type then
            verifyLoop data_buf attrs bufidx1 (errMsg ++ [(attr.attname, defined_type, input_type)])
          else verifyLoop data_buf attrs bufidx1 errMsg

/-- The result is the new `bufidx`. -/
def verifyExternalTableDefinition (ncolumns_remote nvalidcolumns : Int) (tupdesc : TupleDesc)
    (data_buf : List Byte) (bufidx : Int) : Except Abort Int :=
  if ncolumns_remote ≠ nvalidcolumns then
    .error (.ereport .ERROR (.ColumnCountMismatch ncolumns_remote))
  else
    match verifyLoop data_buf tupdesc bufidx [] with
    | .error e => .error e
    | .ok (bufidx1, errMsg) =>
      if errMsg ≠ [] then .error (.ereport .ERROR (.TypeMismatch errMsg))
      else .ok bufidx1

/-- The bytes a pointer `data_buf + bufidx` points to. -/
def pointerAt (data_buf : List Byte) (bufidx : Int) : Except Abort (List Byte) :=
  if 0 ≤ bufidx ∧ bufidx ≤ data_buf.length then .ok (data_buf.drop bufidx.toNat)
  else .error .outOfBuffer

/-- The length and the aligned `bufidx` of a column value that is not null. -/
def importColumnLength (level : ErrLevel) (data_buf : List Byte) (tuplelen : Int)
    (attr : FormData_pg_attribute) (i : Nat) (bufidx : Int) : Except Abort (Int × Int) :=
  if isVariableLength attr.atttypid then
    match readIntFromBuffer data_buf (INTALIGN bufidx) with
    | .error e => .error e
    | .ok (outlen, bufidx1) =>
      if outlen > tuplelen then .error (.ereport level (.LengthOverflow i))
      else .ok (outlen, bufidx1)
  else .ok (attr.attlen, att_align_nominal bufidx attr.attalign)

/-- The conversion of the column value stored at `bufidx`. The receive function gets the
`outlen` bytes at `bufidx`, the input function the C string at `bufidx`; a negative
length, or bytes outside the buffer, leave the conversion undefined. -/
def importColumnValue {Datum : Type} (io : IoFunctions Datum) (data_buf : List Byte)
    (attr : FormData_pg_attribute) (i : Nat) (outlen bufidx : Int) : Except Abort Datum :=
  if isBinaryFormatType attr.atttypid then
    if outlen < 0 then .error .outOfBuffer
    else
      match readBytes data_buf bufidx outlen.toNat with
      | .error e => .error e
      | .ok bytes =>
        match io.ReceiveFunctionCall attr bytes with
        | none => .error (.ereport .ERROR (.ConversionFailed i))
        | some v => .ok v
  else
    match readCString data_buf bufidx with
    | .error e => .error e
    | .ok s =>
      match io.InputFunctionCall attr s with
      | none => .error (.ereport .ERROR (.ConversionFailed i))
      | some v => .ok v

/-- The loop that extracts the column values; `i` is the index of the first attribute
of the list. The result is the tuple's attributes and the final `bufidx`. -/
def importColumns {Datum : Type} (io : IoFunctions Datum) (level : ErrLevel)
    (data_buf : List Byte) (tuplelen tupleEndIdx : Int) :
    TupleDesc → List Bool → Nat → Int → Except Abort (List (Option Datum) × Int)
  | attr :: attrs, nul :: nulls, i, bufidx =>
    if attr.attisdropped || nul then
      match importColumns io level data_buf tuplelen tupleEndIdx attrs nulls (i + 1) bufidx with
      | .error e => .error e
      | .ok (vals, b) => .ok (none :: vals, b)
    else
      match importColumnLength level data_buf tuplelen attr i bufidx with
      | .error e => .error e
      | .ok (outlen, bufidx1) =>
        match importColumnValue io data_buf attr i outlen bufidx1 with
        | .error e => .error e
        | .ok v =>
          if bufidx1 + outlen > tupleEndIdx then .error (.ereport level (.LengthOverflow i))
          else
            match importColumns io level data_buf tuplelen tupleEndIdx attrs nulls (i + 1)
                (bufidx1 + outlen) with
            | .error e => .error e
            | .ok (vals, b) => .ok (some v :: vals, b)
  | _, _, _, bufidx => .ok ([], bufidx)

/-- The part of the import function after the column count has been read: schema
check or tag skip, null bitmap, column values and the end check. -/
def importBody {Datum : Type} (io : IoFunctions Datum) (tupdesc : TupleDesc)
    (myData : format_t) (data_buf : List Byte) (data_cur tuplelen ncolumns_remote bufidx : Int) :
    Except Abort (HeapTuple Datum) :=
  let tupleEndIdx := data_cur + tuplelen
  match (if FIRST_LINE_NUM = myData.lineno then
           verifyExternalTableDefinition ncolumns_remote (countValidColumns tupdesc) tupdesc
             data_buf bufidx
         else .ok (bufidx + ncolumns_remote)) with
  | .error e => .error e
  | .ok bufidx1 =>
    match pointerAt data_buf bufidx1 with
    | .error e => .error e
    | .ok nullByteArray =>
      match byteArrayToBoolArray nullByteArray tupdesc with
      | .error e => .error e
      | .ok nulls =>
        match importColumns io myData.formatter_error_level data_buf tuplelen tupleEndIdx
            tupdesc nulls 0 (bufidx1 + getNullByteArraySize ncolumns_remote) with
        | .error e => .error e
        | .ok (vals, bufidx2) =>
          if tupleEndIdx ≠ DOUBLEALIGN bufidx2 then
            .error (.ereport .ERROR (.FramingMismatch tuplelen (DOUBLEALIGN bufidx2) data_cur))
          else .ok vals

/-- What a call of the import function hands back. -/
inductive ImportResult (Datum : Type) where
  | needMoreData
  | tuple (t : HeapTuple Datum)
  | error (level : ErrLevel) (kind : ErrKind)
  | undefinedRead
  deriving DecidableEq, Repr

def ImportResult.ofAbort {Datum : Type} : Abort → ImportResult Datum
  | .needMoreData => .needMoreData
  | .ereport level kind => .error level kind
  | .outOfBuffer => .undefinedRead

/-- The result of a call with the state it leaves behind: the import context, the data
cursor and the bad row data. -/
structure ImportOut (Datum : Type) where
  result : ImportResult Datum
  myData : format_t
  datacursor : Int
  badrow : Option (Int × Int)
  deriving DecidableEq, Repr

def gpdbwritableformatter_import {Datum : Type} (io : IoFunctions Datum) (tupdesc : TupleDesc)
    (myData : format_t) (fd : FormatterData) : ImportOut Datum :=
  let data_buf := fd.databuf
  let data_len : Int := fd.databuf.length
  let data_cur := fd.datacursor
  let remaining := data_len - data_cur
  if remaining = 0 ∧ fd.saw_eof = true then
    ⟨ImportResult.needMoreData, myData, data_cur, fd.badrow⟩
  else if remaining < 4 then
    if fd.saw_eof then ⟨ImportResult.error .ERROR .UnexpectedEOF, myData, data_cur, some (data_cur, remaining)⟩
    else ⟨ImportResult.needMoreData, myData, data_cur, fd.badrow⟩
  else
    match readIntFromBuffer data_buf data_cur with
    | .error e => ⟨ImportResult.ofAbort e, myData, data_cur, fd.badrow⟩
    | .ok (tuplelen, bufidx) =>
      if remaining < tuplelen then
        if fd.saw_eof then
          ⟨ImportResult.error .ERROR .UnexpectedEOF, myData, data_cur, some (data_cur, remaining)⟩
        else ⟨ImportResult.needMoreData, myData, data_cur, fd.badrow⟩
      else
        match importHeader data_buf bufidx with
        | .error e => ⟨ImportResult.ofAbort e, myData, data_cur, some (data_cur, tuplelen)⟩
        | .ok (ncolumns_remote, bufidx1) =>
          let myData1 := { myData with lineno := myData.lineno + 1 }
          match importBody io tupdesc myData data_buf data_cur tuplelen ncolumns_remote bufidx1 with
          | .error e => ⟨ImportResult.ofAbort e, myData1, data_cur, some (data_cur, tuplelen)⟩
          | .ok t => ⟨ImportResult.tuple t, myData1, data_cur + tuplelen, some (data_cur, tuplelen)⟩

/-! ## Steps of the import function

The conditions each step can stop with, and the steps after the header by name. -/

/-- The conditions `importHeader` can stop with. -/
def Abort.fromHeader : Abort → Bool
  | .outOfBuffer => true
  | .ereport .ERROR (.UnsupportedVersion _) => true
  | .ereport .ERROR (.RemoteErrorSignaled _) => true
  | _ => false

/-- The conditions the schema check can stop with. -/
def Abort.fromSchema : Abort → Bool
  | .outOfBuffer => true
  | .ereport .ERROR (.ColumnCountMismatch _) => true
  | .ereport .ERROR (.UnknownTypeOrdinal _) => true
  | .ereport .ERROR (.TypeMismatch _) => true
  | _ => false

/-- The conditions the null bitmap, the column loop and the end check can stop with. -/
def Abort.fromWalk : Abort → Bool
  | .outOfBuffer => true
  | .ereport _ (.LengthOverflow _) => true
  | .ereport .ERROR (.ConversionFailed _) => true
  | .ereport .ERROR (.FramingMismatch _ _ _) => true
  | _ => false

/-- The step of `importBody` that follows the column count: the schema check on the
first line, the skip of the type tags on every other line. The result is the new
`bufidx`. -/
def importSchema (tupdesc : TupleDesc) (myData : format_t) (data_buf : List Byte)
    (ncolumns_remote bufidx : Int) : Except Abort Int :=
  if FIRST_LINE_NUM = myData.lineno then
    verifyExternalTableDefinition ncolumns_remote (countValidColumns tupdesc) tupdesc data_buf bufidx
  else .ok (bufidx + ncolumns_remote)

/-- The steps of `importBody` between the type tags and the end check: null bitmap and
column loop. The result is the tuple's attributes and the final `bufidx`. -/
def importWalk {Datum : Type} (io : IoFunctions Datum) (tupdesc : TupleDesc)
    (level : ErrLevel) (data_buf : List Byte) (data_cur tuplelen ncolumns_remote bufidx1 : Int) :
    Except Abort (List (Option Datum) × Int) :=
  match pointerAt data_buf bufidx1 with
  | .error e => .error e
  | .ok nullByteArray =>
    match byteArrayToBoolArray nullByteArray tupdesc with
    | .error e => .error e
    | .ok nulls =>
      importColumns io level data_buf tuplelen (data_cur + tuplelen) tupdesc nulls 0
        (bufidx1 + getNullByteArraySize ncolumns_remote)

/-- A version-2 record whose error flag is set, with the message `bad` at record offset
16. -/
def remoteErrorRecord : List Byte :=
  [0x00, 0x00, 0x00, 0x18, 0x00, 0x02, 0x01, 0x00, 0x00, 0x00, 0x00, 0x00, 0x00, 0x00, 0x00, 0x00,
   0x62, 0x61, 0x64, 0x00, 0x00, 0x00, 0x00, 0x00]

/-! ## The schema rule -/

/-- The type a type tag in 0..7 stands for. -/
def tagType (t : Byte) : Oid :=
  match getTypeOidFromJavaEnumOrdinal (toInt8 t.val) with
  | .ok ty => ty
  | .error _ => 0

/-- The rule for one column: the local or the remote type is a binary format type and
the two differ. -/
def isMismatch (localType remoteType : Oid) : Bool :=
  (isBinaryFormatType localType || isBinaryFormatType remoteType) && remoteType != localType

/-- The mismatches of a schema against a remote tag array: the attributes that are not
dropped, paired in schema order with the remote tags, that break the rule, each with
its name, its local type and its remote type. -/
def mismatchingColumns (tupdesc : TupleDesc) (tags : List Byte) : List (String × Oid × Oid) :=
  (((tupdesc.filter (fun a => !a.attisdropped)).zip tags).filter
    (fun p => isMismatch p.1.atttypid (tagType p.2))).map
    (fun p => (p.1.attname, p.1.atttypid, tagType p.2))

/-- The scenario record with the tag of the text column `b` replaced by 0, the tag of
int64. -/
def mismatchRecord : List Byte :=
  [0x00, 0x00, 0x00, 0x20, 0x00, 0x02, 0x00, 0x00, 0x03, 0x03, 0x00, 0x01, 0x20, 0x00, 0x00, 0x00,
   0x00, 0x00, 0x00, 0x2A, 0x00, 0x00, 0x00, 0x03, 0x68, 0x69, 0x00,
   0x00, 0x00, 0x00, 0x00, 0x00]

/-! ## A record with an overlong column -/

/-- Modelled from the spec: conversion callbacks as in the scenario, except that the input
function of a text format type accepts decimal digits only and raises an error on
anything else, as the input function of a numeric type does. -/
def digitsIo : IoFunctions ScenarioDatum where
  SendFunctionCall := scenarioIo.SendFunctionCall
  OutputFunctionCall := scenarioIo.OutputFunctionCall
  ReceiveFunctionCall := scenarioIo.ReceiveFunctionCall
  InputFunctionCall := fun _ s =>
    if s.all (fun b => decide (48 ≤ b.val) && decide (b.val ≤ 57)) then some (.text s) else none

/-- A schema with one column of a text format type (1700 is the OID of numeric). -/
def numericDesc : TupleDesc := [⟨"n", 1700, -1, 'i', false⟩]

/-- A record of 24 bytes for `numericDesc`: the length prefix of the column, at offset
12, declares 16 bytes although 8 bytes remain in the record; the bytes at the column's
position are the string `12x`. -/
def overlongRecord : List Byte :=
  [0x00, 0x00, 0x00, 0x18, 0x00, 0x02, 0x00, 0x00, 0x01, 0x07, 0x00, 0x00,
   0x00, 0x00, 0x00, 0x10, 0x31, 0x32, 0x78, 0x00, 0x00, 0x00, 0x00, 0x00]

/-! ## The legacy layout -/

/-- Modelled from the spec: the value of `datlen` of a record in the legacy layout
before the end padding is added, with the entries of the measuring loop. The header of
version 1 has no error flag byte, so the measuring loop starts one byte earlier. -/
def legacyMeasure {Datum : Type} (io : IoFunctions Datum) (tupdesc : TupleDesc)
    (rec : HeapTuple Datum) : List OutColumn × Int :=
  let nvalidcolumns := countValidColumns tupdesc
  measureColumns io tupdesc (heap_deform_tuple tupdesc rec)
    (4 + 2 + 2 + nvalidcolumns + getNullByteArraySize nvalidcolumns)

/-- Modelled from the spec: the end padding of a record in the legacy layout. -/
def legacyEndpadding {Datum : Type} (io : IoFunctions Datum) (tupdesc : TupleDesc)
    (rec : HeapTuple Datum) : Int :=
  DOUBLEALIGN (legacyMeasure io tupdesc rec).2 - (legacyMeasure io tupdesc rec).2

/-- Modelled from the spec: the total length of a record in the legacy layout. -/
def legacyDatlen {Datum : Type} (io : IoFunctions Datum) (tupdesc : TupleDesc)
    (rec : HeapTuple Datum) : Int :=
  (legacyMeasure io tupdesc rec).2 + legacyEndpadding io tupdesc rec

/-- Modelled from the spec: the record of a row in the legacy layout. The pieces are
those of `exportRecord_eq` with version 1 and without the error flag byte; total length,
alignment padding and end padding are computed for the shorter header. -/
def legacyRecord {Datum : Type} (io : IoFunctions Datum) (tupdesc : TupleDesc)
    (rec : HeapTuple Datum) : List Byte :=
  htonl (legacyDatlen io tupdesc rec) ++ (htons GPDBWRITABLE_PREV_VERSION ++
    (htons (countValidColumns tupdesc) ++ (tagBytes tupdesc ++
      (exportNullBits tupdesc rec ++
        ((columnChunks tupdesc (heap_deform_tuple tupdesc rec)
            (legacyMeasure io tupdesc rec).1).flatten ++
          List.replicate (legacyEndpadding io tupdesc rec).toNat 0)))))

/-- The send function of a fixed length type produces `attlen` bytes. -/
def fixedWidthSent {Datum : Type} (io : IoFunctions Datum) (attr : FormData_pg_attribute) :
    Option Datum → Prop
  | none => True
  | some v =>
    attr.attisdropped = false → isVariableLength attr.atttypid = false →
      ((io.SendFunctionCall attr v).length : Int) = attr.attlen

/-- The content of a column value as the decoder converts it back: the receive function
applied to the bytes of the send function, or the input function applied to the C string
of the output function. -/
def decodeColumn {Datum : Type} (io : IoFunctions Datum) (attr : FormData_pg_attribute)
    (i : Nat) (v : Datum) : Except Abort Datum :=
  if isBinaryFormatType attr.atttypid then
    match io.ReceiveFunctionCall attr (io.SendFunctionCall attr v) with
    | none => .error (.ereport .ERROR (.ConversionFailed i))
    | some w => .ok w
  else
    match io.InputFunctionCall attr (cstring (io.OutputFunctionCall attr v)) with
    | none => .error (.ereport .ERROR (.ConversionFailed i))
    | some w => .ok w

/-- The content of a row converted back column by column, in schema order: a dropped or
null attribute is null, the first conversion that fails stops the row. -/
def decodeColumns {Datum : Type} (io : IoFunctions Datum) :
    TupleDesc → List (Option Datum) → Nat → Except Abort (List (Option Datum))
  | attr :: attrs, val :: vals, i =>
    if attr.attisdropped then
      match decodeColumns io attrs vals (i + 1) with
      | .error e => .error e
      | .ok ws => .ok (none :: ws)
    else
      match val with
      | none =>
        match decodeColumns io attrs vals (i + 1) with
        | .error e => .error e
        | .ok ws => .ok (none :: ws)
      | some v =>
        match decodeColumn io attr i v with
        | .error e => .error e
        | .ok w =>
          match decodeColumns io attrs vals (i + 1) with
          | .error e => .error e
          | .ok ws => .ok (some w :: ws)
  | _, _, _ => .ok []

/-- The row a record with the content of `rec` decodes to, whatever its layout. -/
def decodeRow {Datum : Type} (io : IoFunctions Datum) (tupdesc : TupleDesc)
    (rec : HeapTuple Datum) : ImportResult Datum :=
  match decodeColumns io tupdesc (heap_deform_tuple tupdesc rec) 0 with
  | .error e => ImportResult.ofAbort e
  | .ok ws => .tuple ws

/-! ## A stream of calls -/

/-- The call gets as far as the schema step: the record is fully buffered and the
header walk returns the column count, so the statement that compares and increments
`lineno` is executed. -/
def reachesSchemaParsing (fd : FormatterData) : Bool :=
  let data_len : Int := fd.databuf.length
  let remaining := data_len - fd.datacursor
  if remaining = 0 ∧ fd.saw_eof = true then false
  else if remaining < 4 then false
  else
    match readIntFromBuffer fd.databuf fd.datacursor with
    | .error _ => false
    | .ok (tuplelen, bufidx) =>
      if remaining < tuplelen then false
      else
        match importHeader fd.databuf bufidx with
        | .error _ => false
        | .ok _ => true

/-- The call executes `verifyExternalTableDefinition`: it reaches the schema step with
`lineno` equal to `FIRST_LINE_NUM`. -/
def runsValidator (myData : format_t) (fd : FormatterData) : Bool :=
  reachesSchemaParsing fd && decide (FIRST_LINE_NUM = myData.lineno)

/-- The import context after a sequence of calls on one stream. -/
def contextAfter {Datum : Type} (io : IoFunctions Datum) (tupdesc : TupleDesc) :
    format_t → List FormatterData → format_t
  | myData, [] => myData
  | myData, fd :: fds =>
    contextAfter io tupdesc (gpdbwritableformatter_import io tupdesc myData fd).myData fds

/-- For every call of a sequence of calls on one stream, whether it executes
`verifyExternalTableDefinition`. -/
def validatorRuns {Datum : Type} (io : IoFunctions Datum) (tupdesc : TupleDesc) :
    format_t → List FormatterData → List Bool
  | _, [] => []
  | myData, fd :: fds =>
    runsValidator myData fd ::
      validatorRuns io tupdesc (gpdbwritableformatter_import io tupdesc myData fd).myData fds

/-- The list that is true at the first true entry of a list and nowhere else. -/
def firstOnly : List Bool → List Bool
  | [] => []
  | true :: bs => true :: bs.map (fun _ => false)
  | false :: bs => false :: firstOnly bs

/-- The error conditions of the schema check. -/
def ErrKind.isSchemaError : ErrKind → Bool
  | .ColumnCountMismatch _ => true
  | .UnknownTypeOrdinal _ => true
  | .TypeMismatch _ => true
  | _ => false

/-- A record of version 2 with its type tags, the `n` bytes at offset 9, replaced by
`tags`. -/
def replaceTags (record : List Byte) (n : Nat) (tags : List Byte) : List Byte :=
  record.take 9 ++ (tags ++ record.drop (9 + n))

/-- A schema of seven text columns. -/
def sevenTextDesc : TupleDesc := List.replicate 7 ⟨"c", TEXTOID, -1, 'i', false⟩

/-- A record of 32 bytes with seven type tags: the null bitmap marks the first two
columns as not null, the first column declares the length -12 at offset 20, so the
walk goes on at offset 12 and reads the length of the second column from the last four
type tags. -/
def walkBackRecord (tags : List Byte) : List Byte :=
  [0x00, 0x00, 0x00, 0x20, 0x00, 0x02, 0x00, 0x00, 0x07] ++ tags ++
    [0x3E, 0x00, 0x00, 0x00, 0xFF, 0xFF, 0xFF, 0xF4, 0x61, 0x00, 0x00, 0x00, 0x00, 0x00, 0x00, 0x00]

/-- Whether every column the column loop gets past has a length that is not negative:
the loop of `importColumns` with the test `0 ≤ outlen` in place of the value. On a
walk that stops, by an error or at the last attribute, the columns behind are not
looked at. -/
def declaredLengthsNonneg {Datum : Type} (io : IoFunctions Datum) (level : ErrLevel)
    (data_buf : List Byte) (tuplelen tupleEndIdx : Int) :
    TupleDesc → List Bool → Nat → Int → Bool
  | attr :: attrs, nul :: nulls, i, bufidx =>
    if attr.attisdropped || nul then
      declaredLengthsNonneg io level data_buf tuplelen tupleEndIdx attrs nulls (i + 1) bufidx
    else
      match importColumnLength level data_buf tuplelen attr i bufidx with
      | .error _ => true
      | .ok (outlen, bufidx1) =>
        match importColumnValue io data_buf attr i outlen bufidx1 with
        | .error _ => true
        | .ok _ =>
          if bufidx1 + outlen > tupleEndIdx then true
          else
            decide (0 ≤ outlen) &&
              declaredLengthsNonneg io level data_buf tuplelen tupleEndIdx attrs nulls (i + 1)
                (bufidx1 + outlen)
  | _, _, _, _ => true

/-- The test `declaredLengthsNonneg` for the column loop of `importWalk`. -/
def walkForward {Datum : Type} (io : IoFunctions Datum) (tupdesc : TupleDesc)
    (level : ErrLevel) (data_buf : List Byte) (data_cur tuplelen ncolumns_remote bufidx1 : Int) :
    Bool :=
  match pointerAt data_buf bufidx1 with
  | .error _ => true
  | .ok nullByteArray =>
    match byteArrayToBoolArray nullByteArray tupdesc with
    | .error _ => true
    | .ok nulls =>
      declaredLengthsNonneg io level data_buf tuplelen (data_cur + tuplelen) tupdesc nulls 0
        (bufidx1 + getNullByteArraySize ncolumns_remote)

/-! ## Records with a negative column length -/

/-- A schema of one text column. -/
def oneTextDesc : TupleDesc := [⟨"b", TEXTOID, -1, 'i', false⟩]

/-- A buffer of 24 bytes that starts with a record of declared length 0 for
`oneTextDesc`: the column declares the length -16 at offset 12, so the walk ends at
offset 0. -/
def zeroLengthRecord : List Byte :=
  [0x00, 0x00, 0x00, 0x00, 0x00, 0x02, 0x00, 0x00, 0x01, 0x07, 0x00, 0x00,
   0xFF, 0xFF, 0xFF, 0xF0, 0x61, 0x00, 0x00, 0x00, 0x00, 0x00, 0x00, 0x00]

/-- The columns the column loop gets past, each with the `bufidx` its value starts at
and its length `outlen`: the loop of `importColumns` with the extent of the value in
place of the value. -/
def columnExtents {Datum : Type} (io : IoFunctions Datum) (level : ErrLevel)
    (data_buf : List Byte) (tuplelen tupleEndIdx : Int) :
    TupleDesc → List Bool → Nat → Int → List (FormData_pg_attribute × Int × Int)
  | attr :: attrs, nul :: nulls, i, bufidx =>
    if attr.attisdropped || nul then
      columnExtents io level data_buf tuplelen tupleEndIdx attrs nulls (i + 1) bufidx
    else
      match importColumnLength level data_buf tuplelen attr i bufidx with
      | .error _ => []
      | .ok (outlen, bufidx1) =>
        match importColumnValue io data_buf attr i outlen bufidx1 with
        | .error _ => []
        | .ok _ =>
          if bufidx1 + outlen > tupleEndIdx then []
          else
            (attr, bufidx1, outlen) ::
              columnExtents io level data_buf tuplelen tupleEndIdx attrs nulls (i + 1)
                (bufidx1 + outlen)
  | _, _, _, _ => []

/-- A schema of two text columns. -/
def twoTextDesc : TupleDesc := [⟨"b", TEXTOID, -1, 'i', false⟩, ⟨"c", TEXTOID, -1, 'i', false⟩]

/-- A buffer of 24 bytes that starts with a record of declared length 16 for
`twoTextDesc`: the length prefix at offset 12 holds -4, so the walk is back at offset
12 behind the first column and the second column reads the same prefix and the same
string. -/
def overlapRecord : List Byte :=
  [0x00, 0x00, 0x00, 0x10, 0x00, 0x02, 0x00, 0x00, 0x02, 0x07, 0x07, 0x00,
   0xFF, 0xFF, 0xFF, 0xFC, 0x68, 0x69, 0x00, 0x00, 0x00, 0x00, 0x00, 0x00]

/-! ## The call after an error -/

theorem bitAt_set (result : List Byte) (j k : Nat) (b : Bool) (hk : k ≤ 7)
    (hj : j < result.length) (p : Nat) :
    bitAt (result.set j (Fin.ofNat ((result.getD j 0).val ||| ((if b then 1 else 0) <<< k)))) p =
      if p = 8 * j + (7 - k) then (bitAt result p || b) else bitAt result p := by
  unfold bitAt
  by_cases hp : p / 8 = j
  · subst hp
    have hval : ∀ x : Nat, (Fin.ofNat x : Fin 256).val = x % 2 ^ 8 := fun x => rfl
    rw [List.getD_eq_getElem?_getD, List.getElem?_set_self hj]
    simp only [Option.getD_some, hval, Nat.testBit_mod_two_pow, Nat.testBit_lor,
      Nat.testBit_shiftLeft]
    have h7 : 7 - p % 8 < 8 := by omega
    simp only [h7, decide_True, Bool.true_and]
    by_cases hpm : p = 8 * (p / 8) + (7 - k)
    · have hkk : 7 - p % 8 = k := by omega
      rw [if_pos hpm, hkk]
      cases b <;> simp
    · rw [if_neg hpm]
      have hkk : 7 - p % 8 ≠ k := by omega
      cases b
      · simp
      · by_cases hge : 7 - p % 8 ≥ k
        · have : 7 - p % 8 - k ≠ 0 := by omega
          obtain ⟨q, hq⟩ := Nat.exists_eq_succ_of_ne_zero this
          simp [hq, Nat.testBit_succ]
        · simp [hge]
  · have hpm : p ≠ 8 * j + (7 - k) := by omega
    rw [if_neg hpm, List.getD_eq_getElem?_getD, List.getElem?_set_ne (Ne.symm hp),
      ← List.getD_eq_getElem?_getD]

theorem boolArrayToByteArrayLoop_spec (attrs : TupleDesc) :
    ∀ (data : List Bool) (result : List Byte) (j k : Nat), k ≤ 7 →
    8 * j + (7 - k) + (validOnly attrs data).length ≤ 8 * result.length →
    (∀ p, 8 * j + (7 - k) ≤ p → bitAt result p = false) →
    (boolArrayToByteArrayLoop attrs data result j k).length = result.length ∧
    ∀ p, bitAt (boolArrayToByteArrayLoop attrs data result j k) p =
      if p < 8 * j + (7 - k) then bitAt result p
      else (validOnly attrs data).getD (p - (8 * j + (7 - k))) false := by
  induction attrs with
  | nil =>
    intro data result j k _ _ hzero
    refine ⟨by simp [boolArrayToByteArrayLoop], fun p => ?_⟩
    by_cases hp : p < 8 * j + (7 - k)
    · simp [boolArrayToByteArrayLoop, hp]
    · simp [boolArrayToByteArrayLoop, hp, validOnly, hzero p (by omega)]
  | cons attr attrs ih =>
    intro data result j k hk hfit hzero
    cases data with
    | nil =>
      refine ⟨by simp [boolArrayToByteArrayLoop], fun p => ?_⟩
      by_cases hp : p < 8 * j + (7 - k)
      · simp [boolArrayToByteArrayLoop, hp]
      · simp [boolArrayToByteArrayLoop, hp, validOnly, hzero p (by omega)]
    | cons d data =>
      by_cases hd : attr.attisdropped = true
      · have := ih data result j k hk (by simpa [validOnly, hd] using hfit) hzero
        simpa [boolArrayToByteArrayLoop, validOnly, hd] using this
      · simp only [validOnly, hd, Bool.false_eq_true, if_false, List.length_cons] at hfit
        have hj : j < result.length := by omega
        have hset := bitAt_set result j k d hk hj
        by_cases hk0 : k = 0
        · subst hk0
          have := ih data (result.set j (Fin.ofNat ((result.getD j 0).val |||
              ((if d then 1 else 0) <<< 0)))) (j + 1) 7 (by omega)
            (by rw [List.length_set]; omega)
            (fun p hp => by rw [hset p, if_neg (by omega)]; exact hzero p (by omega))
          obtain ⟨hlen, hbits⟩ := this
          refine ⟨by simpa [boolArrayToByteArrayLoop, hd] using hlen, fun p => ?_⟩
          simp only [boolArrayToByteArrayLoop, hd, Bool.false_eq_true, if_false, if_true,
            validOnly]
          rw [hbits p, hset p]
          by_cases h1 : p < 8 * j + (7 - 0)
          · rw [if_pos (by omega), if_neg (by omega), if_pos h1]
          · by_cases h2 : p = 8 * j + (7 - 0)
            · rw [if_pos (by omega), if_pos h2, if_neg h1, hzero p (by omega), h2]
              simp
            · rw [if_neg (by omega), if_neg h1]
              have : p - (8 * j + (7 - 0)) = (p - (8 * (j + 1) + (7 - 7))) + 1 := by omega
              rw [this]; rfl
        · have := ih data (result.set j (Fin.ofNat ((result.getD j 0).val |||
              ((if d then 1 else 0) <<< k)))) j (k - 1) (by omega)
            (by rw [List.length_set]; omega)
            (fun p hp => by rw [hset p, if_neg (by omega)]; exact hzero p (by omega))
          obtain ⟨hlen, hbits⟩ := this
          refine ⟨by simpa [boolArrayToByteArrayLoop, hd, hk0] using hlen, fun p => ?_⟩
          simp only [boolArrayToByteArrayLoop, hd, Bool.false_eq_true, if_false, hk0,
            validOnly]
          rw [hbits p, hset p]
          by_cases h1 : p < 8 * j + (7 - k)
          · rw [if_pos (by omega), if_neg (by omega), if_pos h1]
          · by_cases h2 : p = 8 * j + (7 - k)
            · rw [if_pos (by omega), if_pos h2, if_neg h1, hzero p (by omega), h2]
              simp
            · rw [if_neg (by omega), if_neg h1]
              have : p - (8 * j + (7 - k)) = (p - (8 * j + (7 - (k - 1)))) + 1 := by omega
              rw [this]; rfl

theorem getNullByteArraySize_nat (m : Nat) : getNullByteArraySize m = ((m + 7) / 8 : Nat) := by
  unfold getNullByteArraySize
  rw [Int.tdiv_eq_ediv (by omega) (by decide), Int.tmod_eq_emod (by omega) (by decide)]
  split_ifs <;> omega

theorem validOnly_length_le {α : Type} (attrs : TupleDesc) :
    ∀ data : List α, (validOnly attrs data).length ≤ attrs.countP (fun a => !a.attisdropped) := by
  induction attrs with
  | nil => intro data; simp [validOnly]
  | cons attr attrs ih =>
    intro data
    cases data with
    | nil => simp [validOnly]
    | cons d data =>
      have := ih data
      by_cases hd : attr.attisdropped = true
      · simpa [validOnly, hd, List.countP_cons] using this
      · simp only [Bool.not_eq_true] at hd
        simp only [validOnly, hd, Bool.false_eq_true, if_false, List.length_cons,
          List.countP_cons, Bool.not_false, if_true]
        omega

theorem validOnly_length {α : Type} (attrs : TupleDesc) :
    ∀ data : List α, data.length = attrs.length →
      (validOnly attrs data).length = attrs.countP (fun a => !a.attisdropped) := by
  induction attrs with
  | nil => intro data _; simp [validOnly]
  | cons attr attrs ih =>
    intro data hlen
    cases data with
    | nil => simp at hlen
    | cons d data =>
      have := ih data (by simpa using hlen)
      by_cases hd : attr.attisdropped = true
      · simpa [validOnly, hd, List.countP_cons] using this
      · simp only [Bool.not_eq_true] at hd
        simp [validOnly, hd, List.countP_cons, this]

theorem bitAt_replicate_zero (n p : Nat) : bitAt (List.replicate n (0 : Byte)) p = false := by
  unfold bitAt
  rw [List.getD_eq_getElem?_getD, List.getElem?_replicate]
  split_ifs <;> simp

theorem boolArrayToByteArray_spec (tupdesc : TupleDesc) (data : List Bool) :
    (boolArrayToByteArray data (countValidColumns tupdesc) tupdesc).length =
      (tupdesc.countP (fun a => !a.attisdropped) + 7) / 8 ∧
    ∀ p, bitAt (boolArrayToByteArray data (countValidColumns tupdesc) tupdesc) p =
      (validOnly tupdesc data).getD p false := by
  unfold boolArrayToByteArray countValidColumns
  rw [getNullByteArraySize_nat]
  have hle := validOnly_length_le tupdesc data
  have := boolArrayToByteArrayLoop_spec tupdesc data
    (List.replicate (((tupdesc.countP (fun a => !a.attisdropped) + 7) / 8 : Nat) : Int).toNat 0)
    0 7 (by omega) (by simp only [List.length_replicate, Int.toNat_ofNat]; omega)
    (fun p _ => bitAt_replicate_zero _ p)
  obtain ⟨hlen, hbits⟩ := this
  refine ⟨by simpa using hlen, fun p => ?_⟩
  rw [hbits p]
  simp

theorem bitAt_append (bytes rest : List Byte) (p : Nat) (hp : p < 8 * bytes.length) :
    bitAt (bytes ++ rest) p = bitAt bytes p := by
  unfold bitAt
  rw [List.getD_eq_getElem?_getD, List.getD_eq_getElem?_getD,
    List.getElem?_append_left (by omega)]

theorem byteArrayToBoolArrayLoop_spec (bytes : List Byte) (attrs : TupleDesc) :
    ∀ (data : List Bool) (j k : Nat), k ≤ 7 → data.length = attrs.length →
    8 * j + (7 - k) + (validOnly attrs data).length ≤ 8 * bytes.length →
    (∀ i, i < (validOnly attrs data).length →
      bitAt bytes (8 * j + (7 - k) + i) = (validOnly attrs data).getD i false) →
    byteArrayToBoolArrayLoop bytes attrs j k =
      .ok (List.zipWith (fun a d => a.attisdropped || d) attrs data) := by
  induction attrs with
  | nil => intro data j k _ _ _ _; simp [byteArrayToBoolArrayLoop]
  | cons attr attrs ih =>
    intro data j k hk hlen hfit hbits
    cases data with
    | nil => simp at hlen
    | cons d data =>
      have hlen1 : data.length = attrs.length := by simpa using hlen
      by_cases hd : attr.attisdropped = true
      · have := ih data j k hk hlen1 (by simpa [validOnly, hd] using hfit)
          (by simpa [validOnly, hd] using hbits)
        simp [byteArrayToBoolArrayLoop, hd, this]
      · simp only [validOnly, hd, Bool.false_eq_true, if_false, List.length_cons] at hfit hbits
        have hj : j < bytes.length := by omega
        have h0 := hbits 0 (by omega)
        simp only [Nat.add_zero, List.getD_cons_zero] at h0
        have hflag : (((bytes[j]).val >>> k) &&& 1 == 1) = d := by
          rw [← h0]
          unfold bitAt
          have e1 : (8 * j + (7 - k)) / 8 = j := by omega
          have e2 : 7 - (8 * j + (7 - k)) % 8 = k := by omega
          rw [e1, e2, List.getD_eq_getElem?_getD, List.getElem?_eq_getElem hj]
          simp [Nat.testBit, Nat.and_comm]
        simp only [Bool.not_eq_true] at hd
        by_cases hk0 : k = 0
        · subst hk0
          have := ih data (j + 1) 7 (by omega) hlen1 (by omega)
            (fun i hi => by
              have := hbits (i + 1) (by omega)
              simp only [List.getD_cons_succ] at this
              rw [← this]; congr 1; omega)
          simp only [byteArrayToBoolArrayLoop, hd, Bool.false_eq_true, if_false,
            List.getElem?_eq_getElem hj, if_true, this, List.zipWith_cons_cons, Bool.false_or]
          rw [hflag]
        · have := ih data j (k - 1) (by omega) hlen1 (by omega)
            (fun i hi => by
              have := hbits (i + 1) (by omega)
              simp only [List.getD_cons_succ] at this
              rw [← this]; congr 1; omega)
          simp only [byteArrayToBoolArrayLoop, hd, Bool.false_eq_true, if_false,
            List.getElem?_eq_getElem hj, hk0, this, List.zipWith_cons_cons, Bool.false_or]
          rw [hflag]

theorem byteArrayToBoolArray_roundtrip (tupdesc : TupleDesc) (data : List Bool) (rest : List Byte)
    (hlen : data.length = tupdesc.length) :
    byteArrayToBoolArray
        (boolArrayToByteArray data (countValidColumns tupdesc) tupdesc ++ rest) tupdesc =
      .ok (List.zipWith (fun a d => a.attisdropped || d) tupdesc data) := by
  obtain ⟨hsize, hbits⟩ := boolArrayToByteArray_spec tupdesc data
  have hvl := validOnly_length tupdesc data hlen
  unfold byteArrayToBoolArray
  apply byteArrayToBoolArrayLoop_spec _ tupdesc data 0 7 (by omega) hlen
  · rw [List.length_append, hsize, hvl]; omega
  · intro i hi
    rw [bitAt_append _ _ _ (by rw [hsize]; omega), hbits]
    congr 1; omega

/-! ## Structure of the exported buffer -/

theorem appendStringInfoFill_eq (str : StringInfo) (n : Int) (ch : Byte) :
    appendStringInfoFill str n ch = str ++ List.replicate n.toNat ch := by
  unfold appendStringInfoFill
  split_ifs with h
  · have : n.toNat = 0 := by omega
    simp [this]
  · rfl

theorem appendColTypes_eq (tupdesc : TupleDesc) :
    ∀ buf : StringInfo, appendColTypes tupdesc buf = buf ++ tagBytes tupdesc := by
  induction tupdesc with
  | nil => intro buf; simp [appendColTypes, tagBytes]
  | cons attr attrs ih =>
    intro buf
    by_cases hd : attr.attisdropped = true
    · simp [appendColTypes, tagBytes, hd, ih, List.filter_cons]
    · simp only [Bool.not_eq_true] at hd
      simp [appendColTypes, tagBytes, hd, ih, List.filter_cons, appendInt1ToBuffer,
        appendBinaryStringInfo]

theorem tagBytes_length (tupdesc : TupleDesc) :
    (tagBytes tupdesc).length = tupdesc.countP (fun a => !a.attisdropped) := by
  simp [tagBytes, List.countP_eq_length_filter]

theorem appendColValues_eq {Datum : Type} (attrs : TupleDesc) :
    ∀ (vals : List (Option Datum)) (cols : List OutColumn) (buf : StringInfo),
      appendColValues attrs vals cols buf = buf ++ (columnChunks attrs vals cols).flatten := by
  induction attrs with
  | nil => intro vals cols buf; simp [appendColValues, columnChunks]
  | cons attr attrs ih =>
    intro vals cols buf
    cases vals with
    | nil => simp [appendColValues, columnChunks]
    | cons val vals =>
      cases cols with
      | nil => simp [appendColValues, columnChunks]
      | cons c cols =>
        by_cases h : (!attr.attisdropped && !val.isNone) = true
        · simp only [appendColValues, h, if_true, ih, columnChunks, columnChunk,
            List.flatten_cons, appendStringInfoFill_eq, appendBinaryStringInfo, appendIntToBuffer]
          by_cases hv : isVariableLength attr.atttypid = true
          · simp [hv, htonl]
          · simp [hv]
        · simp only [appendColValues, h, if_false, ih, columnChunks, columnChunk,
            List.flatten_cons, List.nil_append, Bool.false_eq_true]

theorem heap_deform_tuple_length {Datum : Type} (tupdesc : TupleDesc) :
    ∀ rec : HeapTuple Datum, (heap_deform_tuple tupdesc rec).length = tupdesc.length := by
  induction tupdesc with
  | nil => intro rec; simp [heap_deform_tuple]
  | cons attr attrs ih =>
    intro rec
    cases rec with
    | nil => simp [heap_deform_tuple, ih]
    | cons v vs => simp [heap_deform_tuple, ih]

theorem heap_deform_tuple_self {Datum : Type} (tupdesc : TupleDesc) :
    ∀ rec : HeapTuple Datum, rec.length = tupdesc.length → heap_deform_tuple tupdesc rec = rec := by
  induction tupdesc with
  | nil =>
    intro rec h
    cases rec with
    | nil => rfl
    | cons v vs => simp at h
  | cons attr attrs ih =>
    intro rec h
    cases rec with
    | nil => simp at h
    | cons v vs => simp [heap_deform_tuple, ih vs (by simpa using h)]

theorem INTALIGN_bounds (d : Int) : d ≤ INTALIGN d ∧ INTALIGN d < d + 4 ∧ INTALIGN d % 4 = 0 := by
  unfold INTALIGN TYPEALIGN; omega

theorem SHORTALIGN_bounds (d : Int) :
    d ≤ SHORTALIGN d ∧ SHORTALIGN d < d + 2 ∧ SHORTALIGN d % 2 = 0 := by
  unfold SHORTALIGN TYPEALIGN; omega

theorem DOUBLEALIGN_bounds (d : Int) :
    d ≤ DOUBLEALIGN d ∧ DOUBLEALIGN d < d + 8 ∧ DOUBLEALIGN d % 8 = 0 := by
  unfold DOUBLEALIGN TYPEALIGN; omega

theorem att_align_nominal_bounds (d : Int) (a : Char) :
    d ≤ att_align_nominal d a ∧ att_align_nominal d a < d + alignBytes a ∧
      att_align_nominal d a % alignBytes a = 0 := by
  have h4 := INTALIGN_bounds d
  have h2 := SHORTALIGN_bounds d
  have h8 := DOUBLEALIGN_bounds d
  unfold att_align_nominal alignBytes
  split_ifs <;> omega

/-- The pieces of the value loop have together the size the measuring loop adds to
`datlen`. -/
theorem columnChunks_length {Datum : Type} (io : IoFunctions Datum) (attrs : TupleDesc) :
    ∀ (vals : List (Option Datum)) (d : Int),
      (((columnChunks attrs vals (measureColumns io attrs vals d).1).flatten.length : Nat) : Int) =
        (measureColumns io attrs vals d).2 - d := by
  induction attrs with
  | nil => intro vals d; simp [columnChunks, measureColumns]
  | cons attr attrs ih =>
    intro vals d
    cases vals with
    | nil => simp [columnChunks, measureColumns]
    | cons val vals =>
      by_cases hd : attr.attisdropped = true
      · have := ih vals d
        simpa [columnChunks, measureColumns, hd, columnChunk] using this
      · simp only [Bool.not_eq_true] at hd
        cases val with
        | none =>
          have := ih vals (d + 0)
          simp only [columnChunks, measureColumns, hd, Bool.false_eq_true, if_false,
            measureColumn, columnChunk, Option.isNone_none, Bool.not_true, Bool.and_false,
            List.flatten_cons, List.nil_append]
          rw [this]; omega
        | some v =>
          have h4 := INTALIGN_bounds d
          have ha := att_align_nominal_bounds d attr.attalign
          by_cases hv : isVariableLength attr.atttypid = true
          · have := ih vals (measureColumn io attr (some v) d).2
            simp only [columnChunks, measureColumns, hd, Bool.false_eq_true, if_false,
              columnChunk, Option.isNone_some, Bool.not_false, Bool.and_true, if_true,
              List.flatten_cons, List.length_append, Nat.cast_add, this]
            simp only [measureColumn, hv, if_true, List.length_replicate, htonl,
              List.length_cons, List.length_nil, Int.toNat_ofNat, List.take_length]
            omega
          · have := ih vals (measureColumn io attr (some v) d).2
            simp only [columnChunks, measureColumns, hd, Bool.false_eq_true, if_false,
              columnChunk, Option.isNone_some, Bool.not_false, Bool.and_true, if_true,
              List.flatten_cons, List.length_append, Nat.cast_add, this]
            simp only [measureColumn, hv, Bool.false_eq_true, if_false, List.length_replicate,
              List.length_nil, Int.toNat_ofNat, List.take_length]
            omega

theorem countValidColumns_nonneg (tupdesc : TupleDesc) : 0 ≤ countValidColumns tupdesc := by
  unfold countValidColumns; omega

theorem exportNullBits_length {Datum : Type} (tupdesc : TupleDesc) (rec : HeapTuple Datum) :
    ((exportNullBits tupdesc rec).length : Int) = getNullByteArraySize (countValidColumns tupdesc) := by
  unfold exportNullBits
  rw [(boolArrayToByteArray_spec tupdesc _).1]
  unfold countValidColumns
  rw [getNullByteArraySize_nat]

/-- The exported buffer, piece by piece. -/
theorem export_eq {Datum : Type} (io : IoFunctions Datum) (tupdesc : TupleDesc)
    (rec : HeapTuple Datum) :
    gpdbwritableformatter_export io tupdesc rec =
      List.replicate 4 0 ++ (htonl (exportDatlen io tupdesc rec) ++ (htons GPDBWRITABLE_VERSION ++
        ([byteOfInt 0] ++ (htons (countValidColumns tupdesc) ++ (tagBytes tupdesc ++
          (exportNullBits tupdesc rec ++ ((exportChunks io tupdesc rec).flatten ++
            List.replicate (exportEndpadding io tupdesc rec).toNat 0))))))) := by
  have hnull := exportNullBits_length tupdesc rec
  have htake : (exportNullBits tupdesc rec).take
      (getNullByteArraySize (countValidColumns tupdesc)).toNat = exportNullBits tupdesc rec := by
    apply List.take_of_length_le; omega
  unfold exportNullBits at htake
  simp only [gpdbwritableformatter_export, appendStringInfoFill_eq, appendIntToBuffer,
    appendInt2ToBuffer, appendInt1ToBuffer, appendBinaryStringInfo, appendColTypes_eq,
    appendColValues_eq, htake, exportChunks, exportNullBits, VARHDRSZ, List.nil_append,
    List.append_assoc]
  simp [htonl, htons]

theorem exportRecord_eq {Datum : Type} (io : IoFunctions Datum) (tupdesc : TupleDesc)
    (rec : HeapTuple Datum) :
    exportRecord io tupdesc rec =
      htonl (exportDatlen io tupdesc rec) ++ (htons GPDBWRITABLE_VERSION ++
        ([byteOfInt 0] ++ (htons (countValidColumns tupdesc) ++ (tagBytes tupdesc ++
          (exportNullBits tupdesc rec ++ ((exportChunks io tupdesc rec).flatten ++
            List.replicate (exportEndpadding io tupdesc rec).toNat 0)))))) := by
  unfold exportRecord
  rw [export_eq]
  simp [VARHDRSZ]

theorem exportEndpadding_bounds {Datum : Type} (io : IoFunctions Datum) (tupdesc : TupleDesc)
    (rec : HeapTuple Datum) :
    0 ≤ exportEndpadding io tupdesc rec ∧ exportEndpadding io tupdesc rec < 8 ∧
      exportDatlen io tupdesc rec % 8 = 0 := by
  have := DOUBLEALIGN_bounds (exportMeasure io tupdesc rec).2
  unfold exportDatlen exportEndpadding
  omega

theorem exportRecord_length {Datum : Type} (io : IoFunctions Datum) (tupdesc : TupleDesc)
    (rec : HeapTuple Datum) :
    ((exportRecord io tupdesc rec).length : Int) = exportDatlen io tupdesc rec := by
  have hpad := exportEndpadding_bounds io tupdesc rec
  have hnull := exportNullBits_length tupdesc rec
  have hcols := columnChunks_length io tupdesc (heap_deform_tuple tupdesc rec)
    (4 + 2 + 1 + 2 + countValidColumns tupdesc + getNullByteArraySize (countValidColumns tupdesc))
  have htags : ((tagBytes tupdesc).length : Int) = countValidColumns tupdesc := by
    rw [tagBytes_length]; rfl
  rw [exportRecord_eq]
  simp only [List.length_append, htonl, htons, List.length_cons, List.length_nil,
    List.length_replicate, Nat.cast_add, exportChunks]
  unfold exportMeasure at *
  unfold exportDatlen exportMeasure
  simp only at hcols ⊢
  omega

/-! ## Reading what the writers wrote -/

theorem byteOfInt_val (v : Int) : ((byteOfInt v).val : Int) = v % 256 := by
  have h : (byteOfInt v).val = (v % 256).toNat % 256 := rfl
  rw [h]; omega

theorem beValue_htonl (v : Int) : beValue (htonl v) = v % 4294967296 := by
  simp only [htonl, beValue, byteOfInt_val, List.length_cons, List.length_nil]
  omega

theorem beValue_htons (v : Int) : beValue (htons v) = v % 65536 := by
  simp only [htons, beValue, byteOfInt_val, List.length_cons, List.length_nil]
  omega

theorem beValue_single (v : Int) : beValue [byteOfInt v] = v % 256 := by
  simp only [beValue, byteOfInt_val, List.length_nil]
  omega

/-- Reading at the end of a prefix returns the bytes that follow it. -/
theorem readBytes_append (pre bs post : List Byte) (off : Int) (n : Nat)
    (hoff : off = pre.length) (hn : n = bs.length) :
    readBytes (pre ++ (bs ++ post)) off n = .ok bs := by
  subst hoff hn
  unfold readBytes
  rw [if_pos (by simp only [List.length_append, Nat.cast_add]; omega)]
  simp

theorem readIntFromBuffer_append (pre post : List Byte) (off v : Int)
    (hoff : off = pre.length) (h0 : 0 ≤ v) (hv : v < 2147483648) :
    readIntFromBuffer (pre ++ (htonl v ++ post)) off = .ok (v, off + 4) := by
  unfold readIntFromBuffer
  rw [readBytes_append pre (htonl v) post off 4 hoff rfl]
  simp only [beValue_htonl, toInt32]
  rw [if_pos (by omega)]
  congr 2; omega

theorem readInt2FromBuffer_append (pre post : List Byte) (off v : Int)
    (hoff : off = pre.length) (h0 : 0 ≤ v) (hv : v < 65536) :
    readInt2FromBuffer (pre ++ (htons v ++ post)) off = .ok (v, off + 2) := by
  unfold readInt2FromBuffer
  rw [readBytes_append pre (htons v) post off 2 hoff rfl]
  simp only [beValue_htons]
  congr 2; omega

theorem readInt1FromBuffer_append (pre post : List Byte) (off v : Int)
    (hoff : off = pre.length) (h0 : 0 ≤ v) (hv : v < 256) :
    readInt1FromBuffer (pre ++ ([byteOfInt v] ++ post)) off = .ok (v, off + 1) := by
  unfold readInt1FromBuffer
  rw [readBytes_append pre [byteOfInt v] post off 1 hoff rfl]
  simp only [beValue_single]
  congr 2; omega

theorem exportDatlen_ge {Datum : Type} (io : IoFunctions Datum) (tupdesc : TupleDesc)
    (rec : HeapTuple Datum) : 16 ≤ exportDatlen io tupdesc rec := by
  have h1 := exportRecord_length io tupdesc rec
  have h2 := exportEndpadding_bounds io tupdesc rec
  rw [exportRecord_eq] at h1
  simp only [List.length_append, htonl, htons, List.length_cons, List.length_nil,
    Nat.cast_add] at h1
  omega

/-! ## Claims about the size of a record -/

/-- C3: the emit pass writes as many bytes as the measure pass computed: the buffer
holds `datlen + VARHDRSZ` bytes, the condition of the final assertion of the export
function, and `datlen` is the value written into the length field of the record. -/
theorem export_length_eq_datlen_plus_varhdrsz {Datum : Type} (io : IoFunctions Datum)
    (tupdesc : TupleDesc) (rec : HeapTuple Datum) :
    ((gpdbwritableformatter_export io tupdesc rec).length : Int) =
        exportDatlen io tupdesc rec + VARHDRSZ ∧
      ((gpdbwritableformatter_export io tupdesc rec).drop 4).take 4 =
        htonl (exportDatlen io tupdesc rec) := by
  have hlen := exportRecord_length io tupdesc rec
  constructor
  · rw [export_eq]
    rw [exportRecord_eq] at hlen
    simp only [List.length_append, List.length_replicate, Nat.cast_add, VARHDRSZ] at hlen ⊢
    omega
  · rw [export_eq]
    simp [htonl]

/-- C4 as stated fails: in the scenario record the length field holds 32, the size of
the whole record, while 28 bytes follow the field. -/
theorem length_field_counts_itself_scenario :
    readIntFromBuffer (exportRecord scenarioIo scenarioDesc scenarioRow) 0 = .ok (32, 4) ∧
      ((exportRecord scenarioIo scenarioDesc scenarioRow).drop 4).length = 28 ∧
      readIntFromBuffer (exportRecord scenarioIo scenarioDesc scenarioRow) 0 ≠
        .ok ((((exportRecord scenarioIo scenarioDesc scenarioRow).drop 4).length : Nat), 4) := by
  decide

/-- C4 amended: the length field of a record holds the size of the whole record, its
own four bytes included: the number of bytes that follow the field plus 4. -/
theorem length_field_is_record_length {Datum : Type} (io : IoFunctions Datum)
    (tupdesc : TupleDesc) (rec : HeapTuple Datum)
    (hint : exportDatlen io tupdesc rec < 2147483648) :
    (exportRecord io tupdesc rec).take 4 = htonl ((exportRecord io tupdesc rec).length : Nat) ∧
      readIntFromBuffer (exportRecord io tupdesc rec) 0 =
        .ok (((exportRecord io tupdesc rec).length : Nat), 4) ∧
      (exportRecord io tupdesc rec).length = ((exportRecord io tupdesc rec).drop 4).length + 4 := by
  have hlen := exportRecord_length io tupdesc rec
  have hge := exportDatlen_ge io tupdesc rec
  rw [hlen]
  refine ⟨?_, ?_, ?_⟩
  · rw [exportRecord_eq]; simp [htonl]
  · rw [exportRecord_eq]
    have := readIntFromBuffer_append [] (htons GPDBWRITABLE_VERSION ++
        ([byteOfInt 0] ++ (htons (countValidColumns tupdesc) ++ (tagBytes tupdesc ++
          (exportNullBits tupdesc rec ++ ((exportChunks io tupdesc rec).flatten ++
            List.replicate (exportEndpadding io tupdesc rec).toNat 0))))))
      0 (exportDatlen io tupdesc rec) rfl (by omega) hint
    simpa using this
  · rw [List.length_drop]; omega

theorem length_field_is_record_length_witness :
    exportDatlen scenarioIo scenarioDesc scenarioRow < 2147483648 ∧
      readIntFromBuffer (exportRecord scenarioIo scenarioDesc scenarioRow) 0 =
        .ok (((exportRecord scenarioIo scenarioDesc scenarioRow).length : Nat), 4) :=
  ⟨by decide,
    (length_field_is_record_length scenarioIo scenarioDesc scenarioRow (by decide)).2.1⟩

/-! ## The scenario record -/

/-- C2: for the schema `{int32 a, text b, bool c}` and the row `{a=42, b="hi", c=null}`
(the callbacks sending 42 as `00 00 00 2A` and printing `b` as `hi`) the record has 32
bytes: the length field, then version `00 02`, error flag `00`, column count `00 03`,
tags `03 07 01`, null bitmap `20`, three pad bytes, `00 00 00 2A`, the prefix
`00 00 00 03` with `68 69 00`, and five bytes of end padding; nothing for `c`. -/
theorem scenario_record_bytes {Datum : Type} (io : IoFunctions Datum) (a b : Datum)
    (ha : io.SendFunctionCall ⟨"a", INT4OID, 4, 'i', false⟩ a = [0, 0, 0, 0x2A])
    (hb : cstring (io.OutputFunctionCall ⟨"b", TEXTOID, -1, 'i', false⟩ b) = [0x68, 0x69]) :
    (exportRecord io scenarioDesc [some a, some b, none]).length = 32 ∧
      (exportRecord io scenarioDesc [some a, some b, none]).take 4 = [0, 0, 0, 0x20] ∧
      (exportRecord io scenarioDesc [some a, some b, none]).drop 4 =
        [0x00, 0x02, 0x00, 0x00, 0x03, 0x03, 0x07, 0x01, 0x20, 0x00, 0x00, 0x00,
         0x00, 0x00, 0x00, 0x2A, 0x00, 0x00, 0x00, 0x03, 0x68, 0x69, 0x00,
         0x00, 0x00, 0x00, 0x00, 0x00] := by
  have hm : exportMeasure io scenarioDesc [some a, some b, none] =
      ([⟨[0, 0, 0, 0x2A], 4, 3⟩, ⟨[0x68, 0x69, 0], 3, 0⟩, ⟨[], 0, 0⟩], 27) := by
    have e1 : isBinaryFormatType INT4OID = true := by decide
    have e2 : isVariableLength INT4OID = false := by decide
    have e3 : isBinaryFormatType TEXTOID = false := by decide
    have e4 : isVariableLength TEXTOID = true := by decide
    simp only [exportMeasure, scenarioDesc, heap_deform_tuple, measureColumns, measureColumn,
      Bool.false_eq_true, if_false, if_true, ha, hb, e1, e2, e3, e4]
    decide
  have hrec : exportRecord io scenarioDesc [some a, some b, none] =
      [0, 0, 0, 0x20, 0x00, 0x02, 0x00, 0x00, 0x03, 0x03, 0x07, 0x01, 0x20, 0x00, 0x00, 0x00,
         0x00, 0x00, 0x00, 0x2A, 0x00, 0x00, 0x00, 0x03, 0x68, 0x69, 0x00,
         0x00, 0x00, 0x00, 0x00, 0x00] := by
    rw [exportRecord_eq]
    simp only [exportDatlen, exportEndpadding, exportChunks, hm]
    simp only [exportNullBits, scenarioDesc, heap_deform_tuple, List.map, Option.isNone,
      columnChunks, columnChunk]
    decide
  rw [hrec]
  decide

theorem scenario_record_bytes_witness :
    scenarioIo.SendFunctionCall ⟨"a", INT4OID, 4, 'i', false⟩ (.int4 42) = [0, 0, 0, 0x2A] ∧
      cstring (scenarioIo.OutputFunctionCall ⟨"b", TEXTOID, -1, 'i', false⟩
        (.text [0x68, 0x69])) = [0x68, 0x69] ∧
      (exportRecord scenarioIo scenarioDesc scenarioRow).drop 4 =
        [0x00, 0x02, 0x00, 0x00, 0x03, 0x03, 0x07, 0x01, 0x20, 0x00, 0x00, 0x00,
         0x00, 0x00, 0x00, 0x2A, 0x00, 0x00, 0x00, 0x03, 0x68, 0x69, 0x00,
         0x00, 0x00, 0x00, 0x00, 0x00] :=
  ⟨by decide, by decide,
    (scenario_record_bytes scenarioIo (.int4 42) (.text [0x68, 0x69]) (by decide) (by decide)).2.2⟩

/-! ## Dropped columns -/

theorem validOnly_map {α β : Type} (f : α → β) (attrs : TupleDesc) :
    ∀ data : List α, validOnly attrs (data.map f) = (validOnly attrs data).map f := by
  induction attrs with
  | nil => intro data; simp [validOnly]
  | cons attr attrs ih =>
    intro data
    cases data with
    | nil => simp [validOnly]
    | cons d data =>
      by_cases hd : attr.attisdropped = true
      · simp [validOnly, hd, ih]
      · simp [validOnly, hd, ih]

theorem boolArrayToByteArrayLoop_filter (attrs : TupleDesc) :
    ∀ (data : List Bool) (result : List Byte) (j k : Nat),
      boolArrayToByteArrayLoop attrs data result j k =
        boolArrayToByteArrayLoop (attrs.filter (fun a => !a.attisdropped))
          (validOnly attrs data) result j k := by
  induction attrs with
  | nil => intro data result j k; simp [boolArrayToByteArrayLoop, validOnly]
  | cons attr attrs ih =>
    intro data result j k
    cases data with
    | nil =>
      simp only [boolArrayToByteArrayLoop, validOnly]
      cases (List.filter (fun a => !a.attisdropped) (attr :: attrs)) <;>
        simp [boolArrayToByteArrayLoop]
    | cons d data =>
      by_cases hd : attr.attisdropped = true
      · simp [boolArrayToByteArrayLoop, validOnly, hd, List.filter_cons, ih data result j k]
      · simp only [Bool.not_eq_true] at hd
        by_cases hk : k = 0
        · simp [boolArrayToByteArrayLoop, validOnly, hd, List.filter_cons, hk, ← ih]
        · simp [boolArrayToByteArrayLoop, validOnly, hd, List.filter_cons, hk, ← ih]

theorem measureColumns_filter {Datum : Type} (io : IoFunctions Datum) (attrs : TupleDesc) :
    ∀ (vals : List (Option Datum)) (d : Int),
      (measureColumns io (attrs.filter (fun a => !a.attisdropped)) (validOnly attrs vals) d).2 =
          (measureColumns io attrs vals d).2 ∧
        (columnChunks (attrs.filter (fun a => !a.attisdropped)) (validOnly attrs vals)
            (measureColumns io (attrs.filter (fun a => !a.attisdropped))
              (validOnly attrs vals) d).1).flatten =
          (columnChunks attrs vals (measureColumns io attrs vals d).1).flatten := by
  induction attrs with
  | nil => intro vals d; simp [measureColumns, validOnly, columnChunks]
  | cons attr attrs ih =>
    intro vals d
    cases vals with
    | nil =>
      simp only [validOnly, measureColumns, columnChunks]
      cases (List.filter (fun a => !a.attisdropped) (attr :: attrs)) <;>
        simp [measureColumns, columnChunks]
    | cons v vals =>
      by_cases hd : attr.attisdropped = true
      · have := ih vals d
        simp [measureColumns, validOnly, hd, List.filter_cons, columnChunks, columnChunk, this]
      · simp only [Bool.not_eq_true] at hd
        have := ih vals (measureColumn io attr v d).2
        simp [measureColumns, validOnly, hd, List.filter_cons, columnChunks, this]

theorem countValidColumns_filter (tupdesc : TupleDesc) :
    countValidColumns (tupdesc.filter (fun a => !a.attisdropped)) = countValidColumns tupdesc := by
  unfold countValidColumns
  rw [List.countP_filter]
  congr 2
  funext a
  simp

theorem tagBytes_filter (tupdesc : TupleDesc) :
    tagBytes (tupdesc.filter (fun a => !a.attisdropped)) = tagBytes tupdesc := by
  unfold tagBytes
  rw [List.filter_filter]
  simp

/-- The record of a schema with dropped columns is the record of the schema without
them. -/
theorem exportRecord_filter {Datum : Type} (io : IoFunctions Datum) (tupdesc : TupleDesc)
    (rec : HeapTuple Datum) :
    exportRecord io tupdesc rec =
      exportRecord io (tupdesc.filter (fun a => !a.attisdropped))
        (validOnly tupdesc (heap_deform_tuple tupdesc rec)) := by
  have hlen : (validOnly tupdesc (heap_deform_tuple tupdesc rec)).length =
      (tupdesc.filter (fun a => !a.attisdropped)).length := by
    rw [validOnly_length tupdesc _ (heap_deform_tuple_length tupdesc rec),
      List.countP_eq_length_filter]
  have hself := heap_deform_tuple_self _ _ hlen
  have hm := measureColumns_filter io tupdesc (heap_deform_tuple tupdesc rec)
    (4 + 2 + 1 + 2 + countValidColumns tupdesc + getNullByteArraySize (countValidColumns tupdesc))
  have hmeasure : (exportMeasure io (tupdesc.filter (fun a => !a.attisdropped))
      (validOnly tupdesc (heap_deform_tuple tupdesc rec))).2 = (exportMeasure io tupdesc rec).2 := by
    unfold exportMeasure
    rw [hself, countValidColumns_filter]
    exact hm.1
  rw [exportRecord_eq, exportRecord_eq]
  have hdat : exportDatlen io (tupdesc.filter (fun a => !a.attisdropped))
      (validOnly tupdesc (heap_deform_tuple tupdesc rec)) = exportDatlen io tupdesc rec := by
    unfold exportDatlen exportEndpadding; rw [hmeasure]
  have hpad : exportEndpadding io (tupdesc.filter (fun a => !a.attisdropped))
      (validOnly tupdesc (heap_deform_tuple tupdesc rec)) = exportEndpadding io tupdesc rec := by
    unfold exportEndpadding; rw [hmeasure]
  have hnull : exportNullBits (tupdesc.filter (fun a => !a.attisdropped))
      (validOnly tupdesc (heap_deform_tuple tupdesc rec)) = exportNullBits tupdesc rec := by
    unfold exportNullBits boolArrayToByteArray
    rw [hself, countValidColumns_filter, ← validOnly_map, ← boolArrayToByteArrayLoop_filter]
  have hchunks : (exportChunks io (tupdesc.filter (fun a => !a.attisdropped))
      (validOnly tupdesc (heap_deform_tuple tupdesc rec))).flatten =
      (exportChunks io tupdesc rec).flatten := by
    unfold exportChunks exportMeasure
    rw [hself, countValidColumns_filter]
    exact hm.2
  rw [hdat, hpad, hnull, hchunks, countValidColumns_filter, tagBytes_filter]

/-- C5: dropped columns never reach the wire. The record carries the number of
attributes that are not dropped as its column count, their type tags in schema order
and a null bitmap with one bit for each of them; it is byte for byte the record of the
schema and row without the dropped columns, so it does not depend on what the dropped
slots hold. -/
theorem dropped_columns_not_on_wire {Datum : Type} (io : IoFunctions Datum)
    (tupdesc : TupleDesc) (rec : HeapTuple Datum) :
    (∃ rest, exportRecord io tupdesc rec =
        htonl (exportDatlen io tupdesc rec) ++ (htons GPDBWRITABLE_VERSION ++ ([byteOfInt 0] ++
          (htons (tupdesc.countP (fun a => !a.attisdropped) : Nat) ++
            ((tupdesc.filter (fun a => !a.attisdropped)).map
                (fun a => byteOfInt (getJavaEnumOrdinal a.atttypid)) ++
              (exportNullBits tupdesc rec ++ rest)))))) ∧
      (tupdesc.length ≤ 32767 → readInt2FromBuffer (exportRecord io tupdesc rec) 7 =
        .ok ((tupdesc.countP (fun a => !a.attisdropped) : Nat), 9)) ∧
      (exportNullBits tupdesc rec).length = (tupdesc.countP (fun a => !a.attisdropped) + 7) / 8 ∧
      (validOnly tupdesc ((heap_deform_tuple tupdesc rec).map Option.isNone)).length =
        tupdesc.countP (fun a => !a.attisdropped) ∧
      (∀ p, bitAt (exportNullBits tupdesc rec) p =
        (validOnly tupdesc ((heap_deform_tuple tupdesc rec).map Option.isNone)).getD p false) ∧
      exportRecord io tupdesc rec =
        exportRecord io (tupdesc.filter (fun a => !a.attisdropped))
          (validOnly tupdesc (heap_deform_tuple tupdesc rec)) ∧
      (∀ rec1 : HeapTuple Datum,
        validOnly tupdesc (heap_deform_tuple tupdesc rec1) =
          validOnly tupdesc (heap_deform_tuple tupdesc rec) →
        exportRecord io tupdesc rec1 = exportRecord io tupdesc rec) := by
  have hspec := boolArrayToByteArray_spec tupdesc ((heap_deform_tuple tupdesc rec).map Option.isNone)
  have hge := exportDatlen_ge io tupdesc rec
  refine ⟨⟨_, exportRecord_eq io tupdesc rec⟩, ?_, hspec.1, ?_, hspec.2,
    exportRecord_filter io tupdesc rec, ?_⟩
  · intro hlen
    have hcnt : tupdesc.countP (fun a => !a.attisdropped) ≤ tupdesc.length := List.countP_le_length _
    have := readInt2FromBuffer_append
      (htonl (exportDatlen io tupdesc rec) ++ (htons GPDBWRITABLE_VERSION ++ [byteOfInt 0]))
      (tagBytes tupdesc ++ (exportNullBits tupdesc rec ++ ((exportChunks io tupdesc rec).flatten ++
        List.replicate (exportEndpadding io tupdesc rec).toNat 0)))
      7 (countValidColumns tupdesc) (by simp [htonl, htons])
      (countValidColumns_nonneg tupdesc) (by unfold countValidColumns; omega)
    rw [exportRecord_eq]
    simpa [countValidColumns] using this
  · rw [validOnly_length tupdesc _ (by rw [List.length_map, heap_deform_tuple_length])]
  · intro rec1 h
    rw [exportRecord_filter io tupdesc rec1, exportRecord_filter io tupdesc rec, h]

theorem dropped_columns_not_on_wire_witness :
    droppedDesc.length ≤ 32767 ∧
      readInt2FromBuffer (exportRecord scenarioIo droppedDesc droppedRow) 7 = .ok (2, 9) ∧
      (validOnly droppedDesc
          (heap_deform_tuple droppedDesc [some (.int4 42), some (.bool true), some (.text [0x68, 0x69])]) =
        validOnly droppedDesc (heap_deform_tuple droppedDesc droppedRow)) ∧
      exportRecord scenarioIo droppedDesc
          [some (.int4 42), some (.bool true), some (.text [0x68, 0x69])] =
        exportRecord scenarioIo droppedDesc droppedRow :=
  ⟨by decide,
    (dropped_columns_not_on_wire scenarioIo droppedDesc droppedRow).2.1 (by decide),
    by decide,
    (dropped_columns_not_on_wire scenarioIo droppedDesc droppedRow).2.2.2.2.2.2 _ (by decide)⟩

/-! ## Claims about the null bitmap -/

/-- C7: null bitmap round trip. For every schema and every vector of null flags of the
schema's length, unpacking the packed bitmap gives the original flag at every position
that is not dropped and `true` at every dropped position; the bitmap has
`ceil(n/8)` bytes for `n` attributes that are not dropped, and unpacking reads no
byte behind them. -/
theorem null_bitmap_roundtrip (tupdesc : TupleDesc) (data : List Bool)
    (hlen : data.length = tupdesc.length) :
    byteArrayToBoolArray (boolArrayToByteArray data (countValidColumns tupdesc) tupdesc) tupdesc =
        .ok (List.zipWith (fun attr d => attr.attisdropped || d) tupdesc data) ∧
      (boolArrayToByteArray data (countValidColumns tupdesc) tupdesc).length =
        (tupdesc.countP (fun a => !a.attisdropped) + 7) / 8 ∧
      ∀ rest : List Byte,
        byteArrayToBoolArray
            (boolArrayToByteArray data (countValidColumns tupdesc) tupdesc ++ rest) tupdesc =
          .ok (List.zipWith (fun attr d => attr.attisdropped || d) tupdesc data) := by
  refine ⟨?_, (boolArrayToByteArray_spec tupdesc data).1,
    fun rest => byteArrayToBoolArray_roundtrip tupdesc data rest hlen⟩
  have := byteArrayToBoolArray_roundtrip tupdesc data [] hlen
  simpa using this

theorem null_bitmap_roundtrip_witness :
    [false, true, true].length = droppedDesc.length ∧
      byteArrayToBoolArray
          (boolArrayToByteArray [false, true, true] (countValidColumns droppedDesc) droppedDesc)
          droppedDesc = .ok [false, true, true] :=
  ⟨by decide, (null_bitmap_roundtrip droppedDesc [false, true, true] (by decide)).1⟩

/-- C8: null bitmap layout. `getNullByteArraySize n` is `ceil(n/8)` for every
`n ≥ 0`; for a schema with `n` attributes that are not dropped the packed bitmap has
that many bytes, the flag of the k-th of them is bit `7 - k % 8` of byte `k / 8`, and
every bit that belongs to no column is 0. -/
theorem null_bitmap_layout (tupdesc : TupleDesc) (data : List Bool)
    (hlen : data.length = tupdesc.length) :
    (∀ m : Nat, getNullByteArraySize m = ((m + 7) / 8 : Nat)) ∧
      (boolArrayToByteArray data (countValidColumns tupdesc) tupdesc).length =
        (tupdesc.countP (fun a => !a.attisdropped) + 7) / 8 ∧
      (validOnly tupdesc data).length = tupdesc.countP (fun a => !a.attisdropped) ∧
      (∀ k, k < tupdesc.countP (fun a => !a.attisdropped) →
        (((boolArrayToByteArray data (countValidColumns tupdesc) tupdesc).getD (k / 8) 0).val.testBit
            (7 - k % 8)) = (validOnly tupdesc data).getD k false) ∧
      (∀ p, tupdesc.countP (fun a => !a.attisdropped) ≤ p →
        (((boolArrayToByteArray data (countValidColumns tupdesc) tupdesc).getD (p / 8) 0).val.testBit
            (7 - p % 8)) = false) := by
  obtain ⟨hsize, hbits⟩ := boolArrayToByteArray_spec tupdesc data
  have hvl := validOnly_length tupdesc data hlen
  refine ⟨getNullByteArraySize_nat, hsize, hvl, fun k _ => hbits k, fun p hp => ?_⟩
  have := hbits p
  unfold bitAt at this
  rw [this, List.getD_eq_getElem?_getD, List.getElem?_eq_none (by omega)]
  rfl

theorem null_bitmap_layout_witness :
    [false, true, true].length = droppedDesc.length ∧
      (boolArrayToByteArray [false, true, true] (countValidColumns droppedDesc) droppedDesc).length =
        (droppedDesc.countP (fun a => !a.attisdropped) + 7) / 8 :=
  ⟨by decide, (null_bitmap_layout droppedDesc [false, true, true] (by decide)).2.1⟩

/-! ## Claims about the type tags -/

/-- C9: type tag mapping. `getJavaEnumOrdinal` maps int64 to 0, bool to 1, float64 to
2, int32 to 3, float32 to 4, int16 to 5, bytea to 6 and every other type to 7; for
every tag `b` in 0..7 the tag of the type of `b` is `b`; the type of the tag of a type
`t` is `t` for the seven binary-format types and the text type otherwise. -/
theorem type_tag_mapping :
    getJavaEnumOrdinal INT8OID = 0 ∧ getJavaEnumOrdinal BOOLOID = 1 ∧
    getJavaEnumOrdinal FLOAT8OID = 2 ∧ getJavaEnumOrdinal INT4OID = 3 ∧
    getJavaEnumOrdinal FLOAT4OID = 4 ∧ getJavaEnumOrdinal INT2OID = 5 ∧
    getJavaEnumOrdinal BYTEAOID = 6 ∧
    (∀ t : Oid, t ≠ INT8OID → t ≠ BOOLOID → t ≠ FLOAT8OID → t ≠ INT4OID → t ≠ FLOAT4OID →
      t ≠ INT2OID → t ≠ BYTEAOID → getJavaEnumOrdinal t = 7) ∧
    (∀ b : Int, 0 ≤ b → b ≤ 7 →
      ∃ t, getTypeOidFromJavaEnumOrdinal b = .ok t ∧ getJavaEnumOrdinal t = b) ∧
    (∀ t : Oid, getTypeOidFromJavaEnumOrdinal (getJavaEnumOrdinal t) =
      .ok (if isBinaryFormatType t then t else TEXTOID)) := by
  refine ⟨by decide, by decide, by decide, by decide, by decide, by decide, by decide, ?_, ?_, ?_⟩
  · intro t h1 h2 h3 h4 h5 h6 h7
    simp [getJavaEnumOrdinal, h1, h2, h3, h4, h5, h6, h7]
  · intro b h0 h7
    have : b = 0 ∨ b = 1 ∨ b = 2 ∨ b = 3 ∨ b = 4 ∨ b = 5 ∨ b = 6 ∨ b = 7 := by omega
    rcases this with h | h | h | h | h | h | h | h <;> subst h <;> exact ⟨_, rfl, by decide⟩
  · intro t
    by_cases h1 : t = INT8OID
    · subst h1; decide
    by_cases h2 : t = BOOLOID
    · subst h2; decide
    by_cases h3 : t = FLOAT8OID
    · subst h3; decide
    by_cases h4 : t = INT4OID
    · subst h4; decide
    by_cases h5 : t = FLOAT4OID
    · subst h5; decide
    by_cases h6 : t = INT2OID
    · subst h6; decide
    by_cases h7 : t = BYTEAOID
    · subst h7; decide
    have hb : isBinaryFormatType t = false := by
      simp [isBinaryFormatType, h1, h2, h3, h4, h5, h6, h7]
    simp [getJavaEnumOrdinal, h1, h2, h3, h4, h5, h6, h7, hb, getTypeOidFromJavaEnumOrdinal]

theorem type_tag_mapping_witness :
    getJavaEnumOrdinal TEXTOID = 7 ∧
      (∃ t, getTypeOidFromJavaEnumOrdinal 3 = .ok t ∧ getJavaEnumOrdinal t = 3) :=
  ⟨type_tag_mapping.2.2.2.2.2.2.2.1 TEXTOID (by decide) (by decide) (by decide) (by decide)
      (by decide) (by decide) (by decide),
    type_tag_mapping.2.2.2.2.2.2.2.2.1 3 (by decide) (by decide)⟩

theorem getTypeOid_ok_iff (e : Int) :
    (∃ t, getTypeOidFromJavaEnumOrdinal e = .ok t) ↔ (0 ≤ e ∧ e ≤ 7) := by
  constructor
  · rintro ⟨t, ht⟩
    unfold getTypeOidFromJavaEnumOrdinal at ht
    split_ifs at ht <;> omega
  · rintro ⟨h0, h7⟩
    have : e = 0 ∨ e = 1 ∨ e = 2 ∨ e = 3 ∨ e = 4 ∨ e = 5 ∨ e = 6 ∨ e = 7 := by omega
    rcases this with h | h | h | h | h | h | h | h <;> subst h <;> exact ⟨_, rfl⟩

theorem getTypeOid_error (e : Int) (h : ¬ (0 ≤ e ∧ e ≤ 7)) :
    getTypeOidFromJavaEnumOrdinal e = .error (.ereport .ERROR (.UnknownTypeOrdinal e)) := by
  unfold getTypeOidFromJavaEnumOrdinal
  split_ifs <;> first | omega | rfl

theorem readInt1FromBuffer_of_get (buf : List Byte) (off : Int) (b : Byte) (h0 : 0 ≤ off)
    (h : buf[off.toNat]? = some b) :
    readInt1FromBuffer buf off = .ok ((b.val : Int), off + 1) := by
  obtain ⟨hlt, hb⟩ := List.getElem?_eq_some_iff.mp h
  unfold readInt1FromBuffer readBytes
  rw [if_pos (by omega), List.drop_eq_getElem_cons hlt, hb]
  simp [beValue]

theorem toInt8_byte (b : Byte) : (0 ≤ toInt8 b.val ∧ toInt8 b.val ≤ 7) ↔ b.val ≤ 7 := by
  have := b.isLt
  unfold toInt8
  split_ifs <;> omega

theorem verifyLoop_unknown_tag (data_buf : List Byte) (attrs : TupleDesc) :
    ∀ (bufidx : Int) (errMsg : List (String × Oid × Oid)) (k : Nat) (t : Byte), 0 ≤ bufidx →
      k < attrs.countP (fun a => !a.attisdropped) →
      data_buf[(bufidx + k).toNat]? = some t → 7 < t.val →
      ∃ e, ¬ (0 ≤ e ∧ e ≤ 7) ∧
        verifyLoop data_buf attrs bufidx errMsg = .error (.ereport .ERROR (.UnknownTypeOrdinal e)) := by
  induction attrs with
  | nil => intro bufidx errMsg k t _ hk; simp at hk
  | cons attr attrs ih =>
    intro bufidx errMsg k t h0 hk ht hbad
    by_cases hd : attr.attisdropped = true
    · have hk1 : k < attrs.countP (fun a => !a.attisdropped) := by
        simpa [List.countP_cons, hd] using hk
      obtain ⟨e, he, hv⟩ := ih bufidx errMsg k t h0 hk1 ht hbad
      exact ⟨e, he, by simp [verifyLoop, hd, hv]⟩
    · simp only [Bool.not_eq_true] at hd
      have hlt : (bufidx + k).toNat < data_buf.length := (List.getElem?_eq_some_iff.mp ht).1
      have hlt0 : bufidx.toNat < data_buf.length := by omega
      have hread := readInt1FromBuffer_of_get data_buf bufidx (data_buf[bufidx.toNat]) h0
        (List.getElem?_eq_getElem hlt0)
      by_cases hok : 0 ≤ toInt8 (data_buf[bufidx.toNat]).val ∧ toInt8 (data_buf[bufidx.toNat]).val ≤ 7
      · obtain ⟨ty, hty⟩ := (getTypeOid_ok_iff _).mpr hok
        have hk0 : k ≠ 0 := by
          intro hk0
          subst hk0
          have : data_buf[bufidx.toNat]? = some t := by simpa using ht
          rw [List.getElem?_eq_getElem hlt0] at this
          have := (toInt8_byte (data_buf[bufidx.toNat])).mp hok
          simp_all
          omega
        have hk1 : k - 1 < attrs.countP (fun a => !a.attisdropped) := by
          simp only [List.countP_cons, hd, Bool.not_false, if_true] at hk
          omega
        have ht1 : data_buf[(bufidx + 1 + ((k - 1 : Nat) : Int)).toNat]? = some t := by
          have : bufidx + 1 + ((k - 1 : Nat) : Int) = bufidx + k := by omega
          rw [this]; exact ht
        simp only [verifyLoop, hd, Bool.false_eq_true, if_false, hread, hty]
        split_ifs
        · exact ih (bufidx + 1) _ (k - 1) t (by omega) hk1 ht1 hbad
        · exact ih (bufidx + 1) _ (k - 1) t (by omega) hk1 ht1 hbad
      · refine ⟨_, hok, ?_⟩
        simp only [verifyLoop, hd, Bool.false_eq_true, if_false, hread, getTypeOid_error _ hok]

theorem readInt2FromBuffer_ok (buf : List Byte) (off v b : Int)
    (h : readInt2FromBuffer buf off = .ok (v, b)) : 0 ≤ off ∧ b = off + 2 ∧ b ≤ buf.length := by
  unfold readInt2FromBuffer readBytes at h
  split_ifs at h with hc
  simp only [Except.ok.injEq, Prod.mk.injEq] at h
  omega

theorem readIntFromBuffer_ok (buf : List Byte) (off v b : Int)
    (h : readIntFromBuffer buf off = .ok (v, b)) : 0 ≤ off ∧ b = off + 4 ∧ b ≤ buf.length := by
  unfold readIntFromBuffer readBytes at h
  split_ifs at h with hc
  simp only [Except.ok.injEq, Prod.mk.injEq] at h
  omega

theorem importHeader_ok (buf : List Byte) (off n b : Int)
    (h : importHeader buf off = .ok (n, b)) : 0 ≤ off ∧ off ≤ b := by
  unfold importHeader at h
  split at h
  · simp at h
  · rename_i v b1 h1
    have := readInt2FromBuffer_ok _ _ _ _ h1
    dsimp only at h
    split_ifs at h
    split at h
    · simp at h
    · rename_i flag b2 h2
      have hb2 : b1 ≤ b2 := by
        unfold readErrorFlag at h2
        split_ifs at h2
        · split at h2
          · simp at h2
          · rename_i f b3 h3
            simp only [Except.ok.injEq, Prod.mk.injEq] at h2
            unfold readInt1FromBuffer readBytes at h3
            split_ifs at h3
            simp only [Except.ok.injEq, Prod.mk.injEq] at h3
            omega
        · simp only [Except.ok.injEq, Prod.mk.injEq] at h2
          omega
      split_ifs at h
      · split at h <;> simp at h
      · split at h
        · simp at h
        · rename_i n3 b3 h3
          have := readInt2FromBuffer_ok _ _ _ _ h3
          simp only [Except.ok.injEq, Prod.mk.injEq] at h
          omega

/-! ## Unknown type tags -/

/-- C10 as stated fails: on a record that is not the first of its stream the tag bytes
are skipped, and a fully buffered record whose first tag is 9 is decoded to a row. -/
theorem unknown_tag_skipped_on_later_record :
    unknownTagRecord[9]? = some 9 ∧
      readIntFromBuffer unknownTagRecord 0 = .ok ((unknownTagRecord.length : Nat), 4) ∧
      (gpdbwritableformatter_import scenarioIo scenarioDesc ⟨2, .ERROR⟩
        ⟨unknownTagRecord, 0, false, none⟩).result = .tuple scenarioRow := by
  decide

/-- C10 amended: a tag is accepted exactly when its `int8` value is in 0..7, and
decoding, as the first record of a stream, a fully buffered record with a supported
version, a clear error flag and the column count of the local schema, whose tag array
holds a value outside 0..7, fails with the unknown ordinal error. -/
theorem unknown_tag_rejected_on_first_record {Datum : Type} (io : IoFunctions Datum)
    (tupdesc : TupleDesc) (myData : format_t) (fd : FormatterData)
    (tuplelen bufidx0 ncolumns_remote bufidx : Int) (k : Nat) (t : Byte)
    (hfirst : myData.lineno = FIRST_LINE_NUM)
    (hlen : readIntFromBuffer fd.databuf fd.datacursor = .ok (tuplelen, bufidx0))
    (hfull : tuplelen ≤ fd.databuf.length - fd.datacursor)
    (hhdr : importHeader fd.databuf bufidx0 = .ok (ncolumns_remote, bufidx))
    (hcount : ncolumns_remote = countValidColumns tupdesc)
    (hk : (k : Int) < ncolumns_remote)
    (htag : fd.databuf[(bufidx + k).toNat]? = some t) (hbad : 7 < t.val) :
    (∀ b : Byte, (∃ ty, getTypeOidFromJavaEnumOrdinal (toInt8 b.val) = .ok ty) ↔ b.val ≤ 7) ∧
      (∀ e : Int, ¬ (0 ≤ e ∧ e ≤ 7) →
        getTypeOidFromJavaEnumOrdinal e = .error (.ereport .ERROR (.UnknownTypeOrdinal e))) ∧
      ∃ e, ¬ (0 ≤ e ∧ e ≤ 7) ∧
        (gpdbwritableformatter_import io tupdesc myData fd).result =
          .error .ERROR (.UnknownTypeOrdinal e) := by
  refine ⟨fun b => (getTypeOid_ok_iff _).trans (toInt8_byte b), getTypeOid_error, ?_⟩
  have h1 := readIntFromBuffer_ok _ _ _ _ hlen
  have h2 := importHeader_ok _ _ _ _ hhdr
  have hk1 : k < tupdesc.countP (fun a => !a.attisdropped) := by
    rw [hcount] at hk; unfold countValidColumns at hk; omega
  obtain ⟨e, he, hv⟩ := verifyLoop_unknown_tag fd.databuf tupdesc bufidx [] k t (by omega) hk1 htag hbad
  refine ⟨e, he, ?_⟩
  have hbody : importBody io tupdesc myData fd.databuf fd.datacursor tuplelen ncolumns_remote bufidx =
      .error (.ereport .ERROR (.UnknownTypeOrdinal e)) := by
    simp only [importBody, hfirst, if_true, verifyExternalTableDefinition, hcount, ne_eq,
      not_true_eq_false, if_false, hv]
  unfold gpdbwritableformatter_import
  simp only [hlen, hhdr, hbody]
  rw [if_neg (by omega), if_neg (by omega), if_neg (by omega)]
  rfl


theorem unknown_tag_rejected_on_first_record_witness :
    (⟨1, .ERROR⟩ : format_t).lineno = FIRST_LINE_NUM ∧
      readIntFromBuffer unknownTagRecord 0 = .ok (32, 4) ∧
      importHeader unknownTagRecord 4 = .ok (3, 9) ∧
      unknownTagRecord[((9 : Int) + (0 : Nat)).toNat]? = some 9 ∧
      ∃ e, ¬ (0 ≤ e ∧ e ≤ 7) ∧
        (gpdbwritableformatter_import scenarioIo scenarioDesc ⟨1, .ERROR⟩
          ⟨unknownTagRecord, 0, false, none⟩).result = .error .ERROR (.UnknownTypeOrdinal e) :=
  ⟨by decide, by decide, by decide, by decide,
    (unknown_tag_rejected_on_first_record scenarioIo scenarioDesc ⟨1, .ERROR⟩
      ⟨unknownTagRecord, 0, false, none⟩ 32 4 3 9 0 9 (by decide) (by decide) (by decide)
      (by decide) (by decide) (by decide) (by decide) (by decide)).2.2⟩

/-! ## Alignment of an exported record -/

theorem alignBytes_pos (a : Char) : 0 < alignBytes a := by
  unfold alignBytes; split_ifs <;> omega

theorem columnAlign_cases (attr : FormData_pg_attribute) :
    columnAlign attr = 1 ∨ columnAlign attr = 2 ∨ columnAlign attr = 4 ∨ columnAlign attr = 8 := by
  unfold columnAlign alignBytes; split_ifs <;> simp

theorem columnChunk_some {Datum : Type} (io : IoFunctions Datum) (attr : FormData_pg_attribute)
    (v : Datum) (d : Int) (hd : attr.attisdropped = false) :
    ∃ pad : Nat,
      columnChunk attr (some v) (measureColumn io attr (some v) d).1 =
        List.replicate pad 0 ++
          ((if isVariableLength attr.atttypid then htonl ((columnPayload io attr v).length : Nat)
            else []) ++ columnPayload io attr v) ∧
      (d + pad) % columnAlign attr = 0 ∧ (pad : Int) < columnAlign attr ∧
      (measureColumn io attr (some v) d).2 = d + pad +
        (if isVariableLength attr.atttypid then 4 else 0) + (columnPayload io attr v).length := by
  have h4 := INTALIGN_bounds d
  have ha := att_align_nominal_bounds d attr.attalign
  by_cases hv : isVariableLength attr.atttypid = true
  · refine ⟨(INTALIGN d - d).toNat, ?_, ?_, ?_, ?_⟩
    · simp [columnChunk, measureColumn, hd, hv, columnPayload]
    · simp only [columnAlign, hv, if_true]; omega
    · simp only [columnAlign, hv, if_true]; omega
    · simp only [measureColumn, hv, if_true, columnPayload]; omega
  · refine ⟨(att_align_nominal d attr.attalign - d).toNat, ?_, ?_, ?_, ?_⟩
    · simp [columnChunk, measureColumn, hd, hv, columnPayload]
    · simp only [columnAlign, hv, Bool.false_eq_true, if_false]
      have e : d + ((att_align_nominal d attr.attalign - d).toNat : Int) =
          att_align_nominal d attr.attalign := by omega
      rw [e]; exact ha.2.2
    · simp only [columnAlign, hv, Bool.false_eq_true, if_false]; omega
    · simp only [measureColumn, hv, Bool.false_eq_true, if_false, columnPayload]; omega

theorem columnChunk_length {Datum : Type} (io : IoFunctions Datum) (attr : FormData_pg_attribute)
    (val : Option Datum) (d : Int) (hd : attr.attisdropped = false) :
    ((columnChunk attr val (measureColumn io attr val d).1).length : Int) =
      (measureColumn io attr val d).2 - d := by
  cases val with
  | none => simp [columnChunk, measureColumn]
  | some v =>
    obtain ⟨pad, h1, _, _, h4⟩ := columnChunk_some io attr v d hd
    rw [h1, h4]
    by_cases hv : isVariableLength attr.atttypid = true
    · simp only [hv, if_true, List.length_append, List.length_replicate, htonl, List.length_cons,
        List.length_nil, Nat.cast_add]; omega
    · simp only [hv, Bool.false_eq_true, if_false, List.length_append, List.length_replicate,
        List.length_nil, Nat.cast_add]; omega

theorem columnChunks_aligned {Datum : Type} (io : IoFunctions Datum) (attrs : TupleDesc) :
    ∀ (vals : List (Option Datum)) (d : Int) (i : Nat) (attr : FormData_pg_attribute)
      (val : Option Datum), attrs[i]? = some attr → vals[i]? = some val →
      (attr.attisdropped = true ∨ val = none →
        (columnChunks attrs vals (measureColumns io attrs vals d).1)[i]? = some []) ∧
      (attr.attisdropped = false → ∀ v, val = some v → ∃ pad : Nat,
        (columnChunks attrs vals (measureColumns io attrs vals d).1)[i]? =
          some (List.replicate pad 0 ++
            ((if isVariableLength attr.atttypid then htonl ((columnPayload io attr v).length : Nat)
              else []) ++ columnPayload io attr v)) ∧
        (d + (((columnChunks attrs vals (measureColumns io attrs vals d).1).take i).flatten.length
          : Nat) + pad) % columnAlign attr = 0 ∧ (pad : Int) < columnAlign attr) := by
  induction attrs with
  | nil => intro vals d i attr val h; simp at h
  | cons a attrs ih =>
    intro vals d i attr val hattr hval
    cases vals with
    | nil => simp at hval
    | cons v0 vals =>
      cases i with
      | zero =>
        simp only [List.getElem?_cons_zero, Option.some.injEq] at hattr hval
        subst hattr hval
        constructor
        · intro h
          by_cases hd : a.attisdropped = true
          · simp [columnChunks, measureColumns, hd, columnChunk]
          · rcases h with h | h
            · exact absurd h hd
            · subst h
              simp [columnChunks, measureColumns, hd, columnChunk]
        · intro hd v hv
          subst hv
          obtain ⟨pad, h1, h2, h3, _⟩ := columnChunk_some io a v d hd
          refine ⟨pad, ?_, ?_, h3⟩
          · simp only [columnChunks, measureColumns, hd, Bool.false_eq_true, if_false,
              List.getElem?_cons_zero, h1]
          · simpa using h2
      | succ i =>
        simp only [List.getElem?_cons_succ] at hattr hval
        by_cases hd : a.attisdropped = true
        · have := ih vals d i attr val hattr hval
          simpa [columnChunks, measureColumns, hd, columnChunk] using this
        · simp only [Bool.not_eq_true] at hd
          have hlen := columnChunk_length io a v0 d hd
          have := ih vals (measureColumn io a v0 d).2 i attr val hattr hval
          simp only [columnChunks, measureColumns, hd, Bool.false_eq_true, if_false,
            List.getElem?_cons_succ, List.take_succ_cons, List.flatten_cons, List.length_append,
            Nat.cast_add]
          refine ⟨this.1, fun hda v hv => ?_⟩
          obtain ⟨pad, h1, h2, h3⟩ := this.2 hda v hv
          refine ⟨pad, h1, ?_, h3⟩
          have e : d + ((columnChunk a v0 (measureColumn io a v0 d).1).length +
              ((List.take i (columnChunks attrs vals
                (measureColumns io attrs vals (measureColumn io a v0 d).2).1)).flatten.length : Nat)) + pad
              = (measureColumn io a v0 d).2 + ((List.take i (columnChunks attrs vals
                (measureColumns io attrs vals (measureColumn io a v0 d).2).1)).flatten.length : Nat) + pad := by
            omega
          rw [e]; exact h2



theorem exportHeader_length {Datum : Type} (io : IoFunctions Datum) (tupdesc : TupleDesc)
    (rec : HeapTuple Datum) :
    ((exportHeader io tupdesc rec).length : Int) =
      4 + 2 + 1 + 2 + countValidColumns tupdesc + getNullByteArraySize (countValidColumns tupdesc) := by
  have hnull := exportNullBits_length tupdesc rec
  have htags : ((tagBytes tupdesc).length : Int) = countValidColumns tupdesc := by
    rw [tagBytes_length]; rfl
  simp only [exportHeader, List.length_append, htonl, htons, List.length_cons, List.length_nil,
    Nat.cast_add]
  omega

/-- C6: alignment of an exported record. The record is its header, the piece of every
attribute and the end padding. A dropped or null attribute has an empty piece. The
piece of any other attribute is a run of zero bytes shorter than the column's
alignment (4 for a variable length type, else the alignment class 1/2/4/8), then the
4-byte length prefix of a variable length type, then the value; what follows the
padding starts at a record offset that is a multiple of the alignment. The record
size is a multiple of 8 and the end padding is a run of fewer than 8 zero bytes. -/
theorem record_alignment {Datum : Type} (io : IoFunctions Datum) (tupdesc : TupleDesc)
    (rec : HeapTuple Datum) :
    exportRecord io tupdesc rec =
        exportHeader io tupdesc rec ++ ((exportChunks io tupdesc rec).flatten ++
          List.replicate (exportEndpadding io tupdesc rec).toNat 0) ∧
      (exportRecord io tupdesc rec).length % 8 = 0 ∧
      (exportEndpadding io tupdesc rec).toNat < 8 ∧
      ∀ (i : Nat) (attr : FormData_pg_attribute) (val : Option Datum),
        tupdesc[i]? = some attr → (heap_deform_tuple tupdesc rec)[i]? = some val →
        (columnAlign attr = 1 ∨ columnAlign attr = 2 ∨ columnAlign attr = 4 ∨
          columnAlign attr = 8) ∧
        (attr.attisdropped = true ∨ val = none → (exportChunks io tupdesc rec)[i]? = some []) ∧
        (attr.attisdropped = false → ∀ v, val = some v → ∃ pad : Nat,
          (exportChunks io tupdesc rec)[i]? =
            some (List.replicate pad 0 ++
              ((if isVariableLength attr.atttypid then
                  htonl ((columnPayload io attr v).length : Nat) else []) ++
                columnPayload io attr v)) ∧
          (((exportHeader io tupdesc rec).length +
              ((exportChunks io tupdesc rec).take i).flatten.length + pad : Nat) : Int) %
            columnAlign attr = 0 ∧
          (pad : Int) < columnAlign attr) := by
  have hlen := exportRecord_length io tupdesc rec
  have hpad := exportEndpadding_bounds io tupdesc rec
  have hhdr := exportHeader_length io tupdesc rec
  refine ⟨?_, by omega, by omega, fun i attr val hattr hval => ⟨columnAlign_cases attr, ?_⟩⟩
  · rw [exportRecord_eq]; simp [exportHeader]
  · have := columnChunks_aligned io tupdesc (heap_deform_tuple tupdesc rec)
      (4 + 2 + 1 + 2 + countValidColumns tupdesc + getNullByteArraySize (countValidColumns tupdesc))
      i attr val hattr hval
    refine ⟨this.1, fun hd v hv => ?_⟩
    obtain ⟨pad, h1, h2, h3⟩ := this.2 hd v hv
    refine ⟨pad, h1, ?_, h3⟩
    simp only [exportChunks, exportMeasure, Nat.cast_add]
    rw [hhdr]
    exact h2

theorem record_alignment_witness :
    scenarioDesc[1]? = some ⟨"b", TEXTOID, -1, 'i', false⟩ ∧
      (heap_deform_tuple scenarioDesc scenarioRow)[1]? = some (some (.text [0x68, 0x69])) ∧
      ∃ pad : Nat,
        (exportChunks scenarioIo scenarioDesc scenarioRow)[1]? =
          some (List.replicate pad 0 ++
            ((if isVariableLength TEXTOID then
                htonl ((columnPayload scenarioIo ⟨"b", TEXTOID, -1, 'i', false⟩
                  (.text [0x68, 0x69])).length : Nat) else []) ++
              columnPayload scenarioIo ⟨"b", TEXTOID, -1, 'i', false⟩ (.text [0x68, 0x69]))) ∧
        (((exportHeader scenarioIo scenarioDesc scenarioRow).length +
            ((exportChunks scenarioIo scenarioDesc scenarioRow).take 1).flatten.length + pad : Nat)
            : Int) % columnAlign ⟨"b", TEXTOID, -1, 'i', false⟩ = 0 ∧
        (pad : Int) < columnAlign ⟨"b", TEXTOID, -1, 'i', false⟩ :=
  ⟨by decide, by decide,
    ((record_alignment scenarioIo scenarioDesc scenarioRow).2.2.2 1
      ⟨"b", TEXTOID, -1, 'i', false⟩ (some (.text [0x68, 0x69])) (by decide)
      (by decide)).2.2 (by decide) (.text [0x68, 0x69]) rfl⟩

/-! ## Round trip -/

theorem type_tag_roundtrip (t : Oid) :
    getTypeOidFromJavaEnumOrdinal (getJavaEnumOrdinal t) =
      .ok (if isBinaryFormatType t then t else TEXTOID) := by
  by_cases h1 : t = INT8OID
  · subst h1; decide
  by_cases h2 : t = BOOLOID
  · subst h2; decide
  by_cases h3 : t = FLOAT8OID
  · subst h3; decide
  by_cases h4 : t = INT4OID
  · subst h4; decide
  by_cases h5 : t = FLOAT4OID
  · subst h5; decide
  by_cases h6 : t = INT2OID
  · subst h6; decide
  by_cases h7 : t = BYTEAOID
  · subst h7; decide
  have hb : isBinaryFormatType t = false := by
    simp [isBinaryFormatType, h1, h2, h3, h4, h5, h6, h7]
  simp [getJavaEnumOrdinal, h1, h2, h3, h4, h5, h6, h7, hb, getTypeOidFromJavaEnumOrdinal]

theorem cstring_append_nul (x rest : List Byte) :
    cstring (cstring x ++ (0 :: rest)) = cstring x := by
  unfold cstring
  induction x with
  | nil => simp [List.takeWhile]
  | cons b x ih =>
    by_cases hb : b = 0
    · subst hb; simp [List.takeWhile]
    · simp [List.takeWhile_cons, hb, ih]

theorem readCString_append (pre x rest : List Byte) (off : Int) (hoff : off = pre.length) :
    readCString (pre ++ ((cstring x ++ [0]) ++ rest)) off = .ok (cstring x) := by
  subst hoff
  unfold readCString
  rw [if_pos (by simp only [List.length_append, Nat.cast_add]; omega)]
  simp only [Int.toNat_ofNat, List.drop_left, List.append_assoc, List.singleton_append]
  rw [if_pos (by simp), cstring_append_nul]

theorem align_unique (d : Int) (pad : Nat) (a : Char) (h1 : (d + pad) % alignBytes a = 0)
    (h2 : (pad : Int) < alignBytes a) : att_align_nominal d a = d + pad := by
  unfold att_align_nominal INTALIGN DOUBLEALIGN SHORTALIGN TYPEALIGN
  unfold alignBytes at h1 h2
  split_ifs at * <;> omega

theorem intalign_unique (d : Int) (pad : Nat) (h1 : (d + pad) % 4 = 0)
    (h2 : (pad : Int) < 4) : INTALIGN d = d + pad := by
  unfold INTALIGN TYPEALIGN
  omega

theorem importColumn_step {Datum : Type} (io : IoFunctions Datum) (level : ErrLevel)
    (a : FormData_pg_attribute) (v : Datum) (pre rest : List Byte) (d tuplelen : Int) (i : Nat)
    (hd : a.attisdropped = false) (hcol : columnRoundTrips io a (some v))
    (hpre : d = pre.length) (hfit : (measureColumn io a (some v) d).2 ≤ tuplelen)
    (hint : tuplelen < 2147483648) :
    ∃ outlen bufidx1,
      importColumnLength level
          (pre ++ (columnChunk a (some v) (measureColumn io a (some v) d).1 ++ rest))
          tuplelen a i d = .ok (outlen, bufidx1) ∧
        importColumnValue io
          (pre ++ (columnChunk a (some v) (measureColumn io a (some v) d).1 ++ rest))
          a i outlen bufidx1 = .ok v ∧
        bufidx1 + outlen = (measureColumn io a (some v) d).2 := by
  obtain ⟨pad, hchunk, halign, hpad, hm⟩ := columnChunk_some io a v d hd
  rw [hchunk]
  rw [hm] at hfit
  obtain ⟨-, hio⟩ := hcol
  by_cases hv : isVariableLength a.atttypid = true
  · simp only [hv, if_true] at hm hfit ⊢
    simp only [columnAlign, hv, if_true] at halign hpad
    have hia := intalign_unique d pad halign hpad
    have hbuf1 : pre ++ ((List.replicate pad 0 ++
        (htonl ((columnPayload io a v).length : Nat) ++ columnPayload io a v)) ++ rest) =
        (pre ++ List.replicate pad 0) ++ (htonl ((columnPayload io a v).length : Nat) ++
          (columnPayload io a v ++ rest)) := by simp
    have hread := readIntFromBuffer_append (pre ++ List.replicate pad 0)
      (columnPayload io a v ++ rest) (d + pad) ((columnPayload io a v).length : Nat)
      (by simp [hpre]) (by omega) (by omega)
    refine ⟨((columnPayload io a v).length : Nat), d + pad + 4, ?_, ?_, by omega⟩
    · simp only [importColumnLength, hv, if_true, hia, hbuf1, hread]
      rw [if_neg (by omega)]
    · by_cases hb : isBinaryFormatType a.atttypid = true
      · simp only [hb, if_true] at hio
        have hbuf2 : pre ++ ((List.replicate pad 0 ++
            (htonl ((columnPayload io a v).length : Nat) ++ columnPayload io a v)) ++ rest) =
            (pre ++ List.replicate pad 0 ++ htonl ((columnPayload io a v).length : Nat)) ++
              (columnPayload io a v ++ rest) := by simp
        have hrb := readBytes_append
          (pre ++ List.replicate pad 0 ++ htonl ((columnPayload io a v).length : Nat))
          (columnPayload io a v) rest (d + pad + 4) (columnPayload io a v).length
          (by simp [hpre, htonl]; omega) rfl
        simp only [importColumnValue, hb, if_true, hbuf2, Int.toNat_ofNat, hrb]
        rw [if_neg (by omega)]
        simp only [columnPayload, hb, if_true, hio.1]
      · simp only [hb, Bool.false_eq_true, if_false] at hio
        have hbuf2 : pre ++ ((List.replicate pad 0 ++
            (htonl ((columnPayload io a v).length : Nat) ++ columnPayload io a v)) ++ rest) =
            (pre ++ List.replicate pad 0 ++ htonl ((columnPayload io a v).length : Nat)) ++
              ((cstring (io.OutputFunctionCall a v) ++ [0]) ++ rest) := by
          simp [columnPayload, hb]
        have hrc := readCString_append
          (pre ++ List.replicate pad 0 ++ htonl ((columnPayload io a v).length : Nat))
          (io.OutputFunctionCall a v) rest (d + pad + 4) (by simp [hpre, htonl]; omega)
        simp only [importColumnValue, hb, Bool.false_eq_true, if_false, hbuf2, hrc, hio]
  · simp only [hv, Bool.false_eq_true, if_false] at hm hfit ⊢
    simp only [columnAlign, hv, Bool.false_eq_true, if_false] at halign hpad
    have hia := align_unique d pad a.attalign halign hpad
    have hb : isBinaryFormatType a.atttypid = true := by
      simp only [isVariableLength, Bool.or_eq_true, Bool.not_eq_true', not_or,
        Bool.not_eq_false] at hv
      exact hv.2
    simp only [hb, if_true] at hio
    have hlen := hio.2 (by simpa using hv)
    have hpl : columnPayload io a v = io.SendFunctionCall a v := by simp [columnPayload, hb]
    have hbuf2 : pre ++ ((List.replicate pad 0 ++ ([] ++ columnPayload io a v)) ++ rest) =
        (pre ++ List.replicate pad 0) ++ (columnPayload io a v ++ rest) := by simp
    have hrb := readBytes_append (pre ++ List.replicate pad 0)
      (columnPayload io a v) rest (d + pad) (columnPayload io a v).length
      (by simp [hpre]) rfl
    refine ⟨a.attlen, d + pad, ?_, ?_, ?_⟩
    · simp only [importColumnLength, hv, Bool.false_eq_true, if_false, hia]
    · simp only [importColumnValue, hb, if_true, hbuf2]
      rw [if_neg (by omega)]
      have : a.attlen.toNat = (columnPayload io a v).length := by rw [hpl]; omega
      rw [this, hrb]
      simp only [hpl, hio.1]
    · rw [hm, hpl]; omega



theorem measureColumns_mono {Datum : Type} (io : IoFunctions Datum) (attrs : TupleDesc)
    (vals : List (Option Datum)) (d : Int) : d ≤ (measureColumns io attrs vals d).2 := by
  have := columnChunks_length io attrs vals d
  omega

theorem importColumns_export {Datum : Type} (io : IoFunctions Datum) (level : ErrLevel)
    (attrs : TupleDesc) :
    ∀ (vals : List (Option Datum)) (pre post : List Byte) (d tuplelen tupleEndIdx : Int) (i : Nat),
      List.Forall₂ (columnRoundTrips io) attrs vals → d = pre.length →
      (measureColumns io attrs vals d).2 ≤ tupleEndIdx → tupleEndIdx ≤ tuplelen →
      tuplelen < 2147483648 →
      importColumns io level
          (pre ++ ((columnChunks attrs vals (measureColumns io attrs vals d).1).flatten ++ post))
          tuplelen tupleEndIdx attrs
          (List.zipWith (fun a n => a.attisdropped || n) attrs (vals.map Option.isNone)) i d =
        .ok (vals.zipWith (fun v a => if a.attisdropped then none else v) attrs,
          (measureColumns io attrs vals d).2) := by
  induction attrs with
  | nil =>
    intro vals pre post d tuplelen tupleEndIdx i h
    cases h
    intros
    simp [importColumns, measureColumns]
  | cons a attrs ih =>
    intro vals pre post d tuplelen tupleEndIdx i h hpre hfit hend hint
    cases h with
    | cons hcol htail =>
      rename_i val vals
      by_cases hd : a.attisdropped = true
      · have := ih vals pre post d tuplelen tupleEndIdx (i + 1) htail hpre
          (by simpa [measureColumns, hd] using hfit) hend hint
        simp only [measureColumns, hd, if_true, columnChunks, columnChunk, Bool.not_true,
          Bool.false_and, Bool.false_eq_true, if_false, List.flatten_cons, List.nil_append,
          List.map_cons, List.zipWith_cons_cons, Bool.true_or, importColumns, this]
      · simp only [Bool.not_eq_true] at hd
        cases val with
        | none =>
          have := ih vals pre post d tuplelen tupleEndIdx (i + 1) htail hpre
            (by simpa [measureColumns, hd, measureColumn] using hfit) hend hint
          simp only [measureColumns, hd, Bool.false_eq_true, if_false, measureColumn, Int.add_zero,
            columnChunks, columnChunk, Option.isNone_none, Bool.not_true, Bool.and_false,
            List.flatten_cons, List.nil_append, List.map_cons, List.zipWith_cons_cons,
            Bool.or_true, importColumns, if_true, this]
        | some v =>
          have hmono := measureColumns_mono io attrs vals (measureColumn io a (some v) d).2
          have hfit1 : (measureColumns io attrs vals (measureColumn io a (some v) d).2).2 ≤
              tupleEndIdx := by simpa [measureColumns, hd] using hfit
          obtain ⟨outlen, bufidx1, h1, h2, h3⟩ := importColumn_step io level a v pre
            ((columnChunks attrs vals
              (measureColumns io attrs vals (measureColumn io a (some v) d).2).1).flatten ++ post)
            d tuplelen i hd hcol hpre (by omega) hint
          have hlen := columnChunk_length io a (some v) d hd
          have := ih vals (pre ++ columnChunk a (some v) (measureColumn io a (some v) d).1) post
            (measureColumn io a (some v) d).2 tuplelen tupleEndIdx (i + 1) htail
            (by simp only [List.length_append, Nat.cast_add]; omega) hfit1 hend hint
          simp only [List.append_assoc] at this
          simp only [measureColumns, hd, Bool.false_eq_true, if_false, columnChunks,
            List.flatten_cons, List.append_assoc, List.map_cons, List.zipWith_cons_cons,
            Option.isNone_some, Bool.or_self, importColumns, h1, h2, h3, this]
          rw [if_neg (by omega)]

theorem verifyLoop_tagBytes (attrs : TupleDesc) :
    ∀ (pre post : List Byte) (bufidx : Int) (errMsg : List (String × Oid × Oid)),
      bufidx = pre.length →
      verifyLoop (pre ++ (tagBytes attrs ++ post)) attrs bufidx errMsg =
        .ok (bufidx + countValidColumns attrs, errMsg) := by
  induction attrs with
  | nil => intro pre post bufidx errMsg _; simp [verifyLoop, countValidColumns]
  | cons a attrs ih =>
    intro pre post bufidx errMsg hpre
    by_cases hd : a.attisdropped = true
    · have := ih pre post bufidx errMsg hpre
      simpa [verifyLoop, hd, tagBytes, List.filter_cons, countValidColumns, List.countP_cons]
        using this
    · simp only [Bool.not_eq_true] at hd
      have htag : tagBytes (a :: attrs) =
          [byteOfInt (getJavaEnumOrdinal a.atttypid)] ++ tagBytes attrs := by
        simp [tagBytes, List.filter_cons, hd]
      have hrange : 0 ≤ getJavaEnumOrdinal a.atttypid ∧ getJavaEnumOrdinal a.atttypid ≤ 7 := by
        unfold getJavaEnumOrdinal; split_ifs <;> omega
      have hread := readInt1FromBuffer_append pre (tagBytes attrs ++ post) bufidx
        (getJavaEnumOrdinal a.atttypid) hpre hrange.1 (by omega)
      have h8 : toInt8 (getJavaEnumOrdinal a.atttypid) = getJavaEnumOrdinal a.atttypid := by
        unfold toInt8; split_ifs <;> omega
      have hty := type_tag_roundtrip a.atttypid
      have hcond : ((isBinaryFormatType a.atttypid ||
          isBinaryFormatType (if isBinaryFormatType a.atttypid then a.atttypid else TEXTOID)) &&
          (if isBinaryFormatType a.atttypid then a.atttypid else TEXTOID) != a.atttypid) = false := by
        by_cases hb : isBinaryFormatType a.atttypid = true
        · simp [hb]
        · simp only [Bool.not_eq_true] at hb
          have : isBinaryFormatType TEXTOID = false := by decide
          simp [hb, this]
      have hnext := ih (pre ++ [byteOfInt (getJavaEnumOrdinal a.atttypid)]) post (bufidx + 1) errMsg
        (by simp [hpre])
      simp only [List.append_assoc] at hnext hread
      have hcount : countValidColumns (a :: attrs) = 1 + countValidColumns attrs := by
        simp [countValidColumns, List.countP_cons, hd]; omega
      simp only [verifyLoop, hd, Bool.false_eq_true, if_false, htag, List.append_assoc, hread, h8,
        hty, hcond, hnext, hcount]
      congr 2; omega


theorem zipWith_dropped_eq {Datum : Type} (io : IoFunctions Datum) (attrs : TupleDesc)
    (vals : List (Option Datum)) (h : List.Forall₂ (columnRoundTrips io) attrs vals) :
    vals.zipWith (fun v a => if a.attisdropped then none else v) attrs = vals := by
  induction h with
  | nil => rfl
  | @cons a val attrs vals hcol _ ih =>
    simp only [List.zipWith_cons_cons, ih, List.cons.injEq, and_true]
    cases val with
    | none => simp
    | some v => simp [hcol.1]

theorem importHeader_export (len n : Int) (rest : List Byte) (h0 : 0 ≤ n) (hn : n ≤ 32767) :
    importHeader (htonl len ++ (htons GPDBWRITABLE_VERSION ++ ([byteOfInt 0] ++
      (htons n ++ rest)))) 4 = .ok (n, 9) := by
  have h1 := readInt2FromBuffer_append (htonl len) ([byteOfInt 0] ++ (htons n ++ rest)) 4
    GPDBWRITABLE_VERSION (by simp [htonl]) (by decide) (by decide)
  have h2 := readInt1FromBuffer_append (htonl len ++ htons GPDBWRITABLE_VERSION)
    (htons n ++ rest) 6 0 (by simp [htonl, htons]) (by decide) (by decide)
  have h3 := readInt2FromBuffer_append (htonl len ++ htons GPDBWRITABLE_VERSION ++ [byteOfInt 0])
    rest 7 n (by simp [htonl, htons]) h0 (by omega)
  simp only [List.append_assoc] at h1 h2 h3
  have e1 : toInt16 GPDBWRITABLE_VERSION = GPDBWRITABLE_VERSION := by decide
  have e2 : toInt8 0 = 0 := by decide
  have e3 : toInt16 n = n := by unfold toInt16; split_ifs <;> omega
  have e4 : (4 : Int) + 2 = 6 := by decide
  have e5 : (6 : Int) + 1 = 7 := by decide
  have e6 : (7 : Int) + 2 = 9 := by decide
  simp only [importHeader, h1, e1, e4, readErrorFlag, if_true, h2, e2, e5, h3, e3, e6, ne_eq,
    not_true_eq_false, false_and, if_false]

/-- C1: round trip. For a schema and a row consistent with it (dropped slots null,
decode callbacks inverting the encode callbacks, fixed-width values of the declared
length), with `natts` in the range of `AttrNumber` and `datlen` in the range of `int`,
decoding a buffer that holds exactly the exported record at cursor position 0 returns
the original row and moves the cursor by the length of the record. -/
theorem export_import_roundtrip {Datum : Type} (io : IoFunctions Datum) (tupdesc : TupleDesc)
    (rec : HeapTuple Datum) (myData : format_t) (saw_eof : Bool) (badrow : Option (Int × Int))
    (hrow : List.Forall₂ (columnRoundTrips io) tupdesc rec)
    (hnatts : tupdesc.length ≤ 32767)
    (hint : exportDatlen io tupdesc rec < 2147483648) :
    gpdbwritableformatter_import io tupdesc myData
        ⟨exportRecord io tupdesc rec, 0, saw_eof, badrow⟩ =
      ⟨.tuple rec, { myData with lineno := myData.lineno + 1 },
        ((exportRecord io tupdesc rec).length : Nat),
        some (0, ((exportRecord io tupdesc rec).length : Nat))⟩ := by
  have hRlen := exportRecord_length io tupdesc rec
  have hge := exportDatlen_ge io tupdesc rec
  have hpad := exportEndpadding_bounds io tupdesc rec
  have hdeform : heap_deform_tuple tupdesc rec = rec :=
    heap_deform_tuple_self tupdesc rec hrow.length_eq.symm
  have hn0 := countValidColumns_nonneg tupdesc
  have hn : countValidColumns tupdesc ≤ 32767 := by
    have : tupdesc.countP (fun a => !a.attisdropped) ≤ tupdesc.length := List.countP_le_length _
    unfold countValidColumns; omega
  have hR := exportRecord_eq io tupdesc rec
  have hlen : readIntFromBuffer (exportRecord io tupdesc rec) 0 =
      .ok (exportDatlen io tupdesc rec, 4) := by
    have := readIntFromBuffer_append [] ((exportRecord io tupdesc rec).drop 4) 0
      (exportDatlen io tupdesc rec) rfl (by omega) hint
    rw [hR] at this ⊢
    simpa [htonl] using this
  have hhdr : importHeader (exportRecord io tupdesc rec) 4 = .ok (countValidColumns tupdesc, 9) := by
    rw [hR]; exact importHeader_export _ _ _ hn0 hn
  have htags : verifyLoop (exportRecord io tupdesc rec) tupdesc 9 [] =
      .ok (9 + countValidColumns tupdesc, []) := by
    have := verifyLoop_tagBytes tupdesc
      (htonl (exportDatlen io tupdesc rec) ++ (htons GPDBWRITABLE_VERSION ++ ([byteOfInt 0] ++
        htons (countValidColumns tupdesc))))
      (exportNullBits tupdesc rec ++ ((exportChunks io tupdesc rec).flatten ++
        List.replicate (exportEndpadding io tupdesc rec).toNat 0)) 9 [] (by simp [htonl, htons])
    rw [hR]
    simpa using this
  have hhl := exportHeader_length io tupdesc rec
  have hRh : exportRecord io tupdesc rec = exportHeader io tupdesc rec ++
      ((exportChunks io tupdesc rec).flatten ++
        List.replicate (exportEndpadding io tupdesc rec).toNat 0) := by
    rw [hR]; simp [exportHeader]
  have hnull := exportNullBits_length tupdesc rec
  have htl : ((tagBytes tupdesc).length : Int) = countValidColumns tupdesc := by
    rw [tagBytes_length]; rfl
  have hptr : pointerAt (exportRecord io tupdesc rec) (9 + countValidColumns tupdesc) =
      .ok (exportNullBits tupdesc rec ++ ((exportChunks io tupdesc rec).flatten ++
        List.replicate (exportEndpadding io tupdesc rec).toNat 0)) := by
    unfold pointerAt
    have hRge : ((exportHeader io tupdesc rec).length : Int) ≤
        ((exportRecord io tupdesc rec).length : Nat) := by
      have := congrArg List.length hRh
      simp only [List.length_append] at this
      omega
    rw [if_pos (by omega)]
    have e : exportRecord io tupdesc rec =
        (htonl (exportDatlen io tupdesc rec) ++ (htons GPDBWRITABLE_VERSION ++ ([byteOfInt 0] ++
          (htons (countValidColumns tupdesc) ++ tagBytes tupdesc)))) ++
        (exportNullBits tupdesc rec ++ ((exportChunks io tupdesc rec).flatten ++
          List.replicate (exportEndpadding io tupdesc rec).toNat 0)) := by
      rw [hR]; simp
    rw [e, List.drop_left']
    simp only [List.length_append, htonl, htons, List.length_cons, List.length_nil]
    omega
  have hbits : byteArrayToBoolArray (exportNullBits tupdesc rec ++
      ((exportChunks io tupdesc rec).flatten ++
        List.replicate (exportEndpadding io tupdesc rec).toNat 0)) tupdesc =
      .ok (List.zipWith (fun a n => a.attisdropped || n) tupdesc (rec.map Option.isNone)) := by
    have := byteArrayToBoolArray_roundtrip tupdesc (rec.map Option.isNone)
      ((exportChunks io tupdesc rec).flatten ++
        List.replicate (exportEndpadding io tupdesc rec).toNat 0)
      (by rw [List.length_map]; exact hrow.length_eq.symm)
    unfold exportNullBits
    rw [hdeform]
    exact this
  have e9 : (9 : Int) + countValidColumns tupdesc +
      getNullByteArraySize (countValidColumns tupdesc) =
      4 + 2 + 1 + 2 + countValidColumns tupdesc +
        getNullByteArraySize (countValidColumns tupdesc) := by omega
  have hm2 : (exportMeasure io tupdesc rec).2 ≤ exportDatlen io tupdesc rec := by
    unfold exportDatlen; omega
  have hcols : importColumns io myData.formatter_error_level (exportRecord io tupdesc rec)
      (exportDatlen io tupdesc rec) (0 + exportDatlen io tupdesc rec) tupdesc
      (List.zipWith (fun a n => a.attisdropped || n) tupdesc (rec.map Option.isNone)) 0
      (9 + countValidColumns tupdesc + getNullByteArraySize (countValidColumns tupdesc)) =
      .ok (rec, (exportMeasure io tupdesc rec).2) := by
    have := importColumns_export io myData.formatter_error_level tupdesc rec
      (exportHeader io tupdesc rec) (List.replicate (exportEndpadding io tupdesc rec).toNat 0)
      (9 + countValidColumns tupdesc + getNullByteArraySize (countValidColumns tupdesc))
      (exportDatlen io tupdesc rec) (0 + exportDatlen io tupdesc rec) 0 hrow (by omega)
      (by
        simp only [exportMeasure, hdeform] at hm2
        rw [e9]
        omega)
      (by omega) hint
    rw [zipWith_dropped_eq io tupdesc rec hrow] at this
    rw [hRh]
    simp only [exportChunks, exportMeasure, hdeform]
    rw [← e9]
    exact this
  have hend : (0 : Int) + exportDatlen io tupdesc rec = DOUBLEALIGN (exportMeasure io tupdesc rec).2 := by
    unfold exportDatlen exportEndpadding; omega
  have hbody : importBody io tupdesc myData (exportRecord io tupdesc rec) 0
      (exportDatlen io tupdesc rec) (countValidColumns tupdesc) 9 = .ok rec := by
    unfold importBody
    have hv : (if FIRST_LINE_NUM = myData.lineno then
        verifyExternalTableDefinition (countValidColumns tupdesc) (countValidColumns tupdesc)
          tupdesc (exportRecord io tupdesc rec) 9
        else Except.ok (9 + countValidColumns tupdesc)) =
        .ok (9 + countValidColumns tupdesc) := by
      split_ifs
      · simp [verifyExternalTableDefinition, htags]
      · rfl
    simp only [hv, hptr, hbits, hcols]
    rw [if_neg (by rw [hend]; simp)]
  unfold gpdbwritableformatter_import
  simp only [hlen, hhdr, hbody]
  rw [if_neg (by omega), if_neg (by omega), if_neg (by omega)]
  simp only [Int.zero_add, hRlen]

theorem export_import_roundtrip_witness :
    List.Forall₂ (columnRoundTrips scenarioIo) droppedDesc droppedRow ∧
      droppedDesc.length ≤ 32767 ∧
      exportDatlen scenarioIo droppedDesc droppedRow < 2147483648 ∧
      gpdbwritableformatter_import scenarioIo droppedDesc (initImportContext [])
          ⟨exportRecord scenarioIo droppedDesc droppedRow, 0, false, none⟩ =
        ⟨.tuple droppedRow,
          { initImportContext [] with lineno := (initImportContext []).lineno + 1 },
          ((exportRecord scenarioIo droppedDesc droppedRow).length : Nat),
          some (0, ((exportRecord scenarioIo droppedDesc droppedRow).length : Nat))⟩ :=
  have hrow : List.Forall₂ (columnRoundTrips scenarioIo) droppedDesc droppedRow :=
    List.Forall₂.cons ⟨rfl, by decide⟩
      (List.Forall₂.cons trivial (List.Forall₂.cons ⟨rfl, by decide⟩ List.Forall₂.nil))
  ⟨hrow, by decide, by decide,
    export_import_roundtrip scenarioIo droppedDesc droppedRow (initImportContext []) false none
      hrow (by decide) (by decide)⟩

/-! ## Framing -/

theorem importBody_eq {Datum : Type} (io : IoFunctions Datum) (tupdesc : TupleDesc)
    (myData : format_t) (data_buf : List Byte) (data_cur tuplelen ncolumns_remote bufidx : Int) :
    importBody io tupdesc myData data_buf data_cur tuplelen ncolumns_remote bufidx =
      match importSchema tupdesc myData data_buf ncolumns_remote bufidx with
      | .error e => .error e
      | .ok bufidx1 =>
        match importWalk io tupdesc myData.formatter_error_level data_buf data_cur tuplelen
            ncolumns_remote bufidx1 with
        | .error e => .error e
        | .ok (vals, bufidx2) =>
          if data_cur + tuplelen ≠ DOUBLEALIGN bufidx2 then
            .error (.ereport .ERROR (.FramingMismatch tuplelen (DOUBLEALIGN bufidx2) data_cur))
          else .ok vals := by
  unfold importBody importSchema importWalk
  dsimp only
  cases (if FIRST_LINE_NUM = myData.lineno then
      verifyExternalTableDefinition ncolumns_remote (countValidColumns tupdesc) tupdesc data_buf
        bufidx
    else Except.ok (bufidx + ncolumns_remote)) with
  | error e => rfl
  | ok bufidx1 =>
    first
      | rfl
      | (dsimp only
         cases pointerAt data_buf bufidx1 with
         | error e => rfl
         | ok nullByteArray =>
           first
             | rfl
             | (dsimp only
                cases byteArrayToBoolArray nullByteArray tupdesc with
                | error e => rfl
                | ok nulls => rfl))

/-- The import function once the record is known to be fully buffered. -/
theorem import_of_framed {Datum : Type} (io : IoFunctions Datum) (tupdesc : TupleDesc)
    (myData : format_t) (fd : FormatterData) (tuplelen bufidx : Int)
    (hread : readIntFromBuffer fd.databuf fd.datacursor = .ok (tuplelen, bufidx))
    (hfull : tuplelen ≤ fd.databuf.length - fd.datacursor) :
    gpdbwritableformatter_import io tupdesc myData fd =
      match importHeader fd.databuf bufidx with
      | .error e => ⟨ImportResult.ofAbort e, myData, fd.datacursor, some (fd.datacursor, tuplelen)⟩
      | .ok (ncolumns_remote, bufidx1) =>
        match importBody io tupdesc myData fd.databuf fd.datacursor tuplelen ncolumns_remote
            bufidx1 with
        | .error e => ⟨ImportResult.ofAbort e, { myData with lineno := myData.lineno + 1 },
            fd.datacursor, some (fd.datacursor, tuplelen)⟩
        | .ok t => ⟨ImportResult.tuple t, { myData with lineno := myData.lineno + 1 },
            fd.datacursor + tuplelen, some (fd.datacursor, tuplelen)⟩ := by
  have h1 := readIntFromBuffer_ok _ _ _ _ hread
  unfold gpdbwritableformatter_import
  simp only [hread]
  rw [if_neg (by omega), if_neg (by omega), if_neg (by omega)]
  try rfl


theorem readBytes_error (buf : List Byte) (off : Int) (n : Nat) (a : Abort)
    (h : readBytes buf off n = .error a) : a = .outOfBuffer := by
  unfold readBytes at h
  split_ifs at h
  simp only [Except.error.injEq] at h
  exact h.symm

theorem readIntFromBuffer_error (buf : List Byte) (off : Int) (a : Abort)
    (h : readIntFromBuffer buf off = .error a) : a = .outOfBuffer := by
  unfold readIntFromBuffer at h
  split at h
  · simp at h
  · rename_i e h1
    simp only [Except.error.injEq] at h
    rw [← h]; exact readBytes_error _ _ _ _ h1

theorem readInt2FromBuffer_error (buf : List Byte) (off : Int) (a : Abort)
    (h : readInt2FromBuffer buf off = .error a) : a = .outOfBuffer := by
  unfold readInt2FromBuffer at h
  split at h
  · simp at h
  · rename_i e h1
    simp only [Except.error.injEq] at h
    rw [← h]; exact readBytes_error _ _ _ _ h1

theorem readInt1FromBuffer_error (buf : List Byte) (off : Int) (a : Abort)
    (h : readInt1FromBuffer buf off = .error a) : a = .outOfBuffer := by
  unfold readInt1FromBuffer at h
  split at h
  · simp at h
  · rename_i e h1
    simp only [Except.error.injEq] at h
    rw [← h]; exact readBytes_error _ _ _ _ h1

theorem readCString_error (buf : List Byte) (off : Int) (a : Abort)
    (h : readCString buf off = .error a) : a = .outOfBuffer := by
  unfold readCString at h
  split_ifs at h <;> simp only [Except.error.injEq] at h <;> exact h.symm

theorem pointerAt_error (buf : List Byte) (off : Int) (a : Abort)
    (h : pointerAt buf off = .error a) : a = .outOfBuffer := by
  unfold pointerAt at h
  split_ifs at h
  simp only [Except.error.injEq] at h
  exact h.symm

theorem readErrorFlag_error (version : Int) (buf : List Byte) (off : Int) (a : Abort)
    (h : readErrorFlag version buf off = .error a) : a = .outOfBuffer := by
  unfold readErrorFlag at h
  split_ifs at h
  split at h
  · rename_i e h1
    simp only [Except.error.injEq] at h
    rw [← h]; exact readInt1FromBuffer_error _ _ _ h1
  · simp at h

theorem importHeader_error (buf : List Byte) (off : Int) (a : Abort)
    (h : importHeader buf off = .error a) : a.fromHeader = true := by
  unfold importHeader at h
  split at h
  · rename_i e h1
    simp only [Except.error.injEq] at h
    rw [← h, readInt2FromBuffer_error _ _ _ h1]; rfl
  · dsimp only at h
    split_ifs at h
    · simp only [Except.error.injEq] at h
      rw [← h]; rfl
    · split at h
      · rename_i e h1
        simp only [Except.error.injEq] at h
        rw [← h, readErrorFlag_error _ _ _ _ h1]; rfl
      · split_ifs at h
        · split at h
          · rename_i e h1
            simp only [Except.error.injEq] at h
            rw [← h, readCString_error _ _ _ h1]; rfl
          · simp only [Except.error.injEq] at h
            rw [← h]; rfl
        · split at h
          · rename_i e h1
            simp only [Except.error.injEq] at h
            rw [← h, readInt2FromBuffer_error _ _ _ h1]; rfl
          · simp at h

theorem getTypeOid_error_kind (e : Int) (a : Abort)
    (h : getTypeOidFromJavaEnumOrdinal e = .error a) : a.fromSchema = true := by
  unfold getTypeOidFromJavaEnumOrdinal at h
  split_ifs at h
  simp only [Except.error.injEq] at h
  rw [← h]; rfl

theorem verifyLoop_error (buf : List Byte) (attrs : TupleDesc) :
    ∀ (bufidx : Int) (errMsg : List (String × Oid × Oid)) (a : Abort),
      verifyLoop buf attrs bufidx errMsg = .error a → a.fromSchema = true := by
  induction attrs with
  | nil => intro bufidx errMsg a h; simp [verifyLoop] at h
  | cons attr attrs ih =>
    intro bufidx errMsg a h
    unfold verifyLoop at h
    split_ifs at h
    · exact ih _ _ _ h
    · dsimp only at h
      split at h
      · rename_i e h1
        simp only [Except.error.injEq] at h
        rw [← h, readInt1FromBuffer_error _ _ _ h1]; rfl
      · split at h
        · rename_i e h1
          simp only [Except.error.injEq] at h
          rw [← h]; exact getTypeOid_error_kind _ _ h1
        · split_ifs at h <;> exact ih _ _ _ h

theorem importSchema_error (tupdesc : TupleDesc) (myData : format_t) (buf : List Byte)
    (n bufidx : Int) (a : Abort) (h : importSchema tupdesc myData buf n bufidx = .error a) :
    a.fromSchema = true ∧ myData.lineno = FIRST_LINE_NUM := by
  unfold importSchema at h
  split_ifs at h with hl
  refine ⟨?_, hl.symm⟩
  unfold verifyExternalTableDefinition at h
  split_ifs at h
  · simp only [Except.error.injEq] at h
    rw [← h]; rfl
  · split at h
    · rename_i e h1
      simp only [Except.error.injEq] at h
      rw [← h]; exact verifyLoop_error _ _ _ _ _ h1
    · split_ifs at h
      simp only [Except.error.injEq] at h
      rw [← h]; rfl

theorem byteArrayToBoolArrayLoop_error (data : List Byte) (attrs : TupleDesc) :
    ∀ (j k : Nat) (a : Abort), byteArrayToBoolArrayLoop data attrs j k = .error a →
      a = .outOfBuffer := by
  induction attrs with
  | nil => intro j k a h; simp [byteArrayToBoolArrayLoop] at h
  | cons attr attrs ih =>
    intro j k a h
    unfold byteArrayToBoolArrayLoop at h
    by_cases hd : attr.attisdropped = true
    · simp only [hd, if_true] at h
      split at h
      · simp at h
      · rename_i e h1
        simp only [Except.error.injEq] at h
        rw [← h]; exact ih _ _ _ h1
    · simp only [hd, Bool.false_eq_true, if_false] at h
      split at h
      · simp only [Except.error.injEq] at h
        exact h.symm
      · split at h
        · simp at h
        · rename_i e h1
          simp only [Except.error.injEq] at h
          rw [← h]
          split_ifs at h1 <;> exact ih _ _ _ h1

theorem importColumnLength_error (level : ErrLevel) (buf : List Byte) (tuplelen : Int)
    (attr : FormData_pg_attribute) (i : Nat) (bufidx : Int) (a : Abort)
    (h : importColumnLength level buf tuplelen attr i bufidx = .error a) :
    a.fromWalk = true := by
  unfold importColumnLength at h
  split_ifs at h
  split at h
  · rename_i e h1
    simp only [Except.error.injEq] at h
    rw [← h, readIntFromBuffer_error _ _ _ h1]; rfl
  · split_ifs at h
    simp only [Except.error.injEq] at h
    rw [← h]; cases level <;> rfl

theorem importColumnValue_error {Datum : Type} (io : IoFunctions Datum) (buf : List Byte)
    (attr : FormData_pg_attribute) (i : Nat) (outlen bufidx : Int) (a : Abort)
    (h : importColumnValue io buf attr i outlen bufidx = .error a) : a.fromWalk = true := by
  unfold importColumnValue at h
  split_ifs at h
  · simp only [Except.error.injEq] at h
    rw [← h]; rfl
  · split at h
    · rename_i e h1
      simp only [Except.error.injEq] at h
      rw [← h, readBytes_error _ _ _ _ h1]; rfl
    · split at h
      · simp only [Except.error.injEq] at h
        rw [← h]; rfl
      · simp at h
  · split at h
    · rename_i e h1
      simp only [Except.error.injEq] at h
      rw [← h, readCString_error _ _ _ h1]; rfl
    · split at h
      · simp only [Except.error.injEq] at h
        rw [← h]; rfl
      · simp at h

theorem importColumns_error {Datum : Type} (io : IoFunctions Datum) (level : ErrLevel)
    (buf : List Byte) (tuplelen tupleEndIdx : Int) (attrs : TupleDesc) :
    ∀ (nulls : List Bool) (i : Nat) (bufidx : Int) (a : Abort),
      importColumns io level buf tuplelen tupleEndIdx attrs nulls i bufidx = .error a →
      a.fromWalk = true := by
  induction attrs with
  | nil => intro nulls i bufidx a h; simp [importColumns] at h
  | cons attr attrs ih =>
    intro nulls i bufidx a h
    cases nulls with
    | nil => simp [importColumns] at h
    | cons nul nulls =>
      unfold importColumns at h
      split_ifs at h
      · split at h
        · rename_i e h1
          simp only [Except.error.injEq] at h
          rw [← h]; exact ih _ _ _ _ h1
        · simp at h
      · split at h
        · rename_i e h1
          simp only [Except.error.injEq] at h
          rw [← h]; exact importColumnLength_error _ _ _ _ _ _ _ h1
        · split at h
          · rename_i e h1
            simp only [Except.error.injEq] at h
            rw [← h]; exact importColumnValue_error _ _ _ _ _ _ _ h1
          · split_ifs at h
            · simp only [Except.error.injEq] at h
              rw [← h]; cases level <;> rfl
            · split at h
              · rename_i e h1
                simp only [Except.error.injEq] at h
                rw [← h]; exact ih _ _ _ _ h1
              · simp at h

theorem importWalk_error {Datum : Type} (io : IoFunctions Datum) (tupdesc : TupleDesc)
    (level : ErrLevel) (buf : List Byte) (data_cur tuplelen n bufidx1 : Int) (a : Abort)
    (h : importWalk io tupdesc level buf data_cur tuplelen n bufidx1 = .error a) :
    a.fromWalk = true := by
  unfold importWalk at h
  split at h
  · rename_i e h1
    simp only [Except.error.injEq] at h
    rw [← h, pointerAt_error _ _ _ h1]; rfl
  · split at h
    · rename_i e h1
      simp only [Except.error.injEq] at h
      unfold byteArrayToBoolArray at h1
      rw [← h, byteArrayToBoolArrayLoop_error _ _ _ _ _ h1]; rfl
    · exact importColumns_error _ _ _ _ _ _ _ _ _ _ h

theorem importBody_error {Datum : Type} (io : IoFunctions Datum) (tupdesc : TupleDesc)
    (myData : format_t) (buf : List Byte) (data_cur tuplelen n bufidx : Int) (a : Abort)
    (h : importBody io tupdesc myData buf data_cur tuplelen n bufidx = .error a) :
    (a.fromSchema = true ∧ myData.lineno = FIRST_LINE_NUM) ∨ a.fromWalk = true := by
  rw [importBody_eq] at h
  split at h
  · rename_i e h1
    simp only [Except.error.injEq] at h
    rw [← h]; exact Or.inl (importSchema_error _ _ _ _ _ _ h1)
  · split at h
    · rename_i e h1
      simp only [Except.error.injEq] at h
      rw [← h]; exact Or.inr (importWalk_error _ _ _ _ _ _ _ _ _ h1)
    · split_ifs at h
      simp only [Except.error.injEq] at h
      rw [← h]; exact Or.inr rfl



theorem ofAbort_ne_framing {Datum : Type} (a : Abort)
    (h : a.fromHeader = true ∨ a.fromSchema = true ∨ a.fromWalk = true) :
    (ImportResult.ofAbort a : ImportResult Datum) ≠ .needMoreData ∧
      ∀ level, (ImportResult.ofAbort a : ImportResult Datum) ≠ .error level .UnexpectedEOF := by
  cases a with
  | needMoreData => simp [Abort.fromHeader, Abort.fromSchema, Abort.fromWalk] at h
  | outOfBuffer => simp [ImportResult.ofAbort]
  | ereport level kind =>
    cases kind <;> cases level <;>
      simp [Abort.fromHeader, Abort.fromSchema, Abort.fromWalk, ImportResult.ofAbort] at h ⊢

/-- A fully buffered record is parsed: the result is neither the notification nor the
end of file error. -/
theorem import_framed_result {Datum : Type} (io : IoFunctions Datum) (tupdesc : TupleDesc)
    (myData : format_t) (fd : FormatterData) (tuplelen bufidx : Int)
    (hread : readIntFromBuffer fd.databuf fd.datacursor = .ok (tuplelen, bufidx))
    (hfull : tuplelen ≤ fd.databuf.length - fd.datacursor) :
    (gpdbwritableformatter_import io tupdesc myData fd).result ≠ .needMoreData ∧
      ∀ level, (gpdbwritableformatter_import io tupdesc myData fd).result ≠
        .error level .UnexpectedEOF := by
  rw [import_of_framed io tupdesc myData fd tuplelen bufidx hread hfull]
  split
  · rename_i e h1
    exact ofAbort_ne_framing e (Or.inl (importHeader_error _ _ _ h1))
  · split
    · rename_i e h1
      rcases importBody_error _ _ _ _ _ _ _ _ _ h1 with h2 | h2
      · exact ofAbort_ne_framing e (Or.inr (Or.inl h2.1))
      · exact ofAbort_ne_framing e (Or.inr (Or.inr h2))
    · exact ⟨by simp, by simp⟩

theorem readIntFromBuffer_total (buf : List Byte) (off : Int) (h0 : 0 ≤ off)
    (h : off + 4 ≤ buf.length) : ∃ v, readIntFromBuffer buf off = .ok (v, off + 4) := by
  unfold readIntFromBuffer readBytes
  rw [if_pos ⟨h0, by omega⟩]
  exact ⟨_, rfl⟩

/-- C12: framing decision. With `remaining = data_len - data_cur`: (i) with nothing
remaining at end of input the call returns the notification; (ii) otherwise, with fewer
than 4 bytes remaining, or with at least 4 but fewer than the declared length, it
returns the notification when the end of input has not been seen and raises the
unexpected end of file error when it has; (iii) in every other case the record is
parsed and the result is neither of the two. -/
theorem framing_decision {Datum : Type} (io : IoFunctions Datum) (tupdesc : TupleDesc)
    (myData : format_t) (fd : FormatterData) :
    ((fd.databuf.length : Int) - fd.datacursor = 0 → fd.saw_eof = true →
        (gpdbwritableformatter_import io tupdesc myData fd).result = .needMoreData) ∧
      (¬ ((fd.databuf.length : Int) - fd.datacursor = 0 ∧ fd.saw_eof = true) →
        (fd.databuf.length : Int) - fd.datacursor < 4 →
        (gpdbwritableformatter_import io tupdesc myData fd).result =
          if fd.saw_eof then .error .ERROR .UnexpectedEOF else .needMoreData) ∧
      (0 ≤ fd.datacursor → 4 ≤ (fd.databuf.length : Int) - fd.datacursor →
        ∃ tuplelen, readIntFromBuffer fd.databuf fd.datacursor =
          .ok (tuplelen, fd.datacursor + 4)) ∧
      (∀ tuplelen bufidx, readIntFromBuffer fd.databuf fd.datacursor = .ok (tuplelen, bufidx) →
        (fd.databuf.length : Int) - fd.datacursor < tuplelen →
        (gpdbwritableformatter_import io tupdesc myData fd).result =
          if fd.saw_eof then .error .ERROR .UnexpectedEOF else .needMoreData) ∧
      (∀ tuplelen bufidx, readIntFromBuffer fd.databuf fd.datacursor = .ok (tuplelen, bufidx) →
        tuplelen ≤ (fd.databuf.length : Int) - fd.datacursor →
        (gpdbwritableformatter_import io tupdesc myData fd).result ≠ .needMoreData ∧
          ∀ level, (gpdbwritableformatter_import io tupdesc myData fd).result ≠
            .error level .UnexpectedEOF) := by
  refine ⟨?_, ?_, ?_, ?_, ?_⟩
  · intro h0 heof
    unfold gpdbwritableformatter_import
    simp only [h0, heof, and_self, if_true]
  · intro hn h4
    unfold gpdbwritableformatter_import
    simp only [hn, if_false, h4, if_true]
    split_ifs <;> rfl
  · intro h0 h4
    exact readIntFromBuffer_total _ _ h0 (by omega)
  · intro tuplelen bufidx hread hlt
    have h1 := readIntFromBuffer_ok _ _ _ _ hread
    unfold gpdbwritableformatter_import
    simp only [hread, hlt, if_true]
    rw [if_neg (by omega), if_neg (by omega)]
    split_ifs <;> rfl
  · intro tuplelen bufidx hread hfull
    exact import_framed_result io tupdesc myData fd tuplelen bufidx hread hfull


theorem framing_decision_witness :
    readIntFromBuffer (unknownTagRecord.take 20) 0 = .ok (32, 4) ∧
      (((unknownTagRecord.take 20).length : Nat) : Int) - 0 < 32 ∧
      (gpdbwritableformatter_import scenarioIo scenarioDesc (initImportContext [])
          ⟨unknownTagRecord.take 20, 0, true, none⟩).result = .error .ERROR .UnexpectedEOF :=
  ⟨by decide, by decide,
    (framing_decision scenarioIo scenarioDesc (initImportContext [])
      ⟨unknownTagRecord.take 20, 0, true, none⟩).2.2.2.1 32 4 (by decide) (by decide)⟩

/-! ## Header of a record -/

theorem importHeader_of_version (buf : List Byte) (b v b1 : Int)
    (hver : readInt2FromBuffer buf b = .ok (v, b1)) :
    importHeader buf b =
      if toInt16 v ≠ GPDBWRITABLE_VERSION ∧ toInt16 v ≠ GPDBWRITABLE_PREV_VERSION then
        .error (.ereport .ERROR (.UnsupportedVersion (toInt16 v)))
      else
        match readErrorFlag (toInt16 v) buf b1 with
        | .error e => .error e
        | .ok (error_flag, bufidx2) =>
          if error_flag ≠ 0 then
            match readCString buf (bufidx2 + ERR_COL_OFFSET) with
            | .error e => .error e
            | .ok msg => .error (.ereport .ERROR (.RemoteErrorSignaled msg))
          else
            match readInt2FromBuffer buf bufidx2 with
            | .error e => .error e
            | .ok (n, bufidx3) => .ok (toInt16 n, bufidx3) := by
  unfold importHeader
  simp only [hver]
  try rfl

theorem readInt1FromBuffer_range (buf : List Byte) (off f b : Int)
    (h : readInt1FromBuffer buf off = .ok (f, b)) :
    0 ≤ off ∧ b = off + 1 ∧ 0 ≤ f ∧ f < 256 := by
  unfold readInt1FromBuffer readBytes at h
  split_ifs at h with hc
  simp only [Except.ok.injEq, Prod.mk.injEq] at h
  obtain ⟨hf, hb⟩ := h
  refine ⟨hc.1, hb.symm, ?_, ?_⟩
  · rw [← hf]
    cases hl : List.take 1 (List.drop off.toNat buf) with
    | nil => simp [beValue]
    | cons x xs =>
      have : xs = [] := by
        have h1 : (List.take 1 (List.drop off.toNat buf)).length ≤ 1 := by
          rw [List.length_take]; omega
        rw [hl] at h1
        simp only [List.length_cons] at h1
        exact List.length_eq_zero.mp (by omega)
      subst this
      simp only [beValue, List.length_nil, pow_zero, mul_one, add_zero]
      omega
  · rw [← hf]
    cases hl : List.take 1 (List.drop off.toNat buf) with
    | nil => simp [beValue]
    | cons x xs =>
      have : xs = [] := by
        have h1 : (List.take 1 (List.drop off.toNat buf)).length ≤ 1 := by
          rw [List.length_take]; omega
        rw [hl] at h1
        simp only [List.length_cons] at h1
        exact List.length_eq_zero.mp (by omega)
      subst this
      simp only [beValue, List.length_nil, pow_zero, mul_one, add_zero]
      have := x.isLt
      omega

theorem ofAbort_body_kind {Datum : Type} (a : Abort)
    (h : a.fromSchema = true ∨ a.fromWalk = true) :
    (∀ level x, (ImportResult.ofAbort a : ImportResult Datum) ≠
        .error level (.UnsupportedVersion x)) ∧
      ∀ level msg, (ImportResult.ofAbort a : ImportResult Datum) ≠
        .error level (.RemoteErrorSignaled msg) := by
  cases a with
  | needMoreData => simp [Abort.fromSchema, Abort.fromWalk] at h
  | outOfBuffer => simp [ImportResult.ofAbort]
  | ereport level kind =>
    cases kind <;> cases level <;>
      simp [Abort.fromSchema, Abort.fromWalk, ImportResult.ofAbort] at h ⊢

theorem importBody_error_kind {Datum : Type} (io : IoFunctions Datum) (tupdesc : TupleDesc)
    (myData : format_t) (buf : List Byte) (data_cur tuplelen n bufidx : Int) (a : Abort)
    (h : importBody io tupdesc myData buf data_cur tuplelen n bufidx = .error a) :
    a.fromSchema = true ∨ a.fromWalk = true := by
  rcases importBody_error _ _ _ _ _ _ _ _ _ h with h1 | h1
  · exact Or.inl h1.1
  · exact Or.inr h1

/-- C13: version acceptance. For a fully buffered record whose version field is
neither 2 nor 1 the call fails with the unsupported version error, before anything
behind the version field is read and with the stream state unchanged; when the version
field is 1 or 2 that error is never raised. -/
theorem version_acceptance {Datum : Type} (io : IoFunctions Datum) (tupdesc : TupleDesc)
    (myData : format_t) (fd : FormatterData) (tuplelen bufidx v bufidx1 : Int)
    (hread : readIntFromBuffer fd.databuf fd.datacursor = .ok (tuplelen, bufidx))
    (hfull : tuplelen ≤ fd.databuf.length - fd.datacursor)
    (hver : readInt2FromBuffer fd.databuf bufidx = .ok (v, bufidx1)) :
    (toInt16 v ≠ GPDBWRITABLE_VERSION → toInt16 v ≠ GPDBWRITABLE_PREV_VERSION →
        gpdbwritableformatter_import io tupdesc myData fd =
          ⟨.error .ERROR (.UnsupportedVersion (toInt16 v)), myData, fd.datacursor,
            some (fd.datacursor, tuplelen)⟩) ∧
      (toInt16 v = GPDBWRITABLE_VERSION ∨ toInt16 v = GPDBWRITABLE_PREV_VERSION →
        ∀ level x, (gpdbwritableformatter_import io tupdesc myData fd).result ≠
          .error level (.UnsupportedVersion x)) := by
  have hhdr := importHeader_of_version _ _ _ _ hver
  constructor
  · intro h2 h1
    rw [import_of_framed io tupdesc myData fd tuplelen bufidx hread hfull, hhdr,
      if_pos ⟨h2, h1⟩]
    rfl
  · intro hv level x
    rw [import_of_framed io tupdesc myData fd tuplelen bufidx hread hfull]
    split
    · rename_i e h1
      rw [hhdr, if_neg (by intro hc; rcases hv with hv | hv <;> simp [hv] at hc)] at h1
      split at h1
      · rename_i e1 h2
        simp only [Except.error.injEq] at h1
        rw [← h1, readErrorFlag_error _ _ _ _ h2]
        simp [ImportResult.ofAbort]
      · split_ifs at h1
        · split at h1
          · rename_i e1 h2
            simp only [Except.error.injEq] at h1
            rw [← h1, readCString_error _ _ _ h2]
            simp [ImportResult.ofAbort]
          · simp only [Except.error.injEq] at h1
            rw [← h1]
            simp [ImportResult.ofAbort]
        · split at h1
          · rename_i e1 h2
            simp only [Except.error.injEq] at h1
            rw [← h1, readInt2FromBuffer_error _ _ _ h2]
            simp [ImportResult.ofAbort]
          · simp at h1
    · split
      · rename_i e h1
        exact (ofAbort_body_kind e (importBody_error_kind _ _ _ _ _ _ _ _ _ h1)).1 level x
      · simp

/-- C15: remote error flag. For a fully buffered version-2 record whose error flag byte
is not zero the call fails with the remote error whose message is the C string that
starts `ERR_COL_OFFSET` bytes behind the flag byte, at record offset 16; the line
counter and the data cursor are unchanged, nothing behind the flag is parsed. For a
version-1 record no byte is read as error flag and this error is never raised. -/
theorem remote_error_flag {Datum : Type} (io : IoFunctions Datum) (tupdesc : TupleDesc)
    (myData : format_t) (fd : FormatterData) (tuplelen bufidx v bufidx1 : Int)
    (hread : readIntFromBuffer fd.databuf fd.datacursor = .ok (tuplelen, bufidx))
    (hfull : tuplelen ≤ fd.databuf.length - fd.datacursor)
    (hver : readInt2FromBuffer fd.databuf bufidx = .ok (v, bufidx1)) :
    (toInt16 v = GPDBWRITABLE_VERSION →
        ∀ f bufidx2 msg, readInt1FromBuffer fd.databuf bufidx1 = .ok (f, bufidx2) → f ≠ 0 →
          readCString fd.databuf (fd.datacursor + 16) = .ok msg →
          bufidx2 + ERR_COL_OFFSET = fd.datacursor + 16 ∧
            gpdbwritableformatter_import io tupdesc myData fd =
              ⟨.error .ERROR (.RemoteErrorSignaled msg), myData, fd.datacursor,
                some (fd.datacursor, tuplelen)⟩) ∧
      (toInt16 v = GPDBWRITABLE_PREV_VERSION →
        readErrorFlag (toInt16 v) fd.databuf bufidx1 = .ok (0, bufidx1) ∧
          ∀ level msg, (gpdbwritableformatter_import io tupdesc myData fd).result ≠
            .error level (.RemoteErrorSignaled msg)) := by
  have hhdr := importHeader_of_version _ _ _ _ hver
  have h1 := readIntFromBuffer_ok _ _ _ _ hread
  have h2 := readInt2FromBuffer_ok _ _ _ _ hver
  constructor
  · intro hv f bufidx2 msg hflag hf hmsg
    have h3 := readInt1FromBuffer_range _ _ _ _ hflag
    have hoff : bufidx2 + ERR_COL_OFFSET = fd.datacursor + 16 := by
      unfold ERR_COL_OFFSET; omega
    refine ⟨hoff, ?_⟩
    have h8 : toInt8 f ≠ 0 := by unfold toInt8; split_ifs <;> omega
    rw [import_of_framed io tupdesc myData fd tuplelen bufidx hread hfull, hhdr,
      if_neg (by intro hc; exact hc.1 hv)]
    simp only [readErrorFlag, hv, if_true, hflag, ne_eq, h8, not_false_eq_true, hoff, hmsg]
    rfl
  · intro hv
    have hflag : readErrorFlag (toInt16 v) fd.databuf bufidx1 = .ok (0, bufidx1) := by
      unfold readErrorFlag
      rw [if_neg (by rw [hv]; decide)]
    refine ⟨hflag, fun level msg => ?_⟩
    rw [import_of_framed io tupdesc myData fd tuplelen bufidx hread hfull]
    split
    · rename_i e h3
      rw [hhdr, if_neg (by intro hc; exact hc.2 hv), hflag] at h3
      simp only [ne_eq, not_true_eq_false, if_false] at h3
      split at h3
      · rename_i e1 h4
        simp only [Except.error.injEq] at h3
        rw [← h3, readInt2FromBuffer_error _ _ _ h4]
        simp [ImportResult.ofAbort]
      · simp at h3
    · split
      · rename_i e h3
        exact (ofAbort_body_kind e (importBody_error_kind _ _ _ _ _ _ _ _ _ h3)).2 level msg
      · simp

theorem version_acceptance_witness :
    readIntFromBuffer (unknownTagRecord.set 5 3) 0 = .ok (32, 4) ∧
      readInt2FromBuffer (unknownTagRecord.set 5 3) 4 = .ok (3, 6) ∧
      toInt16 3 ≠ GPDBWRITABLE_VERSION ∧ toInt16 3 ≠ GPDBWRITABLE_PREV_VERSION ∧
      gpdbwritableformatter_import scenarioIo scenarioDesc (initImportContext [])
          ⟨unknownTagRecord.set 5 3, 0, false, none⟩ =
        ⟨.error .ERROR (.UnsupportedVersion (toInt16 3)), initImportContext [], 0,
          some (0, 32)⟩ :=
  ⟨by decide, by decide, by decide, by decide,
    (version_acceptance scenarioIo scenarioDesc (initImportContext [])
      ⟨unknownTagRecord.set 5 3, 0, false, none⟩ 32 4 3 6 (by decide) (by decide)
      (by decide)).1 (by decide) (by decide)⟩

theorem remote_error_flag_witness :
    readIntFromBuffer remoteErrorRecord 0 = .ok (24, 4) ∧
      readInt2FromBuffer remoteErrorRecord 4 = .ok (2, 6) ∧
      readInt1FromBuffer remoteErrorRecord 6 = .ok (1, 7) ∧
      readCString remoteErrorRecord (0 + 16) = .ok [0x62, 0x61, 0x64] ∧
      gpdbwritableformatter_import scenarioIo scenarioDesc (initImportContext [])
          ⟨remoteErrorRecord, 0, false, none⟩ =
        ⟨.error .ERROR (.RemoteErrorSignaled [0x62, 0x61, 0x64]), initImportContext [], 0,
          some (0, 24)⟩ :=
  ⟨by decide, by decide, by decide, by decide,
    ((remote_error_flag scenarioIo scenarioDesc (initImportContext [])
      ⟨remoteErrorRecord, 0, false, none⟩ 24 4 2 6 (by decide) (by decide)
      (by decide)).1 (by decide) 1 7 [0x62, 0x61, 0x64] (by decide) (by decide)
      (by decide)).2⟩

/-! ## State left by a call -/

theorem import_needMoreData {Datum : Type} (io : IoFunctions Datum) (tupdesc : TupleDesc)
    (myData : format_t) (fd : FormatterData)
    (h : (gpdbwritableformatter_import io tupdesc myData fd).result = .needMoreData) :
    gpdbwritableformatter_import io tupdesc myData fd =
      ⟨.needMoreData, myData, fd.datacursor, fd.badrow⟩ := by
  by_cases h0 : (fd.databuf.length : Int) - fd.datacursor = 0 ∧ fd.saw_eof = true
  · unfold gpdbwritableformatter_import
    simp only [h0, and_self, if_true]
  · by_cases h4 : (fd.databuf.length : Int) - fd.datacursor < 4
    · unfold gpdbwritableformatter_import at h ⊢
      simp only [h0, if_false, h4, if_true] at h ⊢
      by_cases he : fd.saw_eof = true
      · simp [he] at h
      · simp only [he, Bool.false_eq_true, if_false]
    · cases hread : readIntFromBuffer fd.databuf fd.datacursor with
      | error e =>
        unfold gpdbwritableformatter_import at h
        simp only [h0, if_false, h4, hread, readIntFromBuffer_error _ _ _ hread] at h
        simp [ImportResult.ofAbort] at h
      | ok r =>
        obtain ⟨tuplelen, bufidx⟩ := r
        by_cases hlt : (fd.databuf.length : Int) - fd.datacursor < tuplelen
        · unfold gpdbwritableformatter_import at h ⊢
          simp only [h0, if_false, h4, hread, hlt, if_true] at h ⊢
          by_cases he : fd.saw_eof = true
          · simp [he] at h
          · simp only [he, Bool.false_eq_true, if_false]
        · exact absurd h (import_framed_result io tupdesc myData fd tuplelen bufidx hread
            (by omega)).1

/-- C18: the notification has no side effect. Whenever a call returns the
notification, the data cursor, the import context with its line counter and the bad row
data are what they were, so a next call from the same position on a buffer that
extends the same bytes is the call that would have been made without the earlier
one. -/
theorem need_more_data_leaves_state {Datum : Type} (io : IoFunctions Datum)
    (tupdesc : TupleDesc) (myData : format_t) (fd : FormatterData)
    (h : (gpdbwritableformatter_import io tupdesc myData fd).result = .needMoreData) :
    (gpdbwritableformatter_import io tupdesc myData fd).datacursor = fd.datacursor ∧
      (gpdbwritableformatter_import io tupdesc myData fd).myData = myData ∧
      (gpdbwritableformatter_import io tupdesc myData fd).badrow = fd.badrow ∧
      ∀ (more : List Byte) (saw_eof : Bool),
        gpdbwritableformatter_import io tupdesc
            (gpdbwritableformatter_import io tupdesc myData fd).myData
            ⟨fd.databuf ++ more, (gpdbwritableformatter_import io tupdesc myData fd).datacursor,
              saw_eof, (gpdbwritableformatter_import io tupdesc myData fd).badrow⟩ =
          gpdbwritableformatter_import io tupdesc myData
            ⟨fd.databuf ++ more, fd.datacursor, saw_eof, fd.badrow⟩ := by
  rw [import_needMoreData io tupdesc myData fd h]
  exact ⟨rfl, rfl, rfl, fun _ _ => rfl⟩

theorem need_more_data_leaves_state_witness :
    (gpdbwritableformatter_import scenarioIo scenarioDesc (initImportContext [])
        ⟨unknownTagRecord.take 20, 0, false, none⟩).result = .needMoreData ∧
      (gpdbwritableformatter_import scenarioIo scenarioDesc (initImportContext [])
        ⟨unknownTagRecord.take 20, 0, false, none⟩).myData = initImportContext [] :=
  ⟨by decide,
    (need_more_data_leaves_state scenarioIo scenarioDesc (initImportContext [])
      ⟨unknownTagRecord.take 20, 0, false, none⟩ (by decide)).2.1⟩

/-! ## End of a record -/

/-- C16: end of record consistency. For a fully buffered record that passes the header,
the schema step and the column loop, the call returns a tuple if and only if the final
`bufidx`, aligned to 8, is `data_cur + tuplelen`, and fails with the framing mismatch
otherwise; when it returns a tuple the data cursor is advanced by `tuplelen`. -/
theorem end_of_record_consistency {Datum : Type} (io : IoFunctions Datum)
    (tupdesc : TupleDesc) (myData : format_t) (fd : FormatterData)
    (tuplelen bufidx ncolumns_remote bufidx1 bufidx2 bufidx3 : Int) (vals : HeapTuple Datum)
    (hread : readIntFromBuffer fd.databuf fd.datacursor = .ok (tuplelen, bufidx))
    (hfull : tuplelen ≤ fd.databuf.length - fd.datacursor)
    (hhdr : importHeader fd.databuf bufidx = .ok (ncolumns_remote, bufidx1))
    (hschema : importSchema tupdesc myData fd.databuf ncolumns_remote bufidx1 = .ok bufidx2)
    (hwalk : importWalk io tupdesc myData.formatter_error_level fd.databuf fd.datacursor
      tuplelen ncolumns_remote bufidx2 = .ok (vals, bufidx3)) :
    ((∃ t, (gpdbwritableformatter_import io tupdesc myData fd).result = .tuple t) ↔
        DOUBLEALIGN bufidx3 = fd.datacursor + tuplelen) ∧
      (DOUBLEALIGN bufidx3 = fd.datacursor + tuplelen →
        (gpdbwritableformatter_import io tupdesc myData fd).result = .tuple vals ∧
          (gpdbwritableformatter_import io tupdesc myData fd).datacursor =
            fd.datacursor + tuplelen) ∧
      (DOUBLEALIGN bufidx3 ≠ fd.datacursor + tuplelen →
        (gpdbwritableformatter_import io tupdesc myData fd).result =
            .error .ERROR (.FramingMismatch tuplelen (DOUBLEALIGN bufidx3) fd.datacursor) ∧
          (gpdbwritableformatter_import io tupdesc myData fd).datacursor = fd.datacursor) := by
  have hbody : importBody io tupdesc myData fd.databuf fd.datacursor tuplelen ncolumns_remote
      bufidx1 =
      if fd.datacursor + tuplelen ≠ DOUBLEALIGN bufidx3 then
        .error (.ereport .ERROR (.FramingMismatch tuplelen (DOUBLEALIGN bufidx3) fd.datacursor))
      else .ok vals := by
    rw [importBody_eq]
    simp only [hschema, hwalk]
  have himp := import_of_framed io tupdesc myData fd tuplelen bufidx hread hfull
  simp only [hhdr, hbody] at himp
  by_cases hend : DOUBLEALIGN bufidx3 = fd.datacursor + tuplelen
  · have hne : ¬ (fd.datacursor + tuplelen ≠ DOUBLEALIGN bufidx3) := by
      intro hc; exact hc hend.symm
    simp only [hne, if_false] at himp
    rw [himp]
    exact ⟨⟨fun _ => hend, fun _ => ⟨vals, rfl⟩⟩, fun _ => ⟨rfl, rfl⟩, fun hc => absurd hend hc⟩
  · have hne : fd.datacursor + tuplelen ≠ DOUBLEALIGN bufidx3 := by
      intro hc; exact hend hc.symm
    simp only [hne, ne_eq, not_false_eq_true, if_true] at himp
    rw [himp]
    refine ⟨⟨?_, fun hc => absurd hc hend⟩, fun hc => absurd hc hend, fun _ => ⟨rfl, rfl⟩⟩
    rintro ⟨t, ht⟩
    simp [ImportResult.ofAbort] at ht

theorem end_of_record_consistency_witness :
    readIntFromBuffer unknownTagRecord 0 = .ok (32, 4) ∧
      importHeader unknownTagRecord 4 = .ok (3, 9) ∧
      importSchema scenarioDesc ⟨2, .ERROR⟩ unknownTagRecord 3 9 = .ok 12 ∧
      importWalk scenarioIo scenarioDesc ErrLevel.ERROR unknownTagRecord 0 32 3 12 =
        .ok (scenarioRow, 27) ∧
      DOUBLEALIGN 27 = 0 + 32 ∧
      (gpdbwritableformatter_import scenarioIo scenarioDesc ⟨2, .ERROR⟩
        ⟨unknownTagRecord, 0, false, none⟩).result = .tuple scenarioRow ∧
      (gpdbwritableformatter_import scenarioIo scenarioDesc ⟨2, .ERROR⟩
        ⟨unknownTagRecord, 0, false, none⟩).datacursor = 0 + 32 :=
  ⟨by decide, by decide, by decide, by decide, by decide,
    (end_of_record_consistency scenarioIo scenarioDesc ⟨2, .ERROR⟩
      ⟨unknownTagRecord, 0, false, none⟩ 32 4 3 9 12 27 scenarioRow (by decide) (by decide)
      (by decide) (by decide) (by decide)).2.1 (by decide)⟩

/-! ## Schema validation -/

theorem tagType_ok (t : Byte) (h : t.val ≤ 7) :
    getTypeOidFromJavaEnumOrdinal (toInt8 t.val) = .ok (tagType t) := by
  obtain ⟨ty, hty⟩ := (getTypeOid_ok_iff _).mpr ((toInt8_byte t).mpr h)
  unfold tagType
  rw [hty]

theorem readInt1FromBuffer_cons (pre rest : List Byte) (t : Byte) (off : Int)
    (hoff : off = pre.length) :
    readInt1FromBuffer (pre ++ (t :: rest)) off = .ok ((t.val : Int), off + 1) := by
  have := readBytes_append pre [t] rest off 1 hoff rfl
  unfold readInt1FromBuffer
  simp only [List.singleton_append] at this
  rw [this]
  simp [beValue]

theorem verifyLoop_tags (attrs : TupleDesc) :
    ∀ (tags pre post : List Byte) (bufidx : Int) (errMsg : List (String × Oid × Oid)),
      tags.length = attrs.countP (fun a => !a.attisdropped) → (∀ t ∈ tags, t.val ≤ 7) →
      bufidx = pre.length →
      verifyLoop (pre ++ (tags ++ post)) attrs bufidx errMsg =
        .ok (bufidx + (tags.length : Nat), errMsg ++ mismatchingColumns attrs tags) := by
  induction attrs with
  | nil =>
    intro tags pre post bufidx errMsg hlen _ _
    have : tags = [] := List.length_eq_zero.mp (by simpa using hlen)
    subst this
    simp [verifyLoop, mismatchingColumns]
  | cons attr attrs ih =>
    intro tags pre post bufidx errMsg hlen htags hpre
    by_cases hd : attr.attisdropped = true
    · have := ih tags pre post bufidx errMsg (by simpa [List.countP_cons, hd] using hlen)
        htags hpre
      simpa [verifyLoop, hd, mismatchingColumns, List.filter_cons] using this
    · simp only [Bool.not_eq_true] at hd
      cases tags with
      | nil => simp [List.countP_cons, hd] at hlen
      | cons t ts =>
        have ht : t.val ≤ 7 := htags t (List.mem_cons_self _ _)
        have hread := readInt1FromBuffer_cons pre (ts ++ post) t bufidx hpre
        have hty := tagType_ok t ht
        have hnext : ∀ e, verifyLoop (pre ++ (t :: (ts ++ post))) attrs (bufidx + 1) e =
            .ok (bufidx + 1 + (ts.length : Nat), e ++ mismatchingColumns attrs ts) := by
          intro e
          have := ih ts (pre ++ [t]) post (bufidx + 1) e
            (by simpa [List.countP_cons, hd] using hlen)
            (fun x hx => htags x (List.mem_cons_of_mem _ hx)) (by simp [hpre])
          simpa only [List.append_assoc, List.singleton_append] using this
        have hl : bufidx + 1 + ((ts.length : Nat) : Int) = bufidx + (((t :: ts).length : Nat) : Int) := by
          simp only [List.length_cons, Nat.cast_add, Nat.cast_one]; omega
        simp only [List.cons_append, verifyLoop, hd, Bool.false_eq_true, if_false, hread, hty]
        by_cases hm : ((isBinaryFormatType attr.atttypid || isBinaryFormatType (tagType t)) &&
            tagType t != attr.atttypid) = true
        · have hm1 : isMismatch attr.atttypid (tagType t) = true := hm
          simp only [hm, if_true, hnext, hl]
          simp [mismatchingColumns, List.filter_cons, hd, hm1]
        · have hm1 : isMismatch attr.atttypid (tagType t) = false := by
            simpa [isMismatch] using hm
          simp only [hm, Bool.false_eq_true, if_false, hnext, hl]
          simp [mismatchingColumns, List.filter_cons, hd, hm1]

/-- C11: schema validation rule. Given a remote column count equal to the number of
local attributes that are not dropped and tags that are all in 0..7,
`verifyExternalTableDefinition` raises the type mismatch error if and only if some
local attribute that is not dropped has a binary format type, or a remote binary format
type, and a remote type that differs from its type; the one error lists exactly these
columns, each once and in schema order, with name, local type and remote type. Without
such a column the check succeeds behind the tags. -/
theorem schema_validation_rule (tupdesc : TupleDesc) (tags pre post : List Byte) (bufidx : Int)
    (hcount : tags.length = tupdesc.countP (fun a => !a.attisdropped))
    (htags : ∀ t ∈ tags, t.val ≤ 7) (hpre : bufidx = pre.length) :
    verifyExternalTableDefinition (tags.length : Nat) (countValidColumns tupdesc) tupdesc
        (pre ++ (tags ++ post)) bufidx =
      (if mismatchingColumns tupdesc tags = [] then .ok (bufidx + (tags.length : Nat))
       else .error (.ereport .ERROR (.TypeMismatch (mismatchingColumns tupdesc tags)))) ∧
    ((∃ columns, verifyExternalTableDefinition (tags.length : Nat) (countValidColumns tupdesc)
        tupdesc (pre ++ (tags ++ post)) bufidx =
          .error (.ereport .ERROR (.TypeMismatch columns))) ↔
      ∃ p ∈ (tupdesc.filter (fun a => !a.attisdropped)).zip tags,
        (isBinaryFormatType p.1.atttypid = true ∨ isBinaryFormatType (tagType p.2) = true) ∧
          tagType p.2 ≠ p.1.atttypid) := by
  have hloop := verifyLoop_tags tupdesc tags pre post bufidx [] hcount htags hpre
  have hv : verifyExternalTableDefinition (tags.length : Nat) (countValidColumns tupdesc) tupdesc
      (pre ++ (tags ++ post)) bufidx =
      (if mismatchingColumns tupdesc tags = [] then .ok (bufidx + (tags.length : Nat))
       else .error (.ereport .ERROR (.TypeMismatch (mismatchingColumns tupdesc tags)))) := by
    unfold verifyExternalTableDefinition
    rw [if_neg (by rw [hcount]; simp [countValidColumns]), hloop]
    simp only [List.nil_append, ne_eq, ite_not]
  refine ⟨hv, ?_⟩
  rw [hv]
  constructor
  · rintro ⟨columns, hc⟩
    by_cases he : mismatchingColumns tupdesc tags = []
    · simp [he] at hc
    · obtain ⟨x, hx⟩ := List.exists_mem_of_ne_nil _ he
      simp only [mismatchingColumns, List.mem_map, List.mem_filter] at hx
      obtain ⟨p, ⟨hp, hm⟩, _⟩ := hx
      refine ⟨p, hp, ?_⟩
      simpa [isMismatch] using hm
  · rintro ⟨p, hp, hm⟩
    have hne : mismatchingColumns tupdesc tags ≠ [] := by
      apply List.ne_nil_of_mem (a := (p.1.attname, p.1.atttypid, tagType p.2))
      simp only [mismatchingColumns, List.mem_map, List.mem_filter]
      exact ⟨p, ⟨hp, by simpa [isMismatch] using hm⟩, rfl⟩
    exact ⟨_, by rw [if_neg hne]⟩

theorem schema_validation_rule_witness :
    [(3 : Byte), 0, 1].length = scenarioDesc.countP (fun a => !a.attisdropped) ∧
      (∀ t ∈ [(3 : Byte), 0, 1], t.val ≤ 7) ∧
      verifyExternalTableDefinition ([(3 : Byte), 0, 1].length : Nat)
          (countValidColumns scenarioDesc) scenarioDesc
          (mismatchRecord.take 9 ++ ([3, 0, 1] ++ mismatchRecord.drop 12)) 9 =
        .error (.ereport .ERROR (.TypeMismatch [("b", TEXTOID, INT8OID)])) :=
  have htags : ∀ t ∈ [(3 : Byte), 0, 1], t.val ≤ 7 := by
    intro t ht
    simp only [List.mem_cons, List.mem_singleton, List.not_mem_nil, or_false] at ht
    rcases ht with h | h | h <;> subst h <;> decide
  ⟨by decide, htags,
    (schema_validation_rule scenarioDesc [3, 0, 1] (mismatchRecord.take 9)
      (mismatchRecord.drop 12) 9 (by decide) htags (by decide)).1⟩

/-- The scenario of the specification: a remote int64 tag for the local text column `b`
makes the first record fail with the type mismatch that names `b`. -/
theorem type_mismatch_scenario :
    (gpdbwritableformatter_import scenarioIo scenarioDesc (initImportContext [])
        ⟨mismatchRecord, 0, false, none⟩).result =
      .error .ERROR (.TypeMismatch [("b", TEXTOID, INT8OID)]) := by
  decide

/-! ## The length guards of the column loop -/

theorem importColumns_append {Datum : Type} (io : IoFunctions Datum) (level : ErrLevel)
    (buf : List Byte) (tuplelen tupleEndIdx : Int) (pre : TupleDesc) :
    ∀ (npre : List Bool) (rest : TupleDesc) (nrest : List Bool) (i : Nat) (bufidx : Int),
      npre.length = pre.length →
      importColumns io level buf tuplelen tupleEndIdx (pre ++ rest) (npre ++ nrest) i bufidx =
        match importColumns io level buf tuplelen tupleEndIdx pre npre i bufidx with
        | .error e => .error e
        | .ok (vals, b) =>
          match importColumns io level buf tuplelen tupleEndIdx rest nrest (i + pre.length) b with
          | .error e => .error e
          | .ok (vals2, b2) => .ok (vals ++ vals2, b2) := by
  induction pre with
  | nil =>
    intro npre rest nrest i bufidx hlen
    have : npre = [] := List.length_eq_zero.mp (by simpa using hlen)
    subst this
    simp only [List.nil_append, importColumns, List.length_nil, Nat.add_zero]
    cases importColumns io level buf tuplelen tupleEndIdx rest nrest i bufidx with
    | error e => rfl
    | ok r => rfl
  | cons attr pre ih =>
    intro npre rest nrest i bufidx hlen
    cases npre with
    | nil => simp at hlen
    | cons nul npre =>
      have hlen1 : npre.length = pre.length := by simpa using hlen
      have hi : i + (attr :: pre).length = i + 1 + pre.length := by
        simp only [List.length_cons]; omega
      rw [List.cons_append, List.cons_append, hi]
      simp only [importColumns]
      by_cases hc : (attr.attisdropped || nul) = true
      · simp only [hc, if_true, ih npre rest nrest (i + 1) bufidx hlen1]
        cases importColumns io level buf tuplelen tupleEndIdx pre npre (i + 1) bufidx with
        | error e => rfl
        | ok r =>
          dsimp only
          cases importColumns io level buf tuplelen tupleEndIdx rest nrest (i + 1 + pre.length)
              r.2 with
          | error e => rfl
          | ok r2 => rfl
      · simp only [hc, Bool.false_eq_true, if_false]
        cases importColumnLength level buf tuplelen attr i bufidx with
        | error e => rfl
        | ok r =>
          dsimp only
          cases importColumnValue io buf attr i r.1 r.2 with
          | error e => rfl
          | ok v =>
            dsimp only
            by_cases hg : r.2 + r.1 > tupleEndIdx
            · simp only [hg, if_true]
            · simp only [hg, if_false, ih npre rest nrest (i + 1) (r.2 + r.1) hlen1]
              cases importColumns io level buf tuplelen tupleEndIdx pre npre (i + 1)
                  (r.2 + r.1) with
              | error e => rfl
              | ok r1 =>
                dsimp only
                cases importColumns io level buf tuplelen tupleEndIdx rest nrest
                    (i + 1 + pre.length) r1.2 with
                | error e => rfl
                | ok r2 => rfl

theorem importColumns_overlong {Datum : Type} (io : IoFunctions Datum) (level : ErrLevel)
    (buf : List Byte) (tuplelen tupleEndIdx : Int) (attr : FormData_pg_attribute)
    (attrs : TupleDesc) (nulls : List Bool) (i : Nat) (bufidx outlen bufidx1 : Int)
    (hd : attr.attisdropped = false) (hv : isVariableLength attr.atttypid = true)
    (hlen : readIntFromBuffer buf (INTALIGN bufidx) = .ok (outlen, bufidx1))
    (hover : tupleEndIdx - bufidx1 < outlen) :
    importColumns io level buf tuplelen tupleEndIdx (attr :: attrs) (false :: nulls) i bufidx =
      if tuplelen < outlen then .error (.ereport level (.LengthOverflow i))
      else
        match importColumnValue io buf attr i outlen bufidx1 with
        | .error e => .error e
        | .ok _ => .error (.ereport level (.LengthOverflow i)) := by
  simp only [importColumns, hd, Bool.or_self, Bool.false_eq_true, if_false, importColumnLength,
    hv, if_true, hlen, gt_iff_lt]
  by_cases hg : tuplelen < outlen
  · simp only [hg, if_true]
  · simp only [hg, if_false]
    cases importColumnValue io buf attr i outlen bufidx1 with
    | error e => rfl
    | ok v =>
      dsimp only
      rw [if_pos (by omega)]

theorem parse_params_level (args : List (String × String)) :
    ∀ myData : format_t,
      (parse_params args myData).formatter_error_level =
        if ("dump_core_on_error", "1") ∈ args then .PANIC else myData.formatter_error_level := by
  induction args with
  | nil => intro myData; simp [parse_params]
  | cons kv args ih =>
    intro myData
    have hstep : parse_params (kv :: args) myData =
        parse_params args (if kv.1 = "dump_core_on_error" ∧ kv.2 = "1" then
          { myData with formatter_error_level := .PANIC } else myData) := by
      simp [parse_params, List.foldl_cons]
    rw [hstep, ih]
    by_cases hk : kv.1 = "dump_core_on_error" ∧ kv.2 = "1"
    · have hkv : kv = ("dump_core_on_error", "1") := Prod.ext hk.1 hk.2
      simp [hkv]
    · have hkv : ("dump_core_on_error", "1") ≠ kv := by
        intro hc; rw [← hc] at hk; simp at hk
      simp only [hk, if_false, List.mem_cons, hkv, false_or]

theorem import_keeps_level {Datum : Type} (io : IoFunctions Datum) (tupdesc : TupleDesc)
    (myData : format_t) (fd : FormatterData) :
    (gpdbwritableformatter_import io tupdesc myData fd).myData.formatter_error_level =
      myData.formatter_error_level := by
  unfold gpdbwritableformatter_import
  dsimp only
  split_ifs <;> try rfl
  all_goals
    split
    · rfl
    · split_ifs <;> try rfl
      all_goals
        split
        · rfl
        · split <;> rfl

/-- C17 as stated fails: the column of `numericDesc` declares 16 bytes where 8 remain,
and the input function rejects the string at its position: the call stops with the
error of the input function, at level ERROR, although the stream is configured with
`dump_core_on_error = 1`; the length error of the column is not raised. -/
theorem overlong_column_conversion_error :
    readIntFromBuffer overlongRecord 12 = .ok (16, 16) ∧
      (24 : Int) - 16 < 16 ∧
      (initImportContext [("dump_core_on_error", "1")]).formatter_error_level = .PANIC ∧
      (gpdbwritableformatter_import digitsIo numericDesc
          (initImportContext [("dump_core_on_error", "1")])
          ⟨overlongRecord, 0, false, none⟩).result = .error .ERROR (.ConversionFailed 0) := by
  decide

/-- C17 amended: in a fully buffered record whose walk reaches a variable length
column that is neither dropped nor null, let the length prefix declare more bytes than
remain in the record behind the prefix. Then the call returns no row. If the declared
length exceeds the length of the whole record, or if the conversion callback returns,
the call raises the length error for that column at the level of the import context; if
the declared length is at most the record length and the conversion stops, the call
stops the way the conversion does. The call leaves the level unchanged, and a stream
starts at level PANIC exactly when its arguments hold `dump_core_on_error = 1`, at level
ERROR otherwise. -/
theorem length_overflow_guard {Datum : Type} (io : IoFunctions Datum)
    (pre post : TupleDesc) (attr : FormData_pg_attribute) (myData : format_t) (fd : FormatterData)
    (tuplelen bufidx ncolumns_remote bufidx1 bufidx2 : Int) (nullByteArray : List Byte)
    (npre npost : List Bool) (vals : List (Option Datum)) (bufidx3 outlen bufidx4 : Int)
    (hread : readIntFromBuffer fd.databuf fd.datacursor = .ok (tuplelen, bufidx))
    (hfull : tuplelen ≤ fd.databuf.length - fd.datacursor)
    (hhdr : importHeader fd.databuf bufidx = .ok (ncolumns_remote, bufidx1))
    (hschema : importSchema (pre ++ attr :: post) myData fd.databuf ncolumns_remote bufidx1 =
      .ok bufidx2)
    (hptr : pointerAt fd.databuf bufidx2 = .ok nullByteArray)
    (hnulls : byteArrayToBoolArray nullByteArray (pre ++ attr :: post) =
      .ok (npre ++ false :: npost))
    (hnpre : npre.length = pre.length)
    (hpre : importColumns io myData.formatter_error_level fd.databuf tuplelen
      (fd.datacursor + tuplelen) pre npre 0 (bufidx2 + getNullByteArraySize ncolumns_remote) =
        .ok (vals, bufidx3))
    (hd : attr.attisdropped = false) (hv : isVariableLength attr.atttypid = true)
    (hlen : readIntFromBuffer fd.databuf (INTALIGN bufidx3) = .ok (outlen, bufidx4))
    (hover : fd.datacursor + tuplelen - bufidx4 < outlen) :
    (∀ t, (gpdbwritableformatter_import io (pre ++ attr :: post) myData fd).result ≠ .tuple t) ∧
      (tuplelen < outlen →
        (gpdbwritableformatter_import io (pre ++ attr :: post) myData fd).result =
          .error myData.formatter_error_level (.LengthOverflow pre.length)) ∧
      (∀ v, importColumnValue io fd.databuf attr pre.length outlen bufidx4 = .ok v →
        (gpdbwritableformatter_import io (pre ++ attr :: post) myData fd).result =
          .error myData.formatter_error_level (.LengthOverflow pre.length)) ∧
      (∀ e, outlen ≤ tuplelen →
        importColumnValue io fd.databuf attr pre.length outlen bufidx4 = .error e →
        (gpdbwritableformatter_import io (pre ++ attr :: post) myData fd).result =
          ImportResult.ofAbort e) ∧
      (gpdbwritableformatter_import io (pre ++ attr :: post) myData fd).myData.formatter_error_level =
        myData.formatter_error_level ∧
      ∀ args : List (String × String),
        (initImportContext args).formatter_error_level =
          if ("dump_core_on_error", "1") ∈ args then .PANIC else .ERROR := by
  have hwalk : importColumns io myData.formatter_error_level fd.databuf tuplelen
      (fd.datacursor + tuplelen) (pre ++ attr :: post) (npre ++ false :: npost) 0
      (bufidx2 + getNullByteArraySize ncolumns_remote) =
        if tuplelen < outlen then
          .error (.ereport myData.formatter_error_level (.LengthOverflow pre.length))
        else
          match importColumnValue io fd.databuf attr pre.length outlen bufidx4 with
          | .error e => .error e
          | .ok _ => .error (.ereport myData.formatter_error_level (.LengthOverflow pre.length)) := by
    rw [importColumns_append io _ _ _ _ pre npre (attr :: post) (false :: npost) 0 _ hnpre, hpre]
    dsimp only
    rw [Nat.zero_add, importColumns_overlong io myData.formatter_error_level fd.databuf tuplelen
      (fd.datacursor + tuplelen) attr post npost pre.length bufidx3 outlen bufidx4 hd hv hlen hover]
    by_cases hg : tuplelen < outlen
    · simp only [hg, if_true]
    · simp only [hg, if_false]
      cases importColumnValue io fd.databuf attr pre.length outlen bufidx4 with
      | error e => rfl
      | ok v => rfl
  have hbody : importBody io (pre ++ attr :: post) myData fd.databuf fd.datacursor tuplelen
      ncolumns_remote bufidx1 =
        if tuplelen < outlen then
          .error (.ereport myData.formatter_error_level (.LengthOverflow pre.length))
        else
          match importColumnValue io fd.databuf attr pre.length outlen bufidx4 with
          | .error e => .error e
          | .ok _ => .error (.ereport myData.formatter_error_level (.LengthOverflow pre.length)) := by
    rw [importBody_eq, hschema]
    dsimp only
    unfold importWalk
    rw [hptr]
    dsimp only
    rw [hnulls]
    dsimp only
    rw [hwalk]
    by_cases hg : tuplelen < outlen
    · simp only [hg, if_true]
    · simp only [hg, if_false]
      cases importColumnValue io fd.databuf attr pre.length outlen bufidx4 with
      | error e => rfl
      | ok v => rfl
  have himp := import_of_framed io (pre ++ attr :: post) myData fd tuplelen bufidx hread hfull
  rw [hhdr] at himp
  dsimp only at himp
  rw [hbody] at himp
  refine ⟨?_, ?_, ?_, ?_, import_keeps_level io _ myData fd, ?_⟩
  · intro t
    rw [himp]
    by_cases hg : tuplelen < outlen
    · simp only [hg, if_true]
      intro hc; cases hc
    · simp only [hg, if_false]
      cases importColumnValue io fd.databuf attr pre.length outlen bufidx4 with
      | error e =>
        dsimp only
        cases e <;> (intro hc; cases hc)
      | ok v =>
        dsimp only
        intro hc; cases hc
  · intro hg
    rw [himp]
    simp only [hg, if_true]
    rfl
  · intro v hval
    rw [himp, hval]
    by_cases hg : tuplelen < outlen
    · simp only [hg, if_true]
      rfl
    · simp only [hg, if_false]
      rfl
  · intro e hg hval
    rw [himp, hval, if_neg (by omega)]
  · intro args
    unfold initImportContext
    rw [parse_params_level]

theorem length_overflow_guard_witness :
    (gpdbwritableformatter_import digitsIo ([] ++ (⟨"n", 1700, -1, 'i', false⟩ :: []))
        (initImportContext [("dump_core_on_error", "1")])
        ⟨overlongRecord.set 18 0x33, 0, false, none⟩).result =
      .error (initImportContext [("dump_core_on_error", "1")]).formatter_error_level
        (.LengthOverflow ([] : TupleDesc).length) :=
  (length_overflow_guard digitsIo [] [] ⟨"n", 1700, -1, 'i', false⟩
    (initImportContext [("dump_core_on_error", "1")]) ⟨overlongRecord.set 18 0x33, 0, false, none⟩
    24 4 1 9 10 ((overlongRecord.set 18 0x33).drop 10) [] [] [] 11 16 16
    (by decide) (by decide) (by decide) (by decide) (by decide) (by decide) (by decide)
    (by decide) (by decide) (by decide) (by decide) (by decide)).2.2.1
    (.text [0x31, 0x32, 0x33]) (by decide)

/-! ## Decoding a laid out record -/

theorem importColumn_layout {Datum : Type} (io : IoFunctions Datum) (level : ErrLevel)
    (a : FormData_pg_attribute) (v : Datum) (pre rest : List Byte) (d tuplelen : Int) (i : Nat)
    (hd : a.attisdropped = false) (hcol : fixedWidthSent io a (some v))
    (hpre : d = pre.length) (hfit : (measureColumn io a (some v) d).2 ≤ tuplelen)
    (hint : tuplelen < 2147483648) :
    ∃ outlen bufidx1,
      importColumnLength level
          (pre ++ (columnChunk a (some v) (measureColumn io a (some v) d).1 ++ rest))
          tuplelen a i d = .ok (outlen, bufidx1) ∧
        importColumnValue io
          (pre ++ (columnChunk a (some v) (measureColumn io a (some v) d).1 ++ rest))
          a i outlen bufidx1 = decodeColumn io a i v ∧
        bufidx1 + outlen = (measureColumn io a (some v) d).2 := by
  obtain ⟨pad, hchunk, halign, hpad, hm⟩ := columnChunk_some io a v d hd
  rw [hchunk]
  rw [hm] at hfit
  by_cases hv : isVariableLength a.atttypid = true
  · simp only [hv, if_true] at hm hfit ⊢
    simp only [columnAlign, hv, if_true] at halign hpad
    have hia := intalign_unique d pad halign hpad
    have hbuf1 : pre ++ ((List.replicate pad 0 ++
        (htonl ((columnPayload io a v).length : Nat) ++ columnPayload io a v)) ++ rest) =
        (pre ++ List.replicate pad 0) ++ (htonl ((columnPayload io a v).length : Nat) ++
          (columnPayload io a v ++ rest)) := by simp
    have hread := readIntFromBuffer_append (pre ++ List.replicate pad 0)
      (columnPayload io a v ++ rest) (d + pad) ((columnPayload io a v).length : Nat)
      (by simp [hpre]) (by omega) (by omega)
    refine ⟨((columnPayload io a v).length : Nat), d + pad + 4, ?_, ?_, by omega⟩
    · simp only [importColumnLength, hv, if_true, hia, hbuf1, hread]
      rw [if_neg (by omega)]
    · by_cases hb : isBinaryFormatType a.atttypid = true
      · have hbuf2 : pre ++ ((List.replicate pad 0 ++
            (htonl ((columnPayload io a v).length : Nat) ++ columnPayload io a v)) ++ rest) =
            (pre ++ List.replicate pad 0 ++ htonl ((columnPayload io a v).length : Nat)) ++
              (columnPayload io a v ++ rest) := by simp
        have hrb := readBytes_append
          (pre ++ List.replicate pad 0 ++ htonl ((columnPayload io a v).length : Nat))
          (columnPayload io a v) rest (d + pad + 4) (columnPayload io a v).length
          (by simp [hpre, htonl]; omega) rfl
        simp only [importColumnValue, decodeColumn, hb, if_true, hbuf2, Int.toNat_ofNat, hrb]
        rw [if_neg (by omega)]
        simp only [columnPayload, hb, if_true]
      · have hbuf2 : pre ++ ((List.replicate pad 0 ++
            (htonl ((columnPayload io a v).length : Nat) ++ columnPayload io a v)) ++ rest) =
            (pre ++ List.replicate pad 0 ++ htonl ((columnPayload io a v).length : Nat)) ++
              ((cstring (io.OutputFunctionCall a v) ++ [0]) ++ rest) := by
          simp [columnPayload, hb]
        have hrc := readCString_append
          (pre ++ List.replicate pad 0 ++ htonl ((columnPayload io a v).length : Nat))
          (io.OutputFunctionCall a v) rest (d + pad + 4) (by simp [hpre, htonl]; omega)
        simp only [importColumnValue, decodeColumn, hb, Bool.false_eq_true, if_false, hbuf2, hrc]
  · simp only [hv, Bool.false_eq_true, if_false] at hm hfit ⊢
    simp only [columnAlign, hv, Bool.false_eq_true, if_false] at halign hpad
    have hia := align_unique d pad a.attalign halign hpad
    have hb : isBinaryFormatType a.atttypid = true := by
      simp only [isVariableLength, Bool.or_eq_true, Bool.not_eq_true', not_or,
        Bool.not_eq_false] at hv
      exact hv.2
    have hlen := hcol hd (by simpa using hv)
    have hpl : columnPayload io a v = io.SendFunctionCall a v := by simp [columnPayload, hb]
    have hbuf2 : pre ++ ((List.replicate pad 0 ++ ([] ++ columnPayload io a v)) ++ rest) =
        (pre ++ List.replicate pad 0) ++ (columnPayload io a v ++ rest) := by simp
    have hrb := readBytes_append (pre ++ List.replicate pad 0)
      (columnPayload io a v) rest (d + pad) (columnPayload io a v).length
      (by simp [hpre]) rfl
    refine ⟨a.attlen, d + pad, ?_, ?_, ?_⟩
    · simp only [importColumnLength, hv, Bool.false_eq_true, if_false, hia]
    · simp only [importColumnValue, decodeColumn, hb, if_true, hbuf2]
      rw [if_neg (by omega)]
      have : a.attlen.toNat = (columnPayload io a v).length := by rw [hpl]; omega
      rw [this, hrb]
      simp only [hpl]
    · rw [hm, hpl]; omega

theorem importColumns_layout {Datum : Type} (io : IoFunctions Datum) (level : ErrLevel)
    (attrs : TupleDesc) :
    ∀ (vals : List (Option Datum)) (pre post : List Byte) (d tuplelen tupleEndIdx : Int) (i : Nat),
      List.Forall₂ (fixedWidthSent io) attrs vals → d = pre.length →
      (measureColumns io attrs vals d).2 ≤ tupleEndIdx → tupleEndIdx ≤ tuplelen →
      tuplelen < 2147483648 →
      importColumns io level
          (pre ++ ((columnChunks attrs vals (measureColumns io attrs vals d).1).flatten ++ post))
          tuplelen tupleEndIdx attrs
          (List.zipWith (fun a n => a.attisdropped || n) attrs (vals.map Option.isNone)) i d =
        match decodeColumns io attrs vals i with
        | .error e => .error e
        | .ok ws => .ok (ws, (measureColumns io attrs vals d).2) := by
  induction attrs with
  | nil =>
    intro vals pre post d tuplelen tupleEndIdx i h
    cases h
    intros
    simp [importColumns, measureColumns, decodeColumns]
  | cons a attrs ih =>
    intro vals pre post d tuplelen tupleEndIdx i h hpre hfit hend hint
    cases h with
    | cons hcol htail =>
      rename_i val vals
      by_cases hd : a.attisdropped = true
      · have := ih vals pre post d tuplelen tupleEndIdx (i + 1) htail hpre
          (by simpa [measureColumns, hd] using hfit) hend hint
        simp only [measureColumns, hd, if_true, columnChunks, columnChunk, Bool.not_true,
          Bool.false_and, Bool.false_eq_true, if_false, List.flatten_cons, List.nil_append,
          List.map_cons, List.zipWith_cons_cons, Bool.true_or, importColumns, decodeColumns, this]
        cases decodeColumns io attrs vals (i + 1) with
        | error e => rfl
        | ok ws => rfl
      · simp only [Bool.not_eq_true] at hd
        cases val with
        | none =>
          have := ih vals pre post d tuplelen tupleEndIdx (i + 1) htail hpre
            (by simpa [measureColumns, hd, measureColumn] using hfit) hend hint
          simp only [measureColumns, hd, Bool.false_eq_true, if_false, measureColumn, Int.add_zero,
            columnChunks, columnChunk, Option.isNone_none, Bool.not_true, Bool.and_false,
            List.flatten_cons, List.nil_append, List.map_cons, List.zipWith_cons_cons,
            Bool.or_true, importColumns, decodeColumns, if_true, this]
          cases decodeColumns io attrs vals (i + 1) with
          | error e => rfl
          | ok ws => rfl
        | some v =>
          have hmono := measureColumns_mono io attrs vals (measureColumn io a (some v) d).2
          have hfit1 : (measureColumns io attrs vals (measureColumn io a (some v) d).2).2 ≤
              tupleEndIdx := by simpa [measureColumns, hd] using hfit
          obtain ⟨outlen, bufidx1, h1, h2, h3⟩ := importColumn_layout io level a v pre
            ((columnChunks attrs vals
              (measureColumns io attrs vals (measureColumn io a (some v) d).2).1).flatten ++ post)
            d tuplelen i hd hcol hpre (by omega) hint
          have hlen := columnChunk_length io a (some v) d hd
          have := ih vals (pre ++ columnChunk a (some v) (measureColumn io a (some v) d).1) post
            (measureColumn io a (some v) d).2 tuplelen tupleEndIdx (i + 1) htail
            (by simp only [List.length_append, Nat.cast_add]; omega) hfit1 hend hint
          simp only [List.append_assoc] at this
          simp only [measureColumns, hd, Bool.false_eq_true, if_false, columnChunks,
            List.flatten_cons, List.append_assoc, List.map_cons, List.zipWith_cons_cons,
            Option.isNone_some, Bool.or_self, importColumns, decodeColumns, h1, h2, h3]
          cases decodeColumn io a i v with
          | error e => rfl
          | ok w =>
            dsimp only
            rw [if_neg (by omega), this]
            cases decodeColumns io attrs vals (i + 1) with
            | error e => rfl
            | ok ws => rfl

theorem importHeader_legacy (len n : Int) (rest : List Byte) (h0 : 0 ≤ n) (hn : n ≤ 32767) :
    importHeader (htonl len ++ (htons GPDBWRITABLE_PREV_VERSION ++ (htons n ++ rest))) 4 =
      .ok (n, 8) := by
  have h1 := readInt2FromBuffer_append (htonl len) (htons n ++ rest) 4
    GPDBWRITABLE_PREV_VERSION (by simp [htonl]) (by decide) (by decide)
  have h3 := readInt2FromBuffer_append (htonl len ++ htons GPDBWRITABLE_PREV_VERSION)
    rest 6 n (by simp [htonl, htons]) h0 (by omega)
  simp only [List.append_assoc] at h1 h3
  have e1 : toInt16 GPDBWRITABLE_PREV_VERSION = GPDBWRITABLE_PREV_VERSION := by decide
  have e3 : toInt16 n = n := by unfold toInt16; split_ifs <;> omega
  have e4 : (4 : Int) + 2 = 6 := by decide
  have e6 : (6 : Int) + 2 = 8 := by decide
  have e7 : ¬ (GPDBWRITABLE_PREV_VERSION = GPDBWRITABLE_VERSION) := by decide
  simp only [importHeader, h1, e1, e4, readErrorFlag, e7, if_false, h3, e3, e6, ne_eq,
    not_true_eq_false, and_false, if_false]

/-- The result of decoding a record laid out for a header of `h` bytes whose bytes
between the length field and the column count are `ver`. The type tags `tags` are those
of the schema when the call is the first one and any bytes of that number otherwise. -/
theorem import_of_layout {Datum : Type} (io : IoFunctions Datum) (tupdesc : TupleDesc)
    (vals : List (Option Datum)) (myData : format_t) (saw_eof : Bool)
    (badrow : Option (Int × Int)) (ver tags : List Byte) (h d len pad : Int)
    (hrow : List.Forall₂ (fixedWidthSent io) tupdesc vals)
    (htl : ((tags.length : Nat) : Int) = countValidColumns tupdesc)
    (hfirst : FIRST_LINE_NUM = myData.lineno → tags = tagBytes tupdesc)
    (hh : h = 4 + ver.length + 2)
    (hhdr : ∀ rest, importHeader
      (htonl len ++ (ver ++ (htons (countValidColumns tupdesc) ++ rest))) 4 =
        .ok (countValidColumns tupdesc, h))
    (hd : d = h + countValidColumns tupdesc + getNullByteArraySize (countValidColumns tupdesc))
    (hlen : len = DOUBLEALIGN (measureColumns io tupdesc vals d).2)
    (hpad : pad = len - (measureColumns io tupdesc vals d).2)
    (hint : len < 2147483648) :
    (gpdbwritableformatter_import io tupdesc myData
        ⟨htonl len ++ (ver ++ (htons (countValidColumns tupdesc) ++ (tags ++
          (boolArrayToByteArray (vals.map Option.isNone) (countValidColumns tupdesc) tupdesc ++
            ((columnChunks tupdesc vals (measureColumns io tupdesc vals d).1).flatten ++
              List.replicate pad.toNat 0))))), 0, saw_eof, badrow⟩).result =
      match decodeColumns io tupdesc vals 0 with
      | .error e => ImportResult.ofAbort e
      | .ok ws => .tuple ws := by
  have hvals : vals.length = tupdesc.length := hrow.length_eq.symm
  have hn0 := countValidColumns_nonneg tupdesc
  have hDA := DOUBLEALIGN_bounds (measureColumns io tupdesc vals d).2
  have hmono := measureColumns_mono io tupdesc vals d
  have hnb : (((boolArrayToByteArray (vals.map Option.isNone) (countValidColumns tupdesc)
      tupdesc).length : Nat) : Int) = getNullByteArraySize (countValidColumns tupdesc) := by
    rw [(boolArrayToByteArray_spec tupdesc _).1]
    unfold countValidColumns
    rw [getNullByteArraySize_nat]
  have hcl := columnChunks_length io tupdesc vals d
  generalize hN : boolArrayToByteArray (vals.map Option.isNone) (countValidColumns tupdesc)
    tupdesc = nullBits at hnb
  generalize hC : (columnChunks tupdesc vals (measureColumns io tupdesc vals d).1).flatten =
    chunks at hcl
  have hRlen : (((htonl len ++ (ver ++ (htons (countValidColumns tupdesc) ++ (tags ++
      (nullBits ++ (chunks ++ List.replicate pad.toNat 0)))))).length : Nat) : Int) = len := by
    simp only [List.length_append, htonl, htons, List.length_cons, List.length_nil,
      List.length_replicate, Nat.cast_add]
    omega
  have hread : readIntFromBuffer (htonl len ++ (ver ++ (htons (countValidColumns tupdesc) ++
      (tags ++ (nullBits ++ (chunks ++ List.replicate pad.toNat 0)))))) 0 =
      .ok (len, 4) := by
    have := readIntFromBuffer_append [] (ver ++ (htons (countValidColumns tupdesc) ++
      (tags ++ (nullBits ++ (chunks ++ List.replicate pad.toNat 0))))) 0 len rfl
      (by omega) hint
    simpa using this
  have himp := import_of_framed io tupdesc myData
    ⟨htonl len ++ (ver ++ (htons (countValidColumns tupdesc) ++ (tags ++
      (nullBits ++ (chunks ++ List.replicate pad.toNat 0))))), 0, saw_eof, badrow⟩ len 4 hread
    (by dsimp only; omega)
  rw [himp]
  dsimp only
  rw [hhdr]
  dsimp only
  have hschema : importSchema tupdesc myData
      (htonl len ++ (ver ++ (htons (countValidColumns tupdesc) ++ (tags ++
        (nullBits ++ (chunks ++ List.replicate pad.toNat 0))))))
      (countValidColumns tupdesc) h = .ok (h + countValidColumns tupdesc) := by
    unfold importSchema
    split_ifs with hline
    · rw [hfirst hline]
      have := verifyLoop_tagBytes tupdesc
        (htonl len ++ (ver ++ htons (countValidColumns tupdesc)))
        (nullBits ++ (chunks ++ List.replicate pad.toNat 0)) h []
        (by simp only [List.length_append, htonl, htons, List.length_cons, List.length_nil,
              Nat.cast_add]; omega)
      simp only [List.append_assoc] at this
      simp [verifyExternalTableDefinition, this]
    · rfl
  have hptr : pointerAt
      (htonl len ++ (ver ++ (htons (countValidColumns tupdesc) ++ (tags ++
        (nullBits ++ (chunks ++ List.replicate pad.toNat 0))))))
      (h + countValidColumns tupdesc) =
      .ok (nullBits ++ (chunks ++ List.replicate pad.toNat 0)) := by
    unfold pointerAt
    rw [if_pos (by omega)]
    have e : htonl len ++ (ver ++ (htons (countValidColumns tupdesc) ++ (tags ++
        (nullBits ++ (chunks ++ List.replicate pad.toNat 0))))) =
        (htonl len ++ (ver ++ (htons (countValidColumns tupdesc) ++ tags))) ++
          (nullBits ++ (chunks ++ List.replicate pad.toNat 0)) := by simp
    rw [e, List.drop_left']
    simp only [List.length_append, htonl, htons, List.length_cons, List.length_nil]
    omega
  have hbits : byteArrayToBoolArray (nullBits ++ (chunks ++ List.replicate pad.toNat 0))
      tupdesc =
      .ok (List.zipWith (fun a n => a.attisdropped || n) tupdesc (vals.map Option.isNone)) := by
    rw [← hN]
    exact byteArrayToBoolArray_roundtrip tupdesc (vals.map Option.isNone) _
      (by rw [List.length_map]; exact hvals)
  have hcols : importColumns io myData.formatter_error_level
      (htonl len ++ (ver ++ (htons (countValidColumns tupdesc) ++ (tags ++
        (nullBits ++ (chunks ++ List.replicate pad.toNat 0))))))
      len (0 + len) tupdesc
      (List.zipWith (fun a n => a.attisdropped || n) tupdesc (vals.map Option.isNone)) 0
      (h + countValidColumns tupdesc + getNullByteArraySize (countValidColumns tupdesc)) =
      match decodeColumns io tupdesc vals 0 with
      | .error e => .error e
      | .ok ws => .ok (ws, (measureColumns io tupdesc vals d).2) := by
    have := importColumns_layout io myData.formatter_error_level tupdesc vals
      (htonl len ++ (ver ++ (htons (countValidColumns tupdesc) ++ (tags ++
        nullBits)))) (List.replicate pad.toNat 0) d len (0 + len) 0 hrow
      (by simp only [List.length_append, htonl, htons, List.length_cons, List.length_nil,
            Nat.cast_add]; omega)
      (by omega) (by omega) hint
    rw [hC] at this
    simp only [List.append_assoc] at this
    rw [← hd]
    exact this
  rw [importBody_eq, hschema]
  dsimp only
  unfold importWalk
  rw [hptr]
  dsimp only
  rw [hbits]
  dsimp only
  rw [hcols]
  cases decodeColumns io tupdesc vals 0 with
  | error e => rfl
  | ok ws =>
    dsimp only
    rw [if_neg (by rw [hlen]; simp)]

theorem decodeColumns_roundtrip {Datum : Type} (io : IoFunctions Datum) (attrs : TupleDesc)
    (vals : List (Option Datum)) (h : List.Forall₂ (columnRoundTrips io) attrs vals) :
    ∀ i, decodeColumns io attrs vals i = .ok vals := by
  induction h with
  | nil => intro i; rfl
  | @cons a val attrs vals hcol _ ih =>
    intro i
    cases val with
    | none =>
      by_cases hd : a.attisdropped = true
      · simp only [decodeColumns, hd, if_true, ih]
      · simp only [Bool.not_eq_true] at hd
        simp only [decodeColumns, hd, Bool.false_eq_true, if_false, ih]
    | some v =>
      obtain ⟨hd, hio⟩ := hcol
      have hdec : decodeColumn io a i v = .ok v := by
        unfold decodeColumn
        by_cases hb : isBinaryFormatType a.atttypid = true
        · simp only [hb, if_true] at hio ⊢
          rw [hio.1]
        · simp only [Bool.not_eq_true] at hb
          simp only [hb, Bool.false_eq_true, if_false] at hio ⊢
          rw [hio]
      simp only [decodeColumns, hd, Bool.false_eq_true, if_false, hdec, ih]

theorem columnRoundTrips_fixedWidthSent {Datum : Type} (io : IoFunctions Datum)
    (attrs : TupleDesc) (vals : List (Option Datum))
    (h : List.Forall₂ (columnRoundTrips io) attrs vals) :
    List.Forall₂ (fixedWidthSent io) attrs vals := by
  induction h with
  | nil => exact List.Forall₂.nil
  | @cons a val attrs vals hcol _ ih =>
    refine List.Forall₂.cons ?_ ih
    cases val with
    | none => trivial
    | some v =>
      intro _ hv
      have hb : isBinaryFormatType a.atttypid = true := by
        simp only [isVariableLength, Bool.or_eq_false_iff, Bool.not_eq_false'] at hv
        exact hv.2
      have hio := hcol.2
      simp only [hb, if_true] at hio
      exact hio.2 hv

/-- The scenario row in the legacy layout: 24 bytes, where the record of version 2
has 32. -/
theorem legacy_record_scenario :
    legacyRecord scenarioIo scenarioDesc scenarioRow =
      [0x00, 0x00, 0x00, 0x18, 0x00, 0x01, 0x00, 0x03, 0x03, 0x07, 0x01, 0x20,
       0x00, 0x00, 0x00, 0x2A, 0x00, 0x00, 0x00, 0x03, 0x68, 0x69, 0x00, 0x00] := by
  decide

/-- C14: legacy-version equivalence. Let the send function of every fixed length
column produce `attlen` bytes, `natts` be in the range of `AttrNumber` and both total
lengths in the range of `int`. Then decoding, from cursor position 0, the record of a
row in the legacy layout (version 1, no error flag byte, lengths and paddings computed
for the shorter header) gives the same result as decoding the record the encoder
produces for the row: both give the row's content converted back column by column,
which is the row itself when the decode callbacks invert the encode callbacks. -/
theorem legacy_version_equivalence {Datum : Type} (io : IoFunctions Datum)
    (tupdesc : TupleDesc) (rec : HeapTuple Datum) (myData : format_t) (saw_eof : Bool)
    (badrow : Option (Int × Int))
    (hrow : List.Forall₂ (fixedWidthSent io) tupdesc (heap_deform_tuple tupdesc rec))
    (hnatts : tupdesc.length ≤ 32767)
    (hint : exportDatlen io tupdesc rec < 2147483648)
    (hintL : legacyDatlen io tupdesc rec < 2147483648) :
    (gpdbwritableformatter_import io tupdesc myData
        ⟨legacyRecord io tupdesc rec, 0, saw_eof, badrow⟩).result =
      (gpdbwritableformatter_import io tupdesc myData
        ⟨exportRecord io tupdesc rec, 0, saw_eof, badrow⟩).result ∧
    (gpdbwritableformatter_import io tupdesc myData
        ⟨exportRecord io tupdesc rec, 0, saw_eof, badrow⟩).result = decodeRow io tupdesc rec ∧
    (List.Forall₂ (columnRoundTrips io) tupdesc rec → decodeRow io tupdesc rec = .tuple rec) := by
  have hn0 := countValidColumns_nonneg tupdesc
  have hn : countValidColumns tupdesc ≤ 32767 := by
    have : tupdesc.countP (fun a => !a.attisdropped) ≤ tupdesc.length := List.countP_le_length _
    unfold countValidColumns; omega
  have hlegacy : (gpdbwritableformatter_import io tupdesc myData
      ⟨legacyRecord io tupdesc rec, 0, saw_eof, badrow⟩).result = decodeRow io tupdesc rec := by
    have hDA := DOUBLEALIGN_bounds (legacyMeasure io tupdesc rec).2
    have := import_of_layout io tupdesc (heap_deform_tuple tupdesc rec) myData saw_eof badrow
      (htons GPDBWRITABLE_PREV_VERSION) (tagBytes tupdesc) 8
      (4 + 2 + 2 + countValidColumns tupdesc + getNullByteArraySize (countValidColumns tupdesc))
      (legacyDatlen io tupdesc rec) (legacyEndpadding io tupdesc rec) hrow
      (by rw [tagBytes_length]; rfl) (fun _ => rfl) (by simp [htons])
      (fun rest => importHeader_legacy _ _ rest hn0 hn) (by omega)
      (by unfold legacyDatlen legacyEndpadding legacyMeasure; dsimp only; omega)
      (by unfold legacyDatlen legacyMeasure; dsimp only; omega) hintL
    exact this
  have hcurrent : (gpdbwritableformatter_import io tupdesc myData
      ⟨exportRecord io tupdesc rec, 0, saw_eof, badrow⟩).result = decodeRow io tupdesc rec := by
    have hDA := DOUBLEALIGN_bounds (exportMeasure io tupdesc rec).2
    have := import_of_layout io tupdesc (heap_deform_tuple tupdesc rec) myData saw_eof badrow
      (htons GPDBWRITABLE_VERSION ++ [byteOfInt 0]) (tagBytes tupdesc) 9
      (4 + 2 + 1 + 2 + countValidColumns tupdesc +
        getNullByteArraySize (countValidColumns tupdesc))
      (exportDatlen io tupdesc rec) (exportEndpadding io tupdesc rec) hrow
      (by rw [tagBytes_length]; rfl) (fun _ => rfl) (by simp [htons])
      (fun rest => by
        have := importHeader_export (exportDatlen io tupdesc rec) (countValidColumns tupdesc)
          rest hn0 hn
        simpa only [List.append_assoc] using this)
      (by omega)
      (by unfold exportDatlen exportEndpadding exportMeasure; dsimp only; omega)
      (by unfold exportDatlen exportMeasure; dsimp only; omega) hint
    rw [exportRecord_eq]
    simp only [List.append_assoc] at this
    exact this
  refine ⟨hlegacy.trans hcurrent.symm, hcurrent, ?_⟩
  intro hrt
  unfold decodeRow
  rw [heap_deform_tuple_self tupdesc rec hrt.length_eq.symm,
    decodeColumns_roundtrip io tupdesc rec hrt 0]

theorem legacy_version_equivalence_witness :
    (gpdbwritableformatter_import scenarioIo scenarioDesc (initImportContext [])
        ⟨legacyRecord scenarioIo scenarioDesc scenarioRow, 0, false, none⟩).result =
      (gpdbwritableformatter_import scenarioIo scenarioDesc (initImportContext [])
        ⟨exportRecord scenarioIo scenarioDesc scenarioRow, 0, false, none⟩).result ∧
    decodeRow scenarioIo scenarioDesc scenarioRow = .tuple scenarioRow :=
  have hrt : List.Forall₂ (columnRoundTrips scenarioIo) scenarioDesc scenarioRow :=
    List.Forall₂.cons ⟨rfl, by decide⟩
      (List.Forall₂.cons ⟨rfl, by decide⟩ (List.Forall₂.cons trivial List.Forall₂.nil))
  have h := legacy_version_equivalence scenarioIo scenarioDesc scenarioRow (initImportContext [])
    false none
    (columnRoundTrips_fixedWidthSent scenarioIo scenarioDesc scenarioRow hrt)
    (by decide) (by decide) (by decide)
  ⟨h.1, h.2.2 hrt⟩

/-! ## Schema validation over a stream -/

theorem import_lineno {Datum : Type} (io : IoFunctions Datum) (tupdesc : TupleDesc)
    (myData : format_t) (fd : FormatterData) :
    (gpdbwritableformatter_import io tupdesc myData fd).myData.lineno =
      if reachesSchemaParsing fd = true then myData.lineno + 1 else myData.lineno := by
  unfold gpdbwritableformatter_import reachesSchemaParsing
  dsimp only
  by_cases h1 : ((fd.databuf.length : Int) - fd.datacursor = 0 ∧ fd.saw_eof = true)
  · rw [if_pos h1, if_pos h1]
    rfl
  · rw [if_neg h1, if_neg h1]
    by_cases h2 : (fd.databuf.length : Int) - fd.datacursor < 4
    · rw [if_pos h2, if_pos h2]
      cases fd.saw_eof <;> rfl
    · rw [if_neg h2, if_neg h2]
      cases readIntFromBuffer fd.databuf fd.datacursor with
      | error e => rfl
      | ok r =>
        dsimp only
        by_cases h3 : (fd.databuf.length : Int) - fd.datacursor < r.1
        · rw [if_pos h3, if_pos h3]
          cases fd.saw_eof <;> rfl
        · rw [if_neg h3, if_neg h3]
          cases importHeader fd.databuf r.2 with
          | error e => rfl
          | ok r1 =>
            dsimp only
            cases importBody io tupdesc myData fd.databuf fd.datacursor r.1 r1.1 r1.2 with
            | error e => rfl
            | ok t => rfl

theorem validatorRuns_later {Datum : Type} (io : IoFunctions Datum) (tupdesc : TupleDesc)
    (fds : List FormatterData) :
    ∀ myData : format_t, FIRST_LINE_NUM < myData.lineno →
      validatorRuns io tupdesc myData fds = fds.map (fun _ => false) := by
  induction fds with
  | nil => intro myData _; rfl
  | cons fd fds ih =>
    intro myData h
    have hne : ¬ (FIRST_LINE_NUM = myData.lineno) := by omega
    have hnext : FIRST_LINE_NUM <
        (gpdbwritableformatter_import io tupdesc myData fd).myData.lineno := by
      rw [import_lineno]
      split_ifs <;> omega
    simp only [validatorRuns, runsValidator, hne, decide_False, Bool.and_false, List.map_cons,
      ih _ hnext]

theorem validatorRuns_first {Datum : Type} (io : IoFunctions Datum) (tupdesc : TupleDesc)
    (fds : List FormatterData) :
    ∀ myData : format_t, myData.lineno = FIRST_LINE_NUM →
      validatorRuns io tupdesc myData fds = firstOnly (fds.map reachesSchemaParsing) := by
  induction fds with
  | nil => intro myData _; rfl
  | cons fd fds ih =>
    intro myData h
    have hl := import_lineno io tupdesc myData fd
    by_cases hr : reachesSchemaParsing fd = true
    · rw [if_pos hr] at hl
      have hnext : FIRST_LINE_NUM <
          (gpdbwritableformatter_import io tupdesc myData fd).myData.lineno := by
        rw [hl, h]; unfold FIRST_LINE_NUM; omega
      simp only [validatorRuns, runsValidator, hr, h, decide_True, Bool.and_self, List.map_cons,
        firstOnly, validatorRuns_later io tupdesc fds _ hnext, List.map_map]
      rfl
    · rw [if_neg hr] at hl
      simp only [Bool.not_eq_true] at hr
      simp only [validatorRuns, runsValidator, hr, Bool.false_and, List.map_cons, firstOnly,
        ih _ (hl.trans h)]

theorem contextAfter_lineno {Datum : Type} (io : IoFunctions Datum) (tupdesc : TupleDesc)
    (fds : List FormatterData) :
    ∀ myData : format_t,
      myData.lineno ≤ (contextAfter io tupdesc myData fds).lineno ∧
        (contextAfter io tupdesc myData fds).lineno ≤ myData.lineno + fds.length := by
  induction fds with
  | nil => intro myData; simp [contextAfter]
  | cons fd fds ih =>
    intro myData
    have hl := import_lineno io tupdesc myData fd
    have := ih (gpdbwritableformatter_import io tupdesc myData fd).myData
    simp only [contextAfter, List.length_cons, Nat.cast_add, Nat.cast_one]
    split_ifs at hl <;> omega

theorem parse_params_lineno (args : List (String × String)) :
    ∀ myData : format_t, (parse_params args myData).lineno = myData.lineno := by
  induction args with
  | nil => intro myData; rfl
  | cons kv args ih =>
    intro myData
    have hstep : parse_params (kv :: args) myData =
        parse_params args (if kv.1 = "dump_core_on_error" ∧ kv.2 = "1" then
          { myData with formatter_error_level := .PANIC } else myData) := by
      simp [parse_params, List.foldl_cons]
    rw [hstep, ih]
    split_ifs <;> rfl

theorem initImportContext_lineno (args : List (String × String)) :
    (initImportContext args).lineno = FIRST_LINE_NUM := by
  unfold initImportContext
  rw [parse_params_lineno]

theorem import_result_cases {Datum : Type} (io : IoFunctions Datum) (tupdesc : TupleDesc)
    (myData : format_t) (fd : FormatterData) :
    (gpdbwritableformatter_import io tupdesc myData fd).result = .needMoreData ∨
      (gpdbwritableformatter_import io tupdesc myData fd).result = .error .ERROR .UnexpectedEOF ∨
      (∃ t, (gpdbwritableformatter_import io tupdesc myData fd).result = .tuple t) ∨
      ∃ a, (gpdbwritableformatter_import io tupdesc myData fd).result = ImportResult.ofAbort a ∧
        (a.fromHeader = true ∨ (a.fromSchema = true ∧ myData.lineno = FIRST_LINE_NUM) ∨
          a.fromWalk = true) := by
  unfold gpdbwritableformatter_import
  dsimp only
  by_cases h1 : ((fd.databuf.length : Int) - fd.datacursor = 0 ∧ fd.saw_eof = true)
  · rw [if_pos h1]
    exact Or.inl rfl
  · rw [if_neg h1]
    by_cases h2 : (fd.databuf.length : Int) - fd.datacursor < 4
    · rw [if_pos h2]
      cases fd.saw_eof
      · exact Or.inl rfl
      · exact Or.inr (Or.inl rfl)
    · rw [if_neg h2]
      cases hread : readIntFromBuffer fd.databuf fd.datacursor with
      | error e =>
        exact Or.inr (Or.inr (Or.inr ⟨e, rfl, Or.inl (by
          rw [readIntFromBuffer_error _ _ _ hread]; rfl)⟩))
      | ok r =>
        dsimp only
        by_cases h3 : (fd.databuf.length : Int) - fd.datacursor < r.1
        · rw [if_pos h3]
          cases fd.saw_eof
          · exact Or.inl rfl
          · exact Or.inr (Or.inl rfl)
        · rw [if_neg h3]
          cases hhdr : importHeader fd.databuf r.2 with
          | error e =>
            exact Or.inr (Or.inr (Or.inr ⟨e, rfl, Or.inl (importHeader_error _ _ _ hhdr)⟩))
          | ok r1 =>
            dsimp only
            cases hbody : importBody io tupdesc myData fd.databuf fd.datacursor r.1 r1.1 r1.2 with
            | error e =>
              refine Or.inr (Or.inr (Or.inr ⟨e, rfl, Or.inr ?_⟩))
              exact importBody_error _ _ _ _ _ _ _ _ _ hbody
            | ok t => exact Or.inr (Or.inr (Or.inl ⟨t, rfl⟩))

theorem import_no_schema_error {Datum : Type} (io : IoFunctions Datum) (tupdesc : TupleDesc)
    (myData : format_t) (fd : FormatterData) (level : ErrLevel) (kind : ErrKind)
    (hline : myData.lineno ≠ FIRST_LINE_NUM)
    (h : (gpdbwritableformatter_import io tupdesc myData fd).result = .error level kind) :
    kind.isSchemaError = false := by
  rcases import_result_cases io tupdesc myData fd with h1 | h1 | ⟨t, h1⟩ | ⟨a, h1, h2⟩
  · rw [h1] at h; cases h
  · rw [h1] at h; cases h; rfl
  · rw [h1] at h; cases h
  · rw [h1] at h
    cases a with
    | needMoreData => cases h
    | outOfBuffer => cases h
    | ereport l k =>
      simp only [ImportResult.ofAbort, ImportResult.error.injEq] at h
      obtain ⟨hl, hk⟩ := h
      subst hl hk
      rcases h2 with h2 | ⟨_, h2⟩ | h2
      · cases k <;> cases l <;> first | rfl | (simp [Abort.fromHeader] at h2)
      · exact absurd h2 hline
      · cases k <;> cases l <;> first | rfl | (simp [Abort.fromWalk] at h2)

theorem replaceTags_export {Datum : Type} (io : IoFunctions Datum) (tupdesc : TupleDesc)
    (rec : HeapTuple Datum) (tags : List Byte) :
    replaceTags (exportRecord io tupdesc rec) (tagBytes tupdesc).length tags =
      htonl (exportDatlen io tupdesc rec) ++ (htons GPDBWRITABLE_VERSION ++
        ([byteOfInt 0] ++ (htons (countValidColumns tupdesc) ++ (tags ++
          (exportNullBits tupdesc rec ++ ((exportChunks io tupdesc rec).flatten ++
            List.replicate (exportEndpadding io tupdesc rec).toNat 0)))))) := by
  have e : exportRecord io tupdesc rec =
      (htonl (exportDatlen io tupdesc rec) ++ (htons GPDBWRITABLE_VERSION ++
        ([byteOfInt 0] ++ htons (countValidColumns tupdesc)))) ++ (tagBytes tupdesc ++
          (exportNullBits tupdesc rec ++ ((exportChunks io tupdesc rec).flatten ++
            List.replicate (exportEndpadding io tupdesc rec).toNat 0))) := by
    rw [exportRecord_eq]; simp
  have h9 : (htonl (exportDatlen io tupdesc rec) ++ (htons GPDBWRITABLE_VERSION ++
      ([byteOfInt 0] ++ htons (countValidColumns tupdesc)))).length = 9 := by
    simp [htonl, htons]
  unfold replaceTags
  rw [e, List.take_left' h9]
  have hdrop : ∀ (a b c : List Byte), a.length = 9 →
      (a ++ (b ++ c)).drop (9 + b.length) = c := by
    intro a b c ha
    rw [← List.append_assoc]
    apply List.drop_left'
    simp [ha]
  rw [hdrop _ _ _ h9]
  simp

theorem import_export_tags {Datum : Type} (io : IoFunctions Datum) (tupdesc : TupleDesc)
    (rec : HeapTuple Datum) (myData : format_t) (saw_eof : Bool) (badrow : Option (Int × Int))
    (tags : List Byte)
    (hrow : List.Forall₂ (fixedWidthSent io) tupdesc (heap_deform_tuple tupdesc rec))
    (hnatts : tupdesc.length ≤ 32767)
    (hint : exportDatlen io tupdesc rec < 2147483648)
    (htl : tags.length = (tagBytes tupdesc).length)
    (hfirst : FIRST_LINE_NUM = myData.lineno → tags = tagBytes tupdesc) :
    (gpdbwritableformatter_import io tupdesc myData
        ⟨replaceTags (exportRecord io tupdesc rec) (tagBytes tupdesc).length tags, 0, saw_eof,
          badrow⟩).result = decodeRow io tupdesc rec := by
  have hn0 := countValidColumns_nonneg tupdesc
  have hn : countValidColumns tupdesc ≤ 32767 := by
    have : tupdesc.countP (fun a => !a.attisdropped) ≤ tupdesc.length := List.countP_le_length _
    unfold countValidColumns; omega
  have hDA := DOUBLEALIGN_bounds (exportMeasure io tupdesc rec).2
  have := import_of_layout io tupdesc (heap_deform_tuple tupdesc rec) myData saw_eof badrow
    (htons GPDBWRITABLE_VERSION ++ [byteOfInt 0]) tags 9
    (4 + 2 + 1 + 2 + countValidColumns tupdesc +
      getNullByteArraySize (countValidColumns tupdesc))
    (exportDatlen io tupdesc rec) (exportEndpadding io tupdesc rec) hrow
    (by rw [htl, tagBytes_length]; rfl) hfirst (by simp [htons])
    (fun rest => by
      have := importHeader_export (exportDatlen io tupdesc rec) (countValidColumns tupdesc)
        rest hn0 hn
      simpa only [List.append_assoc] using this)
    (by omega)
    (by unfold exportDatlen exportEndpadding exportMeasure; dsimp only; omega)
    (by unfold exportDatlen exportMeasure; dsimp only; omega) hint
  rw [replaceTags_export]
  simp only [List.append_assoc] at this
  exact this

theorem replaceTags_self {Datum : Type} (io : IoFunctions Datum) (tupdesc : TupleDesc)
    (rec : HeapTuple Datum) :
    replaceTags (exportRecord io tupdesc rec) (tagBytes tupdesc).length (tagBytes tupdesc) =
      exportRecord io tupdesc rec := by
  rw [replaceTags_export, exportRecord_eq]

/-! ## Bytes a later call does not read -/

theorem readBytes_front (pre rest rest' : List Byte) (off : Int) (n : Nat)
    (h : off + n ≤ pre.length) :
    readBytes (pre ++ rest') off n = readBytes (pre ++ rest) off n := by
  unfold readBytes
  by_cases h0 : 0 ≤ off
  · have hle : off.toNat ≤ pre.length := by omega
    have hn : n ≤ (pre.drop off.toNat).length := by
      rw [List.length_drop]; omega
    rw [if_pos (by simp only [List.length_append, Nat.cast_add]; omega),
      if_pos (by simp only [List.length_append, Nat.cast_add]; omega),
      List.drop_append_of_le_length hle, List.drop_append_of_le_length hle,
      List.take_append_of_le_length hn, List.take_append_of_le_length hn]
  · rw [if_neg (fun hc => h0 hc.1), if_neg (fun hc => h0 hc.1)]

theorem importHeader_front (pre rest rest' : List Byte) (off n b : Int)
    (h : importHeader (pre ++ rest) off = .ok (n, b)) (hb : b ≤ pre.length) :
    importHeader (pre ++ rest') off = .ok (n, b) := by
  unfold importHeader at h ⊢
  split at h
  · simp at h
  · rename_i v b1 h1
    have hr1 := readInt2FromBuffer_ok _ _ _ _ h1
    dsimp only at h
    split_ifs at h with hver
    split at h
    · simp at h
    · rename_i flag b2 h2
      have hb2 : b1 ≤ b2 ∧ readErrorFlag (toInt16 v) (pre ++ rest') b1 = .ok (flag, b2) ∨
          b < b2 := by
        by_cases hlt : b < b2
        · exact Or.inr hlt
        · left
          unfold readErrorFlag at h2 ⊢
          split_ifs at h2 ⊢
          · split at h2
            · simp at h2
            · rename_i f b3 h3
              simp only [Except.ok.injEq, Prod.mk.injEq] at h2
              have h3ok : b3 = b1 + 1 := by
                unfold readInt1FromBuffer readBytes at h3
                split_ifs at h3
                simp only [Except.ok.injEq, Prod.mk.injEq] at h3
                omega
              have h3eq : readInt1FromBuffer (pre ++ rest') b1 = .ok (f, b3) := by
                rw [← h3]
                unfold readInt1FromBuffer
                rw [readBytes_front pre rest rest' b1 1 (by push_cast; omega)]
              rw [h3eq]
              refine ⟨by omega, ?_⟩
              simp only [h2.1, h2.2]
          · simp only [Except.ok.injEq, Prod.mk.injEq] at h2
            refine ⟨by omega, ?_⟩
            simp only [h2.1, h2.2]
      split_ifs at h with hflag
      · split at h <;> simp at h
      · split at h
        · simp at h
        · rename_i n3 b3 h3
          have hr3 := readInt2FromBuffer_ok _ _ _ _ h3
          simp only [Except.ok.injEq, Prod.mk.injEq] at h
          rcases hb2 with ⟨hle, hflag'⟩ | hlt
          · have e1 : readInt2FromBuffer (pre ++ rest') off = .ok (v, b1) := by
              rw [← h1]
              unfold readInt2FromBuffer
              rw [readBytes_front pre rest rest' off 2 (by push_cast; omega)]
            have e3 : readInt2FromBuffer (pre ++ rest') b2 = .ok (n3, b3) := by
              rw [← h3]
              unfold readInt2FromBuffer
              rw [readBytes_front pre rest rest' b2 2 (by push_cast; omega)]
            simp only [e1, hver, if_false, hflag', hflag, e3, h.1, h.2]
          · omega

theorem drop_agree (buf buf' : List Byte) (E k : Nat) (h : buf'.drop E = buf.drop E)
    (hk : E ≤ k) : buf'.drop k = buf.drop k := by
  have hk' : k = E + (k - E) := by omega
  rw [hk', ← List.drop_drop, ← List.drop_drop, h]

theorem readBytes_suffix (buf buf' : List Byte) (E : Nat) (off : Int) (n : Nat)
    (hlen : buf'.length = buf.length) (hdrop : buf'.drop E = buf.drop E) (hoff : (E : Int) ≤ off) :
    readBytes buf' off n = readBytes buf off n := by
  unfold readBytes
  rw [hlen, drop_agree buf buf' E off.toNat hdrop (by omega)]

theorem readIntFromBuffer_suffix (buf buf' : List Byte) (E : Nat) (off : Int)
    (hlen : buf'.length = buf.length) (hdrop : buf'.drop E = buf.drop E) (hoff : (E : Int) ≤ off) :
    readIntFromBuffer buf' off = readIntFromBuffer buf off := by
  unfold readIntFromBuffer
  rw [readBytes_suffix buf buf' E off 4 hlen hdrop hoff]

theorem readCString_suffix (buf buf' : List Byte) (E : Nat) (off : Int)
    (hlen : buf'.length = buf.length) (hdrop : buf'.drop E = buf.drop E) (hoff : (E : Int) ≤ off) :
    readCString buf' off = readCString buf off := by
  unfold readCString
  rw [hlen, drop_agree buf buf' E off.toNat hdrop (by omega)]

theorem importColumnLength_suffix (level : ErrLevel) (buf buf' : List Byte) (E : Nat)
    (tuplelen : Int) (attr : FormData_pg_attribute) (i : Nat) (bufidx : Int)
    (hlen : buf'.length = buf.length) (hdrop : buf'.drop E = buf.drop E)
    (hoff : (E : Int) ≤ bufidx) :
    importColumnLength level buf' tuplelen attr i bufidx =
      importColumnLength level buf tuplelen attr i bufidx := by
  have h4 := INTALIGN_bounds bufidx
  unfold importColumnLength
  rw [readIntFromBuffer_suffix buf buf' E (INTALIGN bufidx) hlen hdrop (by omega)]

theorem importColumnValue_suffix {Datum : Type} (io : IoFunctions Datum) (buf buf' : List Byte)
    (E : Nat) (attr : FormData_pg_attribute) (i : Nat) (outlen bufidx : Int)
    (hlen : buf'.length = buf.length) (hdrop : buf'.drop E = buf.drop E)
    (hoff : (E : Int) ≤ bufidx) :
    importColumnValue io buf' attr i outlen bufidx = importColumnValue io buf attr i outlen bufidx := by
  unfold importColumnValue
  rw [readBytes_suffix buf buf' E bufidx outlen.toNat hlen hdrop hoff,
    readCString_suffix buf buf' E bufidx hlen hdrop hoff]

theorem importColumnLength_ge (level : ErrLevel) (buf : List Byte) (tuplelen : Int)
    (attr : FormData_pg_attribute) (i : Nat) (bufidx outlen bufidx1 : Int)
    (h : importColumnLength level buf tuplelen attr i bufidx = .ok (outlen, bufidx1)) :
    bufidx ≤ bufidx1 := by
  have h4 := INTALIGN_bounds bufidx
  have ha := att_align_nominal_bounds bufidx attr.attalign
  unfold importColumnLength at h
  split_ifs at h
  · split at h
    · simp at h
    · rename_i o b1 h1
      have := readIntFromBuffer_ok _ _ _ _ h1
      split_ifs at h
      simp only [Except.ok.injEq, Prod.mk.injEq] at h
      omega
  · simp only [Except.ok.injEq, Prod.mk.injEq] at h
    omega

theorem importColumns_suffix {Datum : Type} (io : IoFunctions Datum) (level : ErrLevel)
    (buf buf' : List Byte) (E : Nat) (tuplelen tupleEndIdx : Int)
    (hlen : buf'.length = buf.length) (hdrop : buf'.drop E = buf.drop E) (attrs : TupleDesc) :
    ∀ (nulls : List Bool) (i : Nat) (bufidx : Int), (E : Int) ≤ bufidx →
      declaredLengthsNonneg io level buf tuplelen tupleEndIdx attrs nulls i bufidx = true →
      importColumns io level buf' tuplelen tupleEndIdx attrs nulls i bufidx =
        importColumns io level buf tuplelen tupleEndIdx attrs nulls i bufidx := by
  induction attrs with
  | nil => intro nulls i bufidx _ _; simp [importColumns]
  | cons attr attrs ih =>
    intro nulls i bufidx hoff hfw
    cases nulls with
    | nil => simp [importColumns]
    | cons nul nulls =>
      unfold declaredLengthsNonneg at hfw
      unfold importColumns
      by_cases hc : (attr.attisdropped || nul) = true
      · rw [if_pos hc] at hfw ⊢
        rw [if_pos hc, ih nulls (i + 1) bufidx hoff hfw]
      · rw [if_neg hc] at hfw ⊢
        rw [if_neg hc, importColumnLength_suffix level buf buf' E tuplelen attr i bufidx hlen hdrop
          hoff]
        cases hl : importColumnLength level buf tuplelen attr i bufidx with
        | error e => rfl
        | ok r =>
          have hge := importColumnLength_ge level buf tuplelen attr i bufidx r.1 r.2 hl
          rw [hl] at hfw
          dsimp only at hfw ⊢
          rw [importColumnValue_suffix io buf buf' E attr i r.1 r.2 hlen hdrop (by omega)]
          cases hv : importColumnValue io buf attr i r.1 r.2 with
          | error e => rfl
          | ok v =>
            rw [hv] at hfw
            dsimp only at hfw ⊢
            by_cases hg : r.2 + r.1 > tupleEndIdx
            · rw [if_pos hg, if_pos hg]
            · rw [if_neg hg] at hfw
              simp only [Bool.and_eq_true, decide_eq_true_eq] at hfw
              rw [if_neg hg, if_neg hg, ih nulls (i + 1) (r.2 + r.1) (by omega) hfw.2]

theorem pointerAt_suffix (buf buf' : List Byte) (E : Nat) (off : Int)
    (hlen : buf'.length = buf.length) (hdrop : buf'.drop E = buf.drop E) (hoff : (E : Int) ≤ off) :
    pointerAt buf' off = pointerAt buf off := by
  unfold pointerAt
  rw [hlen, drop_agree buf buf' E off.toNat hdrop (by omega)]

theorem importBody_suffix {Datum : Type} (io : IoFunctions Datum) (tupdesc : TupleDesc)
    (myData : format_t) (buf buf' : List Byte) (E : Nat)
    (data_cur tuplelen ncolumns_remote bufidx1 : Int)
    (hlen : buf'.length = buf.length) (hdrop : buf'.drop E = buf.drop E)
    (hline : myData.lineno ≠ FIRST_LINE_NUM) (hE : (E : Int) = bufidx1 + ncolumns_remote)
    (hnb : 0 ≤ getNullByteArraySize ncolumns_remote)
    (hfw : walkForward io tupdesc myData.formatter_error_level buf data_cur tuplelen
      ncolumns_remote (bufidx1 + ncolumns_remote) = true) :
    importBody io tupdesc myData buf' data_cur tuplelen ncolumns_remote bufidx1 =
      importBody io tupdesc myData buf data_cur tuplelen ncolumns_remote bufidx1 := by
  have hs : ∀ b : List Byte, importSchema tupdesc myData b ncolumns_remote bufidx1 =
      .ok (bufidx1 + ncolumns_remote) := by
    intro b
    unfold importSchema
    rw [if_neg (fun h => hline h.symm)]
  have hw : importWalk io tupdesc myData.formatter_error_level buf' data_cur tuplelen
      ncolumns_remote (bufidx1 + ncolumns_remote) =
      importWalk io tupdesc myData.formatter_error_level buf data_cur tuplelen
        ncolumns_remote (bufidx1 + ncolumns_remote) := by
    unfold importWalk
    unfold walkForward at hfw
    rw [pointerAt_suffix buf buf' E _ hlen hdrop (by omega)]
    cases hp : pointerAt buf (bufidx1 + ncolumns_remote) with
    | error e => rfl
    | ok nullByteArray =>
      rw [hp] at hfw
      dsimp only at hfw ⊢
      cases hb : byteArrayToBoolArray nullByteArray tupdesc with
      | error e => rfl
      | ok nulls =>
        rw [hb] at hfw
        dsimp only at hfw ⊢
        exact importColumns_suffix io _ buf buf' E tuplelen _ hlen hdrop tupdesc nulls 0 _
          (by omega) hfw
  rw [importBody_eq, importBody_eq, hs, hs]
  dsimp only
  rw [hw]

/-- On a later line the bytes of the type tags do not reach the result of a call whose
column loop never moves backwards. -/
theorem import_tags_irrelevant {Datum : Type} (io : IoFunctions Datum) (tupdesc : TupleDesc)
    (myData : format_t) (data_cur : Int) (saw_eof : Bool) (badrow : Option (Int × Int))
    (pre tags tags' post : List Byte) (tuplelen bufidx : Int)
    (hline : myData.lineno ≠ FIRST_LINE_NUM) (htags : tags'.length = tags.length)
    (hread : readIntFromBuffer (pre ++ (tags ++ post)) data_cur = .ok (tuplelen, bufidx))
    (hfull : tuplelen ≤ ((pre ++ (tags ++ post)).length : Nat) - data_cur)
    (hhdr : importHeader (pre ++ (tags ++ post)) bufidx =
      .ok ((tags.length : Nat), (pre.length : Nat)))
    (hfw : walkForward io tupdesc myData.formatter_error_level (pre ++ (tags ++ post)) data_cur
      tuplelen (tags.length : Nat) ((pre.length : Nat) + (tags.length : Nat)) = true) :
    gpdbwritableformatter_import io tupdesc myData
        ⟨pre ++ (tags' ++ post), data_cur, saw_eof, badrow⟩ =
      gpdbwritableformatter_import io tupdesc myData
        ⟨pre ++ (tags ++ post), data_cur, saw_eof, badrow⟩ := by
  have hr := readIntFromBuffer_ok _ _ _ _ hread
  have hh := importHeader_ok _ _ _ _ hhdr
  have hlen : (pre ++ (tags' ++ post)).length = (pre ++ (tags ++ post)).length := by
    simp only [List.length_append, htags]
  have hdrop : (pre ++ (tags' ++ post)).drop (pre.length + tags.length) =
      (pre ++ (tags ++ post)).drop (pre.length + tags.length) := by
    rw [← List.append_assoc, ← List.append_assoc,
      List.drop_left' (by simp only [List.length_append, htags]),
      List.drop_left' (by simp only [List.length_append])]
  have hread' : readIntFromBuffer (pre ++ (tags' ++ post)) data_cur = .ok (tuplelen, bufidx) := by
    rw [← hread]
    unfold readIntFromBuffer
    rw [readBytes_front pre (tags ++ post) (tags' ++ post) data_cur 4 (by push_cast; omega)]
  have hhdr' := importHeader_front pre (tags ++ post) (tags' ++ post) bufidx _ _ hhdr
    (le_refl _)
  have hnb : 0 ≤ getNullByteArraySize ((tags.length : Nat) : Int) := by
    rw [getNullByteArraySize_nat]; omega
  have hbody := importBody_suffix io tupdesc myData (pre ++ (tags ++ post))
    (pre ++ (tags' ++ post)) (pre.length + tags.length) data_cur tuplelen (tags.length : Nat)
    (pre.length : Nat) hlen hdrop hline (by push_cast; rfl) hnb hfw
  rw [import_of_framed io tupdesc myData ⟨pre ++ (tags' ++ post), data_cur, saw_eof, badrow⟩
      tuplelen bufidx hread' (by dsimp only; rw [hlen]; exact hfull),
    import_of_framed io tupdesc myData ⟨pre ++ (tags ++ post), data_cur, saw_eof, badrow⟩
      tuplelen bufidx hread hfull]
  dsimp only
  rw [hhdr, hhdr']
  dsimp only
  rw [hbody]

/-- C20 as stated fails: on a later record the length of the second column is read
from the last four type tags: with the tags of the schema the call stops with the
length error of that column, with other bytes in their place it returns a row. -/
theorem tag_bytes_read_as_column_data :
    (gpdbwritableformatter_import scenarioIo sevenTextDesc
        { lineno := 2, formatter_error_level := .ERROR }
        ⟨walkBackRecord [7, 7, 7, 7, 7, 7, 7], 0, false, none⟩).result =
      .error .ERROR (.LengthOverflow 1) ∧
    (gpdbwritableformatter_import scenarioIo sevenTextDesc
        { lineno := 2, formatter_error_level := .ERROR }
        ⟨walkBackRecord [7, 7, 7, 0, 0, 0, 16], 0, false, none⟩).result =
      .tuple [some (.text [0x61]), some (.text [0x3E]), none, none, none, none, none] := by
  decide

/-- C20 amended: validation happens once. Over a sequence of fewer than 2^31 - 1
calls on one stream, started by `initImportContext`, the counter stays in the range of
`int` and `verifyExternalTableDefinition` is executed by exactly the first call that
reaches the schema step, by no other. With a counter different from `FIRST_LINE_NUM`
the schema step adds the column count to `bufidx` whatever the buffer holds, and no
call raises an error of the schema check. In a fully buffered record decoded by such a
later call the type tags can be replaced by any bytes of the same number without a
change of the outcome, provided every column the column loop gets past has a length
that is not negative; that holds for a record the encoder produced, decoded from cursor
position 0. -/
theorem validation_happens_once {Datum : Type} (io : IoFunctions Datum) (tupdesc : TupleDesc) :
    (∀ (args : List (String × String)) (fds : List FormatterData), fds.length < 2147483647 →
      validatorRuns io tupdesc (initImportContext args) fds =
          firstOnly (fds.map reachesSchemaParsing) ∧
        (contextAfter io tupdesc (initImportContext args) fds).lineno ≤ 2147483647) ∧
    (∀ (myData : format_t) (data_buf : List Byte) (ncolumns_remote bufidx : Int),
      myData.lineno ≠ FIRST_LINE_NUM →
      importSchema tupdesc myData data_buf ncolumns_remote bufidx =
        .ok (bufidx + ncolumns_remote)) ∧
    (∀ (myData : format_t) (fd : FormatterData) (level : ErrLevel) (kind : ErrKind),
      myData.lineno ≠ FIRST_LINE_NUM →
      (gpdbwritableformatter_import io tupdesc myData fd).result = .error level kind →
      kind.isSchemaError = false) ∧
    (∀ (myData : format_t) (data_cur : Int) (saw_eof : Bool) (badrow : Option (Int × Int))
      (pre tags tags' post : List Byte) (tuplelen bufidx : Int),
      myData.lineno ≠ FIRST_LINE_NUM → tags'.length = tags.length →
      readIntFromBuffer (pre ++ (tags ++ post)) data_cur = .ok (tuplelen, bufidx) →
      tuplelen ≤ ((pre ++ (tags ++ post)).length : Nat) - data_cur →
      importHeader (pre ++ (tags ++ post)) bufidx =
        .ok ((tags.length : Nat), (pre.length : Nat)) →
      walkForward io tupdesc myData.formatter_error_level (pre ++ (tags ++ post)) data_cur
        tuplelen (tags.length : Nat) ((pre.length : Nat) + (tags.length : Nat)) = true →
      gpdbwritableformatter_import io tupdesc myData
          ⟨pre ++ (tags' ++ post), data_cur, saw_eof, badrow⟩ =
        gpdbwritableformatter_import io tupdesc myData
          ⟨pre ++ (tags ++ post), data_cur, saw_eof, badrow⟩) ∧
    (∀ (rec : HeapTuple Datum) (myData : format_t) (saw_eof : Bool)
      (badrow : Option (Int × Int)) (tags : List Byte),
      myData.lineno ≠ FIRST_LINE_NUM →
      tags.length = (tagBytes tupdesc).length →
      List.Forall₂ (fixedWidthSent io) tupdesc (heap_deform_tuple tupdesc rec) →
      tupdesc.length ≤ 32767 →
      exportDatlen io tupdesc rec < 2147483648 →
      (gpdbwritableformatter_import io tupdesc myData
          ⟨replaceTags (exportRecord io tupdesc rec) (tagBytes tupdesc).length tags, 0, saw_eof,
            badrow⟩).result =
        (gpdbwritableformatter_import io tupdesc myData
          ⟨exportRecord io tupdesc rec, 0, saw_eof, badrow⟩).result) := by
  refine ⟨?_, ?_, ?_, ?_, ?_⟩
  · intro args fds hlen
    refine ⟨validatorRuns_first io tupdesc fds _ (initImportContext_lineno args), ?_⟩
    have h := (contextAfter_lineno io tupdesc fds (initImportContext args)).2
    rw [initImportContext_lineno] at h
    unfold FIRST_LINE_NUM at h
    omega
  · intro myData data_buf ncolumns_remote bufidx hline
    unfold importSchema
    rw [if_neg (fun h => hline h.symm)]
  · intro myData fd level kind hline h
    exact import_no_schema_error io tupdesc myData fd level kind hline h
  · intro myData data_cur saw_eof badrow pre tags tags' post tuplelen bufidx hline htags hread
      hfull hhdr hfw
    exact import_tags_irrelevant io tupdesc myData data_cur saw_eof badrow pre tags tags' post
      tuplelen bufidx hline htags hread hfull hhdr hfw
  · intro rec myData saw_eof badrow tags hline htl hrow hnatts hint
    have h1 := import_export_tags io tupdesc rec myData saw_eof badrow tags hrow hnatts hint htl
      (fun h => absurd h.symm hline)
    have h2 := import_export_tags io tupdesc rec myData saw_eof badrow (tagBytes tupdesc) hrow
      hnatts hint rfl (fun _ => rfl)
    rw [replaceTags_self] at h2
    rw [h1, h2]

theorem validation_happens_once_witness :
    (validatorRuns scenarioIo scenarioDesc (initImportContext [])
          [⟨unknownTagRecord.take 3, 0, false, none⟩,
            ⟨exportRecord scenarioIo scenarioDesc scenarioRow, 0, false, none⟩,
            ⟨unknownTagRecord, 0, false, none⟩] =
        firstOnly ([⟨unknownTagRecord.take 3, 0, false, none⟩,
            ⟨exportRecord scenarioIo scenarioDesc scenarioRow, 0, false, none⟩,
            ⟨unknownTagRecord, 0, false, none⟩].map reachesSchemaParsing) ∧
      (contextAfter scenarioIo scenarioDesc (initImportContext [])
          [⟨unknownTagRecord.take 3, 0, false, none⟩,
            ⟨exportRecord scenarioIo scenarioDesc scenarioRow, 0, false, none⟩,
            ⟨unknownTagRecord, 0, false, none⟩]).lineno ≤ 2147483647) ∧
    importSchema scenarioDesc { lineno := 2, formatter_error_level := .ERROR }
        unknownTagRecord 3 9 = .ok (9 + 3) ∧
    ErrKind.isSchemaError (.LengthOverflow 1) = false ∧
    gpdbwritableformatter_import scenarioIo scenarioDesc
        { lineno := 2, formatter_error_level := .ERROR }
        ⟨unknownTagRecord.take 9 ++ ([200, 0, 9] ++ unknownTagRecord.drop 12), 0, true, none⟩ =
      gpdbwritableformatter_import scenarioIo scenarioDesc
        { lineno := 2, formatter_error_level := .ERROR }
        ⟨unknownTagRecord.take 9 ++ ([9, 7, 1] ++ unknownTagRecord.drop 12), 0, true, none⟩ ∧
    (gpdbwritableformatter_import scenarioIo scenarioDesc
        { lineno := 2, formatter_error_level := .ERROR }
        ⟨replaceTags (exportRecord scenarioIo scenarioDesc scenarioRow)
          (tagBytes scenarioDesc).length [9, 0, 200], 0, false, none⟩).result =
      (gpdbwritableformatter_import scenarioIo scenarioDesc
        { lineno := 2, formatter_error_level := .ERROR }
        ⟨exportRecord scenarioIo scenarioDesc scenarioRow, 0, false, none⟩).result :=
  ⟨(validation_happens_once scenarioIo scenarioDesc).1 []
      [⟨unknownTagRecord.take 3, 0, false, none⟩,
        ⟨exportRecord scenarioIo scenarioDesc scenarioRow, 0, false, none⟩,
        ⟨unknownTagRecord, 0, false, none⟩] (by decide),
    (validation_happens_once scenarioIo scenarioDesc).2.1
      { lineno := 2, formatter_error_level := .ERROR } unknownTagRecord 3 9 (by decide),
    (validation_happens_once scenarioIo sevenTextDesc).2.2.1
      { lineno := 2, formatter_error_level := .ERROR }
      ⟨walkBackRecord [7, 7, 7, 7, 7, 7, 7], 0, false, none⟩ .ERROR (.LengthOverflow 1)
      (by decide) (by decide),
    (validation_happens_once scenarioIo scenarioDesc).2.2.2.1
      { lineno := 2, formatter_error_level := .ERROR } 0 true none (unknownTagRecord.take 9)
      [9, 7, 1] [200, 0, 9] (unknownTagRecord.drop 12) 32 4
      (by decide) (by decide) (by decide) (by decide) (by decide) (by decide),
    (validation_happens_once scenarioIo scenarioDesc).2.2.2.2 scenarioRow
      { lineno := 2, formatter_error_level := .ERROR } false none [9, 0, 200]
      (by decide) (by decide)
      (List.Forall₂.cons (fun _ _ => by decide)
        (List.Forall₂.cons (fun _ h => absurd h (by decide))
          (List.Forall₂.cons trivial List.Forall₂.nil)))
      (by decide) (by decide)⟩

/-! ## The line counter -/

theorem format_t_eq (a b : format_t) (h1 : a.lineno = b.lineno)
    (h2 : a.formatter_error_level = b.formatter_error_level) : a = b := by
  cases a
  cases b
  simp only [format_t.mk.injEq]
  exact ⟨h1, h2⟩

theorem schema_kind_of_abort {Datum : Type} (a : Abort) (level : ErrLevel) (kind : ErrKind)
    (h : (ImportResult.ofAbort a : ImportResult Datum) = .error level kind)
    (hk : kind.isSchemaError = true) : a.fromHeader = false ∧ a.fromWalk = false := by
  cases a with
  | needMoreData => cases h
  | outOfBuffer => cases h
  | ereport l k =>
    simp only [ImportResult.ofAbort, ImportResult.error.injEq] at h
    obtain ⟨hl, hkk⟩ := h
    subst hl hkk
    cases k <;> cases l <;> first | exact ⟨rfl, rfl⟩ | (simp [ErrKind.isSchemaError] at hk)

theorem import_schema_error_reaches {Datum : Type} (io : IoFunctions Datum)
    (tupdesc : TupleDesc) (myData : format_t) (fd : FormatterData) (level : ErrLevel)
    (kind : ErrKind)
    (h : (gpdbwritableformatter_import io tupdesc myData fd).result = .error level kind)
    (hk : kind.isSchemaError = true) :
    reachesSchemaParsing fd = true ∧ myData.lineno = FIRST_LINE_NUM := by
  unfold gpdbwritableformatter_import at h
  unfold reachesSchemaParsing
  dsimp only at h ⊢
  by_cases h1 : ((fd.databuf.length : Int) - fd.datacursor = 0 ∧ fd.saw_eof = true)
  · rw [if_pos h1] at h
    cases h
  · rw [if_neg h1] at h ⊢
    by_cases h2 : (fd.databuf.length : Int) - fd.datacursor < 4
    · rw [if_pos h2] at h
      cases hs : fd.saw_eof
      · rw [hs] at h; cases h
      · rw [hs] at h
        simp only [if_true, ImportResult.error.injEq] at h
        rw [← h.2] at hk
        cases hk
    · rw [if_neg h2] at h ⊢
      cases hread : readIntFromBuffer fd.databuf fd.datacursor with
      | error e =>
        rw [hread] at h
        have := schema_kind_of_abort e level kind h hk
        have he := readIntFromBuffer_error _ _ _ hread
        rw [he] at this
        cases this.1
      | ok r =>
        rw [hread] at h
        dsimp only at h ⊢
        by_cases h3 : (fd.databuf.length : Int) - fd.datacursor < r.1
        · rw [if_pos h3] at h
          cases hs : fd.saw_eof
          · rw [hs] at h; cases h
          · rw [hs] at h
            simp only [if_true, ImportResult.error.injEq] at h
            rw [← h.2] at hk
            cases hk
        · rw [if_neg h3] at h ⊢
          cases hhdr : importHeader fd.databuf r.2 with
          | error e =>
            rw [hhdr] at h
            have := schema_kind_of_abort e level kind h hk
            rw [importHeader_error _ _ _ hhdr] at this
            cases this.1
          | ok r1 =>
            rw [hhdr] at h
            dsimp only at h ⊢
            refine ⟨rfl, ?_⟩
            cases hbody : importBody io tupdesc myData fd.databuf fd.datacursor r.1 r1.1 r1.2 with
            | error e =>
              rw [hbody] at h
              have := schema_kind_of_abort e level kind h hk
              rcases importBody_error _ _ _ _ _ _ _ _ _ hbody with hb | hb
              · exact hb.2
              · rw [hb] at this
                cases this.2
            | ok t =>
              rw [hbody] at h
              cases h

/-- C21 as stated fails: the first record of the stream reaches the schema step and is
rejected with the type mismatch error; the line counter is 2 afterwards, and the next
call on the same record executes no schema check and returns the row. -/
theorem validation_not_pending_after_rejection :
    gpdbwritableformatter_import scenarioIo scenarioDesc (initImportContext [])
        ⟨mismatchRecord, 0, false, none⟩ =
      ⟨.error .ERROR (.TypeMismatch [("b", TEXTOID, INT8OID)]),
        { lineno := 2, formatter_error_level := .ERROR }, 0, some (0, 32)⟩ ∧
    validatorRuns scenarioIo scenarioDesc (initImportContext [])
        [⟨mismatchRecord, 0, false, none⟩, ⟨mismatchRecord, 0, false, none⟩] = [true, false] ∧
    (gpdbwritableformatter_import scenarioIo scenarioDesc
        { lineno := 2, formatter_error_level := .ERROR }
        ⟨mismatchRecord, 0, false, none⟩).result = .tuple scenarioRow := by
  decide

/-- C21 amended: the line counter, a C `int` below its maximum before the call, advances
on exactly the calls that reach the schema step, whatever they return afterwards, and
stays in the range of `int`; a call that does not reach the step leaves the import
context as it was. A call that is rejected by the schema check had the counter at
`FIRST_LINE_NUM` and leaves it one higher, so over fewer than 2^31 - 2 later calls the
counter stays in range and none of them executes the check. With the counter at
`FIRST_LINE_NUM`, a call that reaches the schema step executes the check and none of
these later calls does; after a call that does not reach the step the check is still
pending: the next call executes it if and only if it reaches the step. -/
theorem counter_advances_at_schema_step {Datum : Type} (io : IoFunctions Datum)
    (tupdesc : TupleDesc) (myData : format_t) (fd : FormatterData)
    (hrange : myData.lineno < 2147483647) :
    ((gpdbwritableformatter_import io tupdesc myData fd).myData.lineno =
        (if reachesSchemaParsing fd = true then myData.lineno + 1 else myData.lineno) ∧
      (gpdbwritableformatter_import io tupdesc myData fd).myData.lineno ≤ 2147483647) ∧
      (reachesSchemaParsing fd = false →
        (gpdbwritableformatter_import io tupdesc myData fd).myData = myData) ∧
      (∀ level kind,
        (gpdbwritableformatter_import io tupdesc myData fd).result = .error level kind →
        kind.isSchemaError = true →
        myData.lineno = FIRST_LINE_NUM ∧
          (gpdbwritableformatter_import io tupdesc myData fd).myData.lineno =
            FIRST_LINE_NUM + 1 ∧
          ∀ fds : List FormatterData, fds.length < 2147483646 →
            validatorRuns io tupdesc (gpdbwritableformatter_import io tupdesc myData fd).myData
                fds = fds.map (fun _ => false) ∧
              (contextAfter io tupdesc (gpdbwritableformatter_import io tupdesc myData fd).myData
                fds).lineno ≤ 2147483647) ∧
      (myData.lineno = FIRST_LINE_NUM → reachesSchemaParsing fd = true →
        runsValidator myData fd = true ∧
          ∀ fds : List FormatterData, fds.length < 2147483646 →
            validatorRuns io tupdesc (gpdbwritableformatter_import io tupdesc myData fd).myData
                fds = fds.map (fun _ => false) ∧
              (contextAfter io tupdesc (gpdbwritableformatter_import io tupdesc myData fd).myData
                fds).lineno ≤ 2147483647) ∧
      (myData.lineno = FIRST_LINE_NUM → reachesSchemaParsing fd = false →
        ∀ fd1 : FormatterData,
          runsValidator (gpdbwritableformatter_import io tupdesc myData fd).myData fd1 =
            reachesSchemaParsing fd1) := by
  have hl := import_lineno io tupdesc myData fd
  have hlev := import_keeps_level io tupdesc myData fd
  have hsame : reachesSchemaParsing fd = false →
      (gpdbwritableformatter_import io tupdesc myData fd).myData = myData := by
    intro hr
    rw [hr] at hl
    exact format_t_eq _ _ hl hlev
  have hlater : myData.lineno = FIRST_LINE_NUM → reachesSchemaParsing fd = true →
      ∀ fds : List FormatterData, fds.length < 2147483646 →
        validatorRuns io tupdesc (gpdbwritableformatter_import io tupdesc myData fd).myData
            fds = fds.map (fun _ => false) ∧
          (contextAfter io tupdesc (gpdbwritableformatter_import io tupdesc myData fd).myData
            fds).lineno ≤ 2147483647 := by
    intro hfirst hr fds hlen
    have hnew : (gpdbwritableformatter_import io tupdesc myData fd).myData.lineno = 2 := by
      rw [hl, if_pos hr, hfirst]
      rfl
    constructor
    · apply validatorRuns_later
      rw [hnew]
      unfold FIRST_LINE_NUM
      omega
    · have hc := (contextAfter_lineno io tupdesc fds
        (gpdbwritableformatter_import io tupdesc myData fd).myData).2
      rw [hnew] at hc
      omega
  refine ⟨⟨hl, ?_⟩, hsame, ?_, ?_, ?_⟩
  · rw [hl]
    split_ifs <;> omega
  · intro level kind hres hk
    obtain ⟨hr, hfirst⟩ := import_schema_error_reaches io tupdesc myData fd level kind hres hk
    refine ⟨hfirst, ?_, hlater hfirst hr⟩
    rw [hl, if_pos hr, hfirst]
  · intro hfirst hr
    refine ⟨?_, hlater hfirst hr⟩
    unfold runsValidator
    rw [hr, hfirst]
    rfl
  · intro hfirst hr fd1
    rw [hsame hr]
    unfold runsValidator
    rw [hfirst]
    simp

theorem counter_advances_at_schema_step_witness :
    (validatorRuns scenarioIo scenarioDesc
          (gpdbwritableformatter_import scenarioIo scenarioDesc (initImportContext [])
            ⟨mismatchRecord, 0, false, none⟩).myData
          [⟨mismatchRecord, 0, false, none⟩] =
        [false] ∧
      (contextAfter scenarioIo scenarioDesc
          (gpdbwritableformatter_import scenarioIo scenarioDesc (initImportContext [])
            ⟨mismatchRecord, 0, false, none⟩).myData
          [⟨mismatchRecord, 0, false, none⟩]).lineno ≤ 2147483647) ∧
    runsValidator
        (gpdbwritableformatter_import scenarioIo scenarioDesc (initImportContext [])
          ⟨mismatchRecord.take 20, 0, false, none⟩).myData ⟨mismatchRecord, 0, false, none⟩ =
      reachesSchemaParsing ⟨mismatchRecord, 0, false, none⟩ :=
  ⟨((counter_advances_at_schema_step scenarioIo scenarioDesc (initImportContext [])
      ⟨mismatchRecord, 0, false, none⟩ (by decide)).2.2.1 .ERROR
      (.TypeMismatch [("b", TEXTOID, INT8OID)])
      (by decide) (by decide)).2.2 [⟨mismatchRecord, 0, false, none⟩] (by decide),
    (counter_advances_at_schema_step scenarioIo scenarioDesc (initImportContext [])
      ⟨mismatchRecord.take 20, 0, false, none⟩ (by decide)).2.2.2.2 (by decide) (by decide)
      ⟨mismatchRecord, 0, false, none⟩⟩

/-! ## What the schema check accepts -/

theorem tagType_cases (t : Byte) (ht : t.val ≤ 7) :
    (t = 0 ∧ tagType t = INT8OID) ∨ (t = 1 ∧ tagType t = BOOLOID) ∨
      (t = 2 ∧ tagType t = FLOAT8OID) ∨ (t = 3 ∧ tagType t = INT4OID) ∨
      (t = 4 ∧ tagType t = FLOAT4OID) ∨ (t = 5 ∧ tagType t = INT2OID) ∨
      (t = 6 ∧ tagType t = BYTEAOID) ∨ (t = 7 ∧ tagType t = TEXTOID) := by
  have h : t = 0 ∨ t = 1 ∨ t = 2 ∨ t = 3 ∨ t = 4 ∨ t = 5 ∨ t = 6 ∨ t = 7 := by
    obtain ⟨v, hv⟩ := t
    have hv7 : v ≤ 7 := ht
    interval_cases v
    · exact Or.inl rfl
    · exact Or.inr (Or.inl rfl)
    · exact Or.inr (Or.inr (Or.inl rfl))
    · exact Or.inr (Or.inr (Or.inr (Or.inl rfl)))
    · exact Or.inr (Or.inr (Or.inr (Or.inr (Or.inl rfl))))
    · exact Or.inr (Or.inr (Or.inr (Or.inr (Or.inr (Or.inl rfl)))))
    · exact Or.inr (Or.inr (Or.inr (Or.inr (Or.inr (Or.inr (Or.inl rfl))))))
    · exact Or.inr (Or.inr (Or.inr (Or.inr (Or.inr (Or.inr (Or.inr rfl))))))
  rcases h with h | h | h | h | h | h | h | h <;> subst h <;> decide

theorem tag_accepted_iff (ty : Oid) (t : Byte) (ht : t.val ≤ 7) :
    isMismatch ty (tagType t) = false ↔ t = byteOfInt (getJavaEnumOrdinal ty) := by
  by_cases h1 : ty = INT8OID
  · subst h1
    rcases tagType_cases t ht with h | h | h | h | h | h | h | h <;>
      (obtain ⟨rfl, e⟩ := h; rw [e]; decide)
  by_cases h2 : ty = BOOLOID
  · subst h2
    rcases tagType_cases t ht with h | h | h | h | h | h | h | h <;>
      (obtain ⟨rfl, e⟩ := h; rw [e]; decide)
  by_cases h3 : ty = FLOAT8OID
  · subst h3
    rcases tagType_cases t ht with h | h | h | h | h | h | h | h <;>
      (obtain ⟨rfl, e⟩ := h; rw [e]; decide)
  by_cases h4 : ty = INT4OID
  · subst h4
    rcases tagType_cases t ht with h | h | h | h | h | h | h | h <;>
      (obtain ⟨rfl, e⟩ := h; rw [e]; decide)
  by_cases h5 : ty = FLOAT4OID
  · subst h5
    rcases tagType_cases t ht with h | h | h | h | h | h | h | h <;>
      (obtain ⟨rfl, e⟩ := h; rw [e]; decide)
  by_cases h6 : ty = INT2OID
  · subst h6
    rcases tagType_cases t ht with h | h | h | h | h | h | h | h <;>
      (obtain ⟨rfl, e⟩ := h; rw [e]; decide)
  by_cases h7 : ty = BYTEAOID
  · subst h7
    rcases tagType_cases t ht with h | h | h | h | h | h | h | h <;>
      (obtain ⟨rfl, e⟩ := h; rw [e]; decide)
  have hb : isBinaryFormatType ty = false := by
    simp [isBinaryFormatType, h1, h2, h3, h4, h5, h6, h7]
  have ho : getJavaEnumOrdinal ty = 7 := by
    simp [getJavaEnumOrdinal, h1, h2, h3, h4, h5, h6, h7]
  have e7 : byteOfInt 7 = (7 : Byte) := by decide
  rw [ho, e7]
  unfold isMismatch
  rw [hb]
  rcases tagType_cases t ht with h | h | h | h | h | h | h | h
  · obtain ⟨rfl, e⟩ := h
    rw [e]
    have : (INT8OID != ty) = true := by simpa using fun hc => h1 hc.symm
    rw [this]
    decide
  · obtain ⟨rfl, e⟩ := h
    rw [e]
    have : (BOOLOID != ty) = true := by simpa using fun hc => h2 hc.symm
    rw [this]
    decide
  · obtain ⟨rfl, e⟩ := h
    rw [e]
    have : (FLOAT8OID != ty) = true := by simpa using fun hc => h3 hc.symm
    rw [this]
    decide
  · obtain ⟨rfl, e⟩ := h
    rw [e]
    have : (INT4OID != ty) = true := by simpa using fun hc => h4 hc.symm
    rw [this]
    decide
  · obtain ⟨rfl, e⟩ := h
    rw [e]
    have : (FLOAT4OID != ty) = true := by simpa using fun hc => h5 hc.symm
    rw [this]
    decide
  · obtain ⟨rfl, e⟩ := h
    rw [e]
    have : (INT2OID != ty) = true := by simpa using fun hc => h6 hc.symm
    rw [this]
    decide
  · obtain ⟨rfl, e⟩ := h
    rw [e]
    have : (BYTEAOID != ty) = true := by simpa using fun hc => h7 hc.symm
    rw [this]
    decide
  · obtain ⟨rfl, e⟩ := h
    rw [e]
    have : isBinaryFormatType TEXTOID = false := by decide
    rw [this]
    simp

theorem zip_mismatch_nil_iff (l : List FormData_pg_attribute) :
    ∀ tags : List Byte, tags.length = l.length → (∀ t ∈ tags, t.val ≤ 7) →
      ((l.zip tags).filter (fun p => isMismatch p.1.atttypid (tagType p.2)) = [] ↔
        tags = l.map (fun a => byteOfInt (getJavaEnumOrdinal a.atttypid))) := by
  induction l with
  | nil =>
    intro tags hlen _
    have : tags = [] := List.length_eq_zero.mp (by simpa using hlen)
    subst this
    simp
  | cons a l ih =>
    intro tags hlen htags
    cases tags with
    | nil => simp at hlen
    | cons t ts =>
      have ht : t.val ≤ 7 := htags t (List.mem_cons_self _ _)
      have hrec := ih ts (by simpa using hlen) (fun x hx => htags x (List.mem_cons_of_mem _ hx))
      have hacc := tag_accepted_iff a.atttypid t ht
      simp only [List.zip_cons_cons, List.map_cons, List.cons.injEq]
      by_cases hm : isMismatch a.atttypid (tagType t) = true
      · have hne : ¬ t = byteOfInt (getJavaEnumOrdinal a.atttypid) := by
          intro hc
          rw [hacc.mpr hc] at hm
          cases hm
        simp [List.filter_cons, hm, hne]
      · simp only [Bool.not_eq_true] at hm
        have heq := hacc.mp hm
        rw [List.filter_cons, hm]
        simp only [Bool.false_eq_true, if_false]
        rw [hrec]
        constructor
        · intro h; exact ⟨heq, h⟩
        · intro h; exact h.2

theorem mismatchingColumns_nil_iff (tupdesc : TupleDesc) (tags : List Byte)
    (hlen : tags.length = tupdesc.countP (fun a => !a.attisdropped))
    (htags : ∀ t ∈ tags, t.val ≤ 7) :
    mismatchingColumns tupdesc tags = [] ↔ tags = tagBytes tupdesc := by
  unfold mismatchingColumns tagBytes
  rw [List.map_eq_nil_iff]
  exact zip_mismatch_nil_iff _ tags (by rw [hlen, List.countP_eq_length_filter]) htags

/-- C22: the schema check accepts exactly what the encoder emits. For a remote header
whose tags are all in 0..7, `verifyExternalTableDefinition` succeeds if and only if the
remote column count is the number of local attributes that are not dropped and the
remote tags are the ordinals `getJavaEnumOrdinal` gives for those attributes, in schema
order; on success `bufidx` has moved by the column count, which is what a later call
adds without the check. The tags of an exported record are accepted, and its column
count is read back when `natts` is in the range of `AttrNumber`. -/
theorem validator_accepts_encoder_tags (tupdesc : TupleDesc) (ncolumns_remote : Int)
    (tags pre post : List Byte) (bufidx : Int)
    (hlen : tags.length = ncolumns_remote.toNat) (htags : ∀ t ∈ tags, t.val ≤ 7)
    (hpre : bufidx = pre.length) :
    ((∃ b, verifyExternalTableDefinition ncolumns_remote (countValidColumns tupdesc) tupdesc
        (pre ++ (tags ++ post)) bufidx = .ok b) ↔
      (ncolumns_remote = countValidColumns tupdesc ∧ tags = tagBytes tupdesc)) ∧
    (∀ b, verifyExternalTableDefinition ncolumns_remote (countValidColumns tupdesc) tupdesc
        (pre ++ (tags ++ post)) bufidx = .ok b → b = bufidx + ncolumns_remote) ∧
    (∀ myData : format_t, myData.lineno ≠ FIRST_LINE_NUM →
      importSchema tupdesc myData (pre ++ (tags ++ post)) ncolumns_remote bufidx =
        .ok (bufidx + ncolumns_remote)) ∧
    (∀ (Datum : Type) (io : IoFunctions Datum) (rec : HeapTuple Datum),
      verifyExternalTableDefinition (countValidColumns tupdesc) (countValidColumns tupdesc)
          tupdesc (exportRecord io tupdesc rec) 9 = .ok (9 + countValidColumns tupdesc) ∧
        (tupdesc.length ≤ 32767 →
          importHeader (exportRecord io tupdesc rec) 4 = .ok (countValidColumns tupdesc, 9))) := by
  have hn0 := countValidColumns_nonneg tupdesc
  have hrule : ncolumns_remote = countValidColumns tupdesc →
      verifyExternalTableDefinition ncolumns_remote (countValidColumns tupdesc) tupdesc
        (pre ++ (tags ++ post)) bufidx =
      (if tags = tagBytes tupdesc then .ok (bufidx + ncolumns_remote)
       else .error (.ereport .ERROR (.TypeMismatch (mismatchingColumns tupdesc tags)))) := by
    intro hc
    have hcount : tags.length = tupdesc.countP (fun a => !a.attisdropped) := by
      rw [hlen, hc]; unfold countValidColumns; simp
    have hloop := verifyLoop_tags tupdesc tags pre post bufidx [] hcount htags hpre
    have hiff := mismatchingColumns_nil_iff tupdesc tags hcount htags
    have hl : ((tags.length : Nat) : Int) = ncolumns_remote := by
      rw [hcount, hc]; rfl
    unfold verifyExternalTableDefinition
    rw [if_neg (by simp [hc]), hloop]
    simp only [List.nil_append, ne_eq, ite_not, hl]
    by_cases he : mismatchingColumns tupdesc tags = []
    · rw [if_pos he, if_pos (hiff.mp he)]
    · rw [if_neg he, if_neg (fun h => he (hiff.mpr h))]
  refine ⟨?_, ?_, ?_, ?_⟩
  · constructor
    · rintro ⟨b, hb⟩
      by_cases hc : ncolumns_remote = countValidColumns tupdesc
      · refine ⟨hc, ?_⟩
        rw [hrule hc] at hb
        by_contra hne
        rw [if_neg hne] at hb
        cases hb
      · unfold verifyExternalTableDefinition at hb
        rw [if_pos hc] at hb
        cases hb
    · rintro ⟨hc, ht⟩
      exact ⟨_, by rw [hrule hc, if_pos ht]⟩
  · intro b hb
    by_cases hc : ncolumns_remote = countValidColumns tupdesc
    · rw [hrule hc] at hb
      split_ifs at hb
      simp only [Except.ok.injEq] at hb
      exact hb.symm
    · unfold verifyExternalTableDefinition at hb
      rw [if_pos hc] at hb
      cases hb
  · intro myData hline
    unfold importSchema
    rw [if_neg (fun h => hline h.symm)]
  · intro Datum io rec
    constructor
    · have := verifyLoop_tagBytes tupdesc
        (htonl (exportDatlen io tupdesc rec) ++ (htons GPDBWRITABLE_VERSION ++ ([byteOfInt 0] ++
          htons (countValidColumns tupdesc))))
        (exportNullBits tupdesc rec ++ ((exportChunks io tupdesc rec).flatten ++
          List.replicate (exportEndpadding io tupdesc rec).toNat 0)) 9 [] (by simp [htonl, htons])
      rw [exportRecord_eq]
      simp only [List.append_assoc] at this
      unfold verifyExternalTableDefinition
      rw [if_neg (fun h => h rfl), this]
      simp
    · intro hnatts
      have hn : countValidColumns tupdesc ≤ 32767 := by
        have : tupdesc.countP (fun a => !a.attisdropped) ≤ tupdesc.length :=
          List.countP_le_length _
        unfold countValidColumns; omega
      rw [exportRecord_eq]
      exact importHeader_export _ _ _ hn0 hn

theorem validator_accepts_encoder_tags_witness :
    (∃ b, verifyExternalTableDefinition 3 (countValidColumns scenarioDesc) scenarioDesc
        (unknownTagRecord.take 9 ++ ([3, 7, 1] ++ unknownTagRecord.drop 12)) 9 = .ok b) ↔
      ((3 : Int) = countValidColumns scenarioDesc ∧ [3, 7, 1] = tagBytes scenarioDesc) :=
  (validator_accepts_encoder_tags scenarioDesc 3 [3, 7, 1] (unknownTagRecord.take 9)
    (unknownTagRecord.drop 12) 9 (by decide)
    (by
      intro t ht
      simp only [List.mem_cons, List.mem_singleton, List.not_mem_nil, or_false] at ht
      rcases ht with h | h | h <;> subst h <;> decide)
    (by decide)).1

/-! ## A call that returns a tuple -/

theorem ofAbort_ne_tuple {Datum : Type} (a : Abort) (t : HeapTuple Datum) :
    (ImportResult.ofAbort a : ImportResult Datum) ≠ .tuple t := by
  cases a <;> (intro h; cases h)

/-- The steps a call that returns a tuple has gone through. -/
theorem import_tuple_inv {Datum : Type} (io : IoFunctions Datum) (tupdesc : TupleDesc)
    (myData : format_t) (fd : FormatterData) (t : HeapTuple Datum)
    (h : (gpdbwritableformatter_import io tupdesc myData fd).result = .tuple t) :
    ∃ tuplelen n bufidx1 bufidx2 b,
      readIntFromBuffer fd.databuf fd.datacursor = .ok (tuplelen, fd.datacursor + 4) ∧
        tuplelen ≤ (fd.databuf.length : Int) - fd.datacursor ∧
        importHeader fd.databuf (fd.datacursor + 4) = .ok (n, bufidx1) ∧
        importSchema tupdesc myData fd.databuf n bufidx1 = .ok bufidx2 ∧
        importWalk io tupdesc myData.formatter_error_level fd.databuf fd.datacursor tuplelen n
          bufidx2 = .ok (t, b) ∧
        fd.datacursor + tuplelen = DOUBLEALIGN b ∧
        (gpdbwritableformatter_import io tupdesc myData fd).datacursor =
          fd.datacursor + tuplelen := by
  have h0 : ∃ tuplelen bufidx, readIntFromBuffer fd.databuf fd.datacursor =
      .ok (tuplelen, bufidx) ∧ tuplelen ≤ (fd.databuf.length : Int) - fd.datacursor := by
    unfold gpdbwritableformatter_import at h
    dsimp only at h
    by_cases h1 : ((fd.databuf.length : Int) - fd.datacursor = 0 ∧ fd.saw_eof = true)
    · rw [if_pos h1] at h
      cases h
    · rw [if_neg h1] at h
      by_cases h2 : (fd.databuf.length : Int) - fd.datacursor < 4
      · rw [if_pos h2] at h
        cases hs : fd.saw_eof <;> (rw [hs] at h; cases h)
      · rw [if_neg h2] at h
        cases hread : readIntFromBuffer fd.databuf fd.datacursor with
        | error e =>
          rw [hread] at h
          exact absurd h (ofAbort_ne_tuple e t)
        | ok r =>
          rw [hread] at h
          dsimp only at h
          by_cases h3 : (fd.databuf.length : Int) - fd.datacursor < r.1
          · rw [if_pos h3] at h
            cases hs : fd.saw_eof <;> (rw [hs] at h; cases h)
          · exact ⟨r.1, r.2, rfl, by omega⟩
  obtain ⟨tuplelen, bufidx, hread, hfull⟩ := h0
  have hr := readIntFromBuffer_ok _ _ _ _ hread
  obtain ⟨-, hb4, -⟩ := hr
  subst hb4
  rw [import_of_framed io tupdesc myData fd tuplelen _ hread hfull] at h ⊢
  cases hhdr : importHeader fd.databuf (fd.datacursor + 4) with
  | error e =>
    rw [hhdr] at h
    exact absurd h (ofAbort_ne_tuple e t)
  | ok r1 =>
    rw [hhdr] at h
    dsimp only at h ⊢
    cases hbody : importBody io tupdesc myData fd.databuf fd.datacursor tuplelen r1.1 r1.2 with
    | error e =>
      rw [hbody] at h
      exact absurd h (ofAbort_ne_tuple e t)
    | ok t1 =>
      rw [hbody] at h
      dsimp only at h ⊢
      simp only [ImportResult.tuple.injEq] at h
      subst h
      rw [importBody_eq] at hbody
      cases hs : importSchema tupdesc myData fd.databuf r1.1 r1.2 with
      | error e =>
        rw [hs] at hbody
        cases hbody
      | ok bufidx2 =>
        rw [hs] at hbody
        dsimp only at hbody
        cases hw : importWalk io tupdesc myData.formatter_error_level fd.databuf fd.datacursor
            tuplelen r1.1 bufidx2 with
        | error e =>
          rw [hw] at hbody
          cases hbody
        | ok r2 =>
          rw [hw] at hbody
          dsimp only at hbody
          by_cases hend : fd.datacursor + tuplelen ≠ DOUBLEALIGN r2.2
          · rw [if_pos hend] at hbody
            cases hbody
          · rw [if_neg hend] at hbody
            simp only [Except.ok.injEq] at hbody
            refine ⟨tuplelen, r1.1, r1.2, bufidx2, r2.2, hread, hfull, rfl, hs, ?_, ?_, rfl⟩
            · rw [← hbody]
              exact hw
            · simpa using hend

theorem importHeader_ge (buf : List Byte) (off n b : Int)
    (h : importHeader buf off = .ok (n, b)) : off + 4 ≤ b := by
  unfold importHeader at h
  split at h
  · simp at h
  · rename_i v b1 h1
    have := readInt2FromBuffer_ok _ _ _ _ h1
    dsimp only at h
    split_ifs at h
    split at h
    · simp at h
    · rename_i flag b2 h2
      have hb2 : b1 ≤ b2 := by
        unfold readErrorFlag at h2
        split_ifs at h2
        · split at h2
          · simp at h2
          · rename_i f b3 h3
            simp only [Except.ok.injEq, Prod.mk.injEq] at h2
            unfold readInt1FromBuffer readBytes at h3
            split_ifs at h3
            simp only [Except.ok.injEq, Prod.mk.injEq] at h3
            omega
        · simp only [Except.ok.injEq, Prod.mk.injEq] at h2
          omega
      split_ifs at h
      · split at h <;> simp at h
      · split at h
        · simp at h
        · rename_i n3 b3 h3
          have := readInt2FromBuffer_ok _ _ _ _ h3
          simp only [Except.ok.injEq, Prod.mk.injEq] at h
          omega

theorem verifyLoop_bufidx (buf : List Byte) (attrs : TupleDesc) :
    ∀ (bufidx : Int) (errMsg : List (String × Oid × Oid)) (b : Int)
      (errMsg1 : List (String × Oid × Oid)),
      verifyLoop buf attrs bufidx errMsg = .ok (b, errMsg1) →
      b = bufidx + countValidColumns attrs := by
  induction attrs with
  | nil =>
    intro bufidx errMsg b errMsg1 h
    simp only [verifyLoop, Except.ok.injEq, Prod.mk.injEq] at h
    simp [countValidColumns, h.1]
  | cons a attrs ih =>
    intro bufidx errMsg b errMsg1 h
    unfold verifyLoop at h
    by_cases hd : a.attisdropped = true
    · rw [if_pos hd] at h
      have := ih _ _ _ _ h
      simpa [countValidColumns, List.countP_cons, hd] using this
    · rw [if_neg hd] at h
      simp only [Bool.not_eq_true] at hd
      have hcount : countValidColumns (a :: attrs) = 1 + countValidColumns attrs := by
        simp [countValidColumns, List.countP_cons, hd]; omega
      dsimp only at h
      split at h
      · cases h
      · rename_i t b1 h1
        have hb1 : b1 = bufidx + 1 := by
          unfold readInt1FromBuffer readBytes at h1
          split_ifs at h1
          simp only [Except.ok.injEq, Prod.mk.injEq] at h1
          omega
        split at h
        · cases h
        · split_ifs at h
          · have := ih _ _ _ _ h
            rw [hcount]; omega
          · have := ih _ _ _ _ h
            rw [hcount]; omega

theorem importSchema_bufidx (tupdesc : TupleDesc) (myData : format_t) (buf : List Byte)
    (n bufidx b : Int) (h : importSchema tupdesc myData buf n bufidx = .ok b) :
    b = bufidx + n ∧ (myData.lineno = FIRST_LINE_NUM → n = countValidColumns tupdesc) := by
  unfold importSchema at h
  by_cases hl : FIRST_LINE_NUM = myData.lineno
  · rw [if_pos hl] at h
    unfold verifyExternalTableDefinition at h
    by_cases hc : n ≠ countValidColumns tupdesc
    · rw [if_pos hc] at h
      cases h
    · rw [if_neg hc] at h
      simp only [ne_eq, not_not] at hc
      split at h
      · cases h
      · rename_i b1 e h1
        have := verifyLoop_bufidx _ _ _ _ _ _ h1
        split_ifs at h
        simp only [Except.ok.injEq] at h
        exact ⟨by rw [← h, this, hc], fun _ => hc⟩
  · rw [if_neg hl] at h
    simp only [Except.ok.injEq] at h
    exact ⟨h.symm, fun hc => absurd hc.symm hl⟩

theorem importColumns_forward {Datum : Type} (io : IoFunctions Datum) (level : ErrLevel)
    (buf : List Byte) (tuplelen tupleEndIdx : Int) (attrs : TupleDesc) :
    ∀ (nulls : List Bool) (i : Nat) (bufidx : Int) (vals : List (Option Datum)) (b : Int),
      declaredLengthsNonneg io level buf tuplelen tupleEndIdx attrs nulls i bufidx = true →
      importColumns io level buf tuplelen tupleEndIdx attrs nulls i bufidx = .ok (vals, b) →
      bufidx ≤ b := by
  induction attrs with
  | nil =>
    intro nulls i bufidx vals b _ h
    simp only [importColumns, Except.ok.injEq, Prod.mk.injEq] at h
    omega
  | cons attr attrs ih =>
    intro nulls i bufidx vals b hfw h
    cases nulls with
    | nil =>
      simp only [importColumns, Except.ok.injEq, Prod.mk.injEq] at h
      omega
    | cons nul nulls =>
      unfold declaredLengthsNonneg at hfw
      unfold importColumns at h
      by_cases hc : (attr.attisdropped || nul) = true
      · rw [if_pos hc] at hfw h
        cases hrec : importColumns io level buf tuplelen tupleEndIdx attrs nulls (i + 1) bufidx with
        | error e => rw [hrec] at h; cases h
        | ok r => exact ih nulls (i + 1) bufidx r.1 r.2 hfw hrec |>.trans (by
            rw [hrec] at h
            simp only [Except.ok.injEq, Prod.mk.injEq] at h
            omega)
      · rw [if_neg hc] at hfw h
        cases hl : importColumnLength level buf tuplelen attr i bufidx with
        | error e => rw [hl] at h; cases h
        | ok r =>
          have hge := importColumnLength_ge level buf tuplelen attr i bufidx r.1 r.2 hl
          rw [hl] at hfw h
          dsimp only at hfw h
          cases hv : importColumnValue io buf attr i r.1 r.2 with
          | error e => rw [hv] at h; cases h
          | ok v =>
            rw [hv] at hfw h
            dsimp only at hfw h
            by_cases hg : r.2 + r.1 > tupleEndIdx
            · rw [if_pos hg] at h
              cases h
            · rw [if_neg hg] at hfw h
              simp only [Bool.and_eq_true, decide_eq_true_eq] at hfw
              cases hrec : importColumns io level buf tuplelen tupleEndIdx attrs nulls (i + 1)
                  (r.2 + r.1) with
              | error e => rw [hrec] at h; cases h
              | ok r1 =>
                have := ih nulls (i + 1) (r.2 + r.1) r1.1 r1.2 hfw.2 hrec
                rw [hrec] at h
                simp only [Except.ok.injEq, Prod.mk.injEq] at h
                omega

theorem importWalk_forward {Datum : Type} (io : IoFunctions Datum) (tupdesc : TupleDesc)
    (level : ErrLevel) (buf : List Byte) (data_cur tuplelen n bufidx1 : Int)
    (vals : List (Option Datum)) (b : Int)
    (hfw : walkForward io tupdesc level buf data_cur tuplelen n bufidx1 = true)
    (h : importWalk io tupdesc level buf data_cur tuplelen n bufidx1 = .ok (vals, b)) :
    bufidx1 + getNullByteArraySize n ≤ b := by
  unfold walkForward at hfw
  unfold importWalk at h
  cases hp : pointerAt buf bufidx1 with
  | error e => rw [hp] at h; cases h
  | ok p =>
    rw [hp] at hfw h
    dsimp only at hfw h
    cases hb : byteArrayToBoolArray p tupdesc with
    | error e => rw [hb] at h; cases h
    | ok nulls =>
      rw [hb] at hfw h
      dsimp only at hfw h
      exact importColumns_forward io level buf tuplelen _ tupdesc nulls 0 _ vals b hfw h

/-- C23 as stated fails: the record declares the total length 0 and its one column the
length -16; the call returns a row and leaves the data cursor at 0, and so does the
next call on the state it left. -/
theorem zero_length_record_no_progress :
    readIntFromBuffer zeroLengthRecord 0 = .ok (0, 4) ∧
    gpdbwritableformatter_import scenarioIo oneTextDesc (initImportContext [])
        ⟨zeroLengthRecord, 0, false, none⟩ =
      ⟨.tuple [some (.text [0x61])], { lineno := 2, formatter_error_level := .ERROR }, 0,
        some (0, 0)⟩ ∧
    gpdbwritableformatter_import scenarioIo oneTextDesc
        { lineno := 2, formatter_error_level := .ERROR }
        ⟨zeroLengthRecord, 0, false, some (0, 0)⟩ =
      ⟨.tuple [some (.text [0x61])], { lineno := 3, formatter_error_level := .ERROR }, 0,
        some (0, 0)⟩ := by
  decide

/-- C23 amended: bounds of a call that returns a tuple. The new data cursor is the old
one plus the declared total length, does not exceed the number of valid bytes and is a
multiple of 8. When the column count is not negative (on the first line the schema
check sees to that) and every column the column loop gets past has a length that is not
negative, the declared total length is at least 8 and the new data cursor is greater
than the old one. -/
theorem decode_progress_bounds {Datum : Type} (io : IoFunctions Datum) (tupdesc : TupleDesc)
    (myData : format_t) (fd : FormatterData) (t : HeapTuple Datum) (tuplelen bufidx : Int)
    (h : (gpdbwritableformatter_import io tupdesc myData fd).result = .tuple t)
    (hread : readIntFromBuffer fd.databuf fd.datacursor = .ok (tuplelen, bufidx)) :
    (gpdbwritableformatter_import io tupdesc myData fd).datacursor = fd.datacursor + tuplelen ∧
      (gpdbwritableformatter_import io tupdesc myData fd).datacursor ≤ fd.databuf.length ∧
      (gpdbwritableformatter_import io tupdesc myData fd).datacursor % 8 = 0 ∧
      ∀ n bufidx1, importHeader fd.databuf bufidx = .ok (n, bufidx1) →
        (myData.lineno ≠ FIRST_LINE_NUM → 0 ≤ n) →
        walkForward io tupdesc myData.formatter_error_level fd.databuf fd.datacursor tuplelen n
          (bufidx1 + n) = true →
        8 ≤ tuplelen ∧
          fd.datacursor < (gpdbwritableformatter_import io tupdesc myData fd).datacursor := by
  obtain ⟨tuplelen1, n1, b1, b2, b, hread1, hfull, hhdr, hschema, hwalk, hend, hcur⟩ :=
    import_tuple_inv io tupdesc myData fd t h
  rw [hread] at hread1
  simp only [Except.ok.injEq, Prod.mk.injEq] at hread1
  obtain ⟨h1, h2⟩ := hread1
  subst h1 h2
  have hDA := DOUBLEALIGN_bounds b
  refine ⟨hcur, by rw [hcur]; omega, by rw [hcur, hend]; exact hDA.2.2, ?_⟩
  intro n bufidx1 hhdr1 hn hfw
  rw [hhdr] at hhdr1
  simp only [Except.ok.injEq, Prod.mk.injEq] at hhdr1
  obtain ⟨h1, h2⟩ := hhdr1
  subst h1 h2
  obtain ⟨hb2, hfirst⟩ := importSchema_bufidx tupdesc myData fd.databuf n1 b1 b2 hschema
  subst hb2
  have hge := importHeader_ge _ _ _ _ hhdr
  have hn0 : 0 ≤ n1 := by
    by_cases hl : myData.lineno = FIRST_LINE_NUM
    · rw [hfirst hl]; exact countValidColumns_nonneg tupdesc
    · exact hn hl
  have hnb : 0 ≤ getNullByteArraySize n1 := by
    have e : n1 = ((n1.toNat : Nat) : Int) := by omega
    rw [e, getNullByteArraySize_nat]
    omega
  have hfwd := importWalk_forward io tupdesc myData.formatter_error_level fd.databuf
    fd.datacursor tuplelen n1 (b1 + n1) t b hfw hwalk
  rw [hcur]
  omega

theorem decode_progress_bounds_witness :
    8 ≤ (32 : Int) ∧
      (0 : Int) < (gpdbwritableformatter_import scenarioIo scenarioDesc (initImportContext [])
        ⟨exportRecord scenarioIo scenarioDesc scenarioRow, 0, false, none⟩).datacursor :=
  (decode_progress_bounds scenarioIo scenarioDesc (initImportContext [])
    ⟨exportRecord scenarioIo scenarioDesc scenarioRow, 0, false, none⟩ scenarioRow 32 4
    (by decide) (by decide)).2.2.2 3 9 (by decide) (by decide) (by decide)

/-! ## The extents of the column values -/

theorem importColumnLength_facts (level : ErrLevel) (buf : List Byte) (tuplelen : Int)
    (attr : FormData_pg_attribute) (i : Nat) (bufidx outlen bufidx1 : Int)
    (h : importColumnLength level buf tuplelen attr i bufidx = .ok (outlen, bufidx1)) :
    (isVariableLength attr.atttypid = true →
        readIntFromBuffer buf (bufidx1 - 4) = .ok (outlen, bufidx1) ∧ outlen ≤ tuplelen) ∧
      (isVariableLength attr.atttypid = false → outlen = attr.attlen) := by
  unfold importColumnLength at h
  by_cases hv : isVariableLength attr.atttypid = true
  · rw [if_pos hv] at h
    refine ⟨fun _ => ?_, fun hc => (by rw [hv] at hc; cases hc)⟩
    cases hr : readIntFromBuffer buf (INTALIGN bufidx) with
    | error e => rw [hr] at h; cases h
    | ok r =>
      have hok := readIntFromBuffer_ok _ _ _ _ hr
      rw [hr] at h
      dsimp only at h
      by_cases hg : r.1 > tuplelen
      · rw [if_pos hg] at h
        cases h
      · rw [if_neg hg] at h
        simp only [Except.ok.injEq, Prod.mk.injEq] at h
        obtain ⟨h1, h2⟩ := h
        subst h1 h2
        have e : r.2 - 4 = INTALIGN bufidx := by omega
        rw [e]
        exact ⟨hr, by omega⟩
  · rw [if_neg hv] at h
    simp only [Bool.not_eq_true] at hv
    simp only [Except.ok.injEq, Prod.mk.injEq] at h
    exact ⟨fun hc => (by rw [hv] at hc; cases hc), fun _ => h.1.symm⟩

theorem importColumnValue_fixed {Datum : Type} (io : IoFunctions Datum) (buf : List Byte)
    (attr : FormData_pg_attribute) (i : Nat) (outlen bufidx : Int) (v : Datum)
    (hv : isVariableLength attr.atttypid = false)
    (h : importColumnValue io buf attr i outlen bufidx = .ok v) : 0 ≤ outlen := by
  have hb : isBinaryFormatType attr.atttypid = true := by
    simp only [isVariableLength, Bool.or_eq_false_iff, Bool.not_eq_false'] at hv
    exact hv.2
  unfold importColumnValue at h
  rw [if_pos hb] at h
  by_cases hneg : outlen < 0
  · rw [if_pos hneg] at h
    cases h
  · omega

theorem columnExtents_bounds {Datum : Type} (io : IoFunctions Datum) (level : ErrLevel)
    (buf : List Byte) (tuplelen tupleEndIdx : Int) (attrs : TupleDesc) :
    ∀ (nulls : List Bool) (i : Nat) (bufidx : Int),
      ∀ e ∈ columnExtents io level buf tuplelen tupleEndIdx attrs nulls i bufidx,
        (isVariableLength e.1.atttypid = true →
            readIntFromBuffer buf (e.2.1 - 4) = .ok (e.2.2, e.2.1) ∧ e.2.2 ≤ tuplelen) ∧
          (isVariableLength e.1.atttypid = false → e.2.2 = e.1.attlen ∧ 0 ≤ e.2.2) ∧
          e.2.1 + e.2.2 ≤ tupleEndIdx := by
  induction attrs with
  | nil => intro nulls i bufidx e he; simp [columnExtents] at he
  | cons attr attrs ih =>
    intro nulls i bufidx e he
    cases nulls with
    | nil => simp [columnExtents] at he
    | cons nul nulls =>
      unfold columnExtents at he
      by_cases hc : (attr.attisdropped || nul) = true
      · rw [if_pos hc] at he
        exact ih nulls (i + 1) bufidx e he
      · rw [if_neg hc] at he
        cases hl : importColumnLength level buf tuplelen attr i bufidx with
        | error a => rw [hl] at he; simp at he
        | ok r =>
          have hfacts := importColumnLength_facts level buf tuplelen attr i bufidx r.1 r.2 hl
          rw [hl] at he
          dsimp only at he
          cases hv : importColumnValue io buf attr i r.1 r.2 with
          | error a => rw [hv] at he; simp at he
          | ok v =>
            rw [hv] at he
            dsimp only at he
            by_cases hg : r.2 + r.1 > tupleEndIdx
            · rw [if_pos hg] at he
              simp at he
            · rw [if_neg hg] at he
              rcases List.mem_cons.mp he with he1 | he1
              · subst he1
                refine ⟨hfacts.1, fun hvar => ⟨hfacts.2 hvar, ?_⟩, by dsimp only; omega⟩
                exact importColumnValue_fixed io buf attr i r.1 r.2 v hvar hv
              · exact ih nulls (i + 1) (r.2 + r.1) e he1

theorem columnExtents_order {Datum : Type} (io : IoFunctions Datum) (level : ErrLevel)
    (buf : List Byte) (tuplelen tupleEndIdx : Int) (attrs : TupleDesc) :
    ∀ (nulls : List Bool) (i : Nat) (bufidx : Int),
      (∀ e ∈ columnExtents io level buf tuplelen tupleEndIdx attrs nulls i bufidx, 0 ≤ e.2.2) →
      (∀ e ∈ columnExtents io level buf tuplelen tupleEndIdx attrs nulls i bufidx,
          bufidx ≤ e.2.1) ∧
        (columnExtents io level buf tuplelen tupleEndIdx attrs nulls i bufidx).Pairwise
          (fun e1 e2 => e1.2.1 + e1.2.2 ≤ e2.2.1) := by
  induction attrs with
  | nil => intro nulls i bufidx _; simp [columnExtents]
  | cons attr attrs ih =>
    intro nulls i bufidx hnn
    cases nulls with
    | nil => simp [columnExtents]
    | cons nul nulls =>
      unfold columnExtents at hnn ⊢
      by_cases hc : (attr.attisdropped || nul) = true
      · rw [if_pos hc] at hnn ⊢
        exact ih nulls (i + 1) bufidx hnn
      · rw [if_neg hc] at hnn ⊢
        cases hl : importColumnLength level buf tuplelen attr i bufidx with
        | error a => simp
        | ok r =>
          have hge := importColumnLength_ge level buf tuplelen attr i bufidx r.1 r.2 hl
          rw [hl] at hnn
          dsimp only at hnn ⊢
          cases hv : importColumnValue io buf attr i r.1 r.2 with
          | error a => simp
          | ok v =>
            rw [hv] at hnn
            dsimp only at hnn ⊢
            by_cases hg : r.2 + r.1 > tupleEndIdx
            · rw [if_pos hg]
              simp
            · rw [if_neg hg] at hnn ⊢
              have h0 : 0 ≤ r.1 := hnn (attr, r.2, r.1) (List.mem_cons_self _ _)
              obtain ⟨hstart, hpair⟩ := ih nulls (i + 1) (r.2 + r.1)
                (fun e he => hnn e (List.mem_cons_of_mem _ he))
              refine ⟨?_, List.Pairwise.cons (fun e he => hstart e he) hpair⟩
              intro e he
              rcases List.mem_cons.mp he with he1 | he1
              · subst he1
                exact hge
              · have := hstart e he1
                omega

theorem columnExtents_attrs {Datum : Type} (io : IoFunctions Datum) (level : ErrLevel)
    (buf : List Byte) (tuplelen tupleEndIdx : Int) (attrs : TupleDesc) :
    ∀ (nulls : List Bool) (i : Nat) (bufidx : Int) (vals : List (Option Datum)) (b : Int),
      importColumns io level buf tuplelen tupleEndIdx attrs nulls i bufidx = .ok (vals, b) →
      (columnExtents io level buf tuplelen tupleEndIdx attrs nulls i bufidx).map (fun e => e.1) =
        ((attrs.zip nulls).filter (fun p => !(p.1.attisdropped || p.2))).map (fun p => p.1) := by
  induction attrs with
  | nil => intro nulls i bufidx vals b _; simp [columnExtents]
  | cons attr attrs ih =>
    intro nulls i bufidx vals b h
    cases nulls with
    | nil => simp [columnExtents]
    | cons nul nulls =>
      unfold columnExtents
      unfold importColumns at h
      rw [List.zip_cons_cons, List.filter_cons]
      by_cases hc : (attr.attisdropped || nul) = true
      · rw [if_pos hc] at h ⊢
        simp only [hc, Bool.not_true, Bool.false_eq_true, if_false]
        cases hrec : importColumns io level buf tuplelen tupleEndIdx attrs nulls (i + 1) bufidx with
        | error e => rw [hrec] at h; cases h
        | ok r => exact ih nulls (i + 1) bufidx r.1 r.2 hrec
      · rw [if_neg hc] at h ⊢
        simp only [Bool.not_eq_true] at hc
        simp only [hc, Bool.not_false, if_true]
        cases hl : importColumnLength level buf tuplelen attr i bufidx with
        | error e => rw [hl] at h; cases h
        | ok r =>
          rw [hl] at h
          dsimp only at h ⊢
          cases hv : importColumnValue io buf attr i r.1 r.2 with
          | error e => rw [hv] at h; cases h
          | ok v =>
            rw [hv] at h
            dsimp only at h ⊢
            by_cases hg : r.2 + r.1 > tupleEndIdx
            · rw [if_pos hg] at h
              cases h
            · rw [if_neg hg] at h ⊢
              cases hrec : importColumns io level buf tuplelen tupleEndIdx attrs nulls (i + 1)
                  (r.2 + r.1) with
              | error e => rw [hrec] at h; cases h
              | ok r1 =>
                rw [List.map_cons, List.map_cons, ih nulls (i + 1) (r.2 + r.1) r1.1 r1.2 hrec]

/-- C24 as stated fails: both columns of the record read the length -4 from the prefix
at offset 12 and the string at offset 16, and the call returns a row; the extents of
the two values are the same and end in front of where they start. -/
theorem negative_length_returns_row :
    readIntFromBuffer overlapRecord 12 = .ok (-4, 16) ∧
    (gpdbwritableformatter_import scenarioIo twoTextDesc (initImportContext [])
        ⟨overlapRecord, 0, false, none⟩).result =
      .tuple [some (.text [0x68, 0x69]), some (.text [0x68, 0x69])] ∧
    columnExtents scenarioIo .ERROR overlapRecord 16 16 twoTextDesc [false, false] 0 12 =
      [(⟨"b", TEXTOID, -1, 'i', false⟩, 16, -4), (⟨"c", TEXTOID, -1, 'i', false⟩, 16, -4)] := by
  decide

/-- C24 amended: the lengths of a call that returns a tuple. The column loop got past
every attribute that is neither dropped nor null, in schema order. The length of a
variable length column is the `int` read from the four bytes in front of its value and
is at most the declared total length; the length of a fixed length column is `attlen`
and not negative; no value ends behind the end of the record. When the lengths of the
variable length columns are not negative, every value starts where the one before it
ends or behind, and, with a column count that is not negative, behind the header of the
record. -/
theorem declared_lengths_bounds {Datum : Type} (io : IoFunctions Datum) (tupdesc : TupleDesc)
    (myData : format_t) (fd : FormatterData) (t : HeapTuple Datum)
    (tuplelen bufidx n bufidx1 : Int) (nullByteArray : List Byte) (nulls : List Bool)
    (h : (gpdbwritableformatter_import io tupdesc myData fd).result = .tuple t)
    (hread : readIntFromBuffer fd.databuf fd.datacursor = .ok (tuplelen, bufidx))
    (hhdr : importHeader fd.databuf bufidx = .ok (n, bufidx1))
    (hptr : pointerAt fd.databuf (bufidx1 + n) = .ok nullByteArray)
    (hnulls : byteArrayToBoolArray nullByteArray tupdesc = .ok nulls) :
    (columnExtents io myData.formatter_error_level fd.databuf tuplelen
          (fd.datacursor + tuplelen) tupdesc nulls 0 (bufidx1 + n + getNullByteArraySize n)).map
        (fun e => e.1) =
      ((tupdesc.zip nulls).filter (fun p => !(p.1.attisdropped || p.2))).map (fun p => p.1) ∧
    (∀ e ∈ columnExtents io myData.formatter_error_level fd.databuf tuplelen
        (fd.datacursor + tuplelen) tupdesc nulls 0 (bufidx1 + n + getNullByteArraySize n),
      (isVariableLength e.1.atttypid = true →
          readIntFromBuffer fd.databuf (e.2.1 - 4) = .ok (e.2.2, e.2.1) ∧ e.2.2 ≤ tuplelen) ∧
        (isVariableLength e.1.atttypid = false → e.2.2 = e.1.attlen ∧ 0 ≤ e.2.2) ∧
        e.2.1 + e.2.2 ≤ fd.datacursor + tuplelen) ∧
    ((∀ e ∈ columnExtents io myData.formatter_error_level fd.databuf tuplelen
        (fd.datacursor + tuplelen) tupdesc nulls 0 (bufidx1 + n + getNullByteArraySize n),
        isVariableLength e.1.atttypid = true → 0 ≤ e.2.2) →
      (columnExtents io myData.formatter_error_level fd.databuf tuplelen
          (fd.datacursor + tuplelen) tupdesc nulls 0
          (bufidx1 + n + getNullByteArraySize n)).Pairwise
          (fun e1 e2 => e1.2.1 + e1.2.2 ≤ e2.2.1) ∧
        ((myData.lineno ≠ FIRST_LINE_NUM → 0 ≤ n) →
          ∀ e ∈ columnExtents io myData.formatter_error_level fd.databuf tuplelen
            (fd.datacursor + tuplelen) tupdesc nulls 0 (bufidx1 + n + getNullByteArraySize n),
            fd.datacursor + 8 ≤ e.2.1)) := by
  obtain ⟨tuplelen1, n1, b1, b2, b, hread1, hfull, hhdr1, hschema, hwalk, hend, hcur⟩ :=
    import_tuple_inv io tupdesc myData fd t h
  rw [hread] at hread1
  simp only [Except.ok.injEq, Prod.mk.injEq] at hread1
  obtain ⟨e1, e2⟩ := hread1
  subst e1 e2
  rw [hhdr] at hhdr1
  simp only [Except.ok.injEq, Prod.mk.injEq] at hhdr1
  obtain ⟨e1, e2⟩ := hhdr1
  subst e1 e2
  obtain ⟨hb2, hfirst⟩ := importSchema_bufidx tupdesc myData fd.databuf n bufidx1 b2 hschema
  subst hb2
  have hcols : importColumns io myData.formatter_error_level fd.databuf tuplelen
      (fd.datacursor + tuplelen) tupdesc nulls 0 (bufidx1 + n + getNullByteArraySize n) =
      .ok (t, b) := by
    unfold importWalk at hwalk
    rw [hptr] at hwalk
    dsimp only at hwalk
    rw [hnulls] at hwalk
    exact hwalk
  have hbounds := columnExtents_bounds io myData.formatter_error_level fd.databuf tuplelen
    (fd.datacursor + tuplelen) tupdesc nulls 0 (bufidx1 + n + getNullByteArraySize n)
  refine ⟨columnExtents_attrs io _ _ _ _ tupdesc nulls 0 _ t b hcols, hbounds, ?_⟩
  intro hnn
  have hall : ∀ e ∈ columnExtents io myData.formatter_error_level fd.databuf tuplelen
      (fd.datacursor + tuplelen) tupdesc nulls 0 (bufidx1 + n + getNullByteArraySize n),
      0 ≤ e.2.2 := by
    intro e he
    by_cases hv : isVariableLength e.1.atttypid = true
    · exact hnn e he hv
    · simp only [Bool.not_eq_true] at hv
      exact ((hbounds e he).2.1 hv).2
  obtain ⟨hstart, hpair⟩ := columnExtents_order io myData.formatter_error_level fd.databuf
    tuplelen (fd.datacursor + tuplelen) tupdesc nulls 0 (bufidx1 + n + getNullByteArraySize n)
    hall
  refine ⟨hpair, ?_⟩
  intro hn e he
  have hge := importHeader_ge _ _ _ _ hhdr
  have hn0 : 0 ≤ n := by
    by_cases hl : myData.lineno = FIRST_LINE_NUM
    · rw [hfirst hl]; exact countValidColumns_nonneg tupdesc
    · exact hn hl
  have hnb : 0 ≤ getNullByteArraySize n := by
    have e : n = ((n.toNat : Nat) : Int) := by omega
    rw [e, getNullByteArraySize_nat]
    omega
  have := hstart e he
  omega

theorem declared_lengths_bounds_witness :
    (columnExtents scenarioIo (initImportContext []).formatter_error_level unknownTagRecord 32
        (0 + 32) scenarioDesc [false, false, true] 0 (9 + 3 + getNullByteArraySize 3)).Pairwise
      (fun e1 e2 => e1.2.1 + e1.2.2 ≤ e2.2.1) :=
  ((declared_lengths_bounds scenarioIo scenarioDesc
    { lineno := 2, formatter_error_level := .ERROR } ⟨unknownTagRecord, 0, false, none⟩
    scenarioRow 32 4 3 9 (unknownTagRecord.drop 12) [false, false, true]
    (by decide) (by decide) (by decide) (by decide) (by decide)).2.2
    (by decide)).1

/-! ## Unexpected end of file -/

end GpdbWritable
